import Mathlib

/-!
# Verification of the Blinkit price-scraper extraction engine

A shallow embedding, in Lean 4, of the pure extraction / normalization /
aggregation core of the scraper (the heuristic product-extraction engine):
JSON values, field canonicalization, candidate filtering, normalization,
cross-source deduplication, the priority waterfall, and the pagination
prober.  JavaScript numbers are modelled as rationals (all numbers arising
from JSON payloads are finite); NaN/Infinity appear only as the `none`
result of numeric coercion.  JS object identity is modelled structurally
(the model's values are finite trees); `undefined` and `null` are both
modelled by `JSON.null` where only truthiness/typeof matter.
-/

/-- Arbitrary JSON value (a `RawNode`): the input data of the extractor. -/
inductive JSON where
  | null : JSON
  | bool (b : Bool) : JSON
  | num (q : ℚ) : JSON
  | str (s : String) : JSON
  | arr (elems : List JSON) : JSON
  | obj (fields : List (String × JSON)) : JSON

/-- Whitespace as trimmed by `String.prototype.trim` (ASCII fragment). -/
def isWS (c : Char) : Bool :=
  c = ' ' ∨ c = '\t' ∨ c = '\n' ∨ c = '\r' ∨ c = '\x0b' ∨ c = '\x0c'

/-- `trim` on a character list: drop whitespace from both ends. -/
def trimList (l : List Char) : List Char :=
  ((l.dropWhile isWS).reverse.dropWhile isWS).reverse

/-- Models `String.prototype.trim`. -/
def jsTrim (s : String) : String := String.mk (trimList s.toList)

/-- Does `l` start with `pat`? -/
def startsWithList : List Char → List Char → Bool
  | [], _ => true
  | _ :: _, [] => false
  | p :: ps, c :: cs => p = c && startsWithList ps cs

/-- Does `l` contain `pat` as a contiguous run? (models `String.prototype.includes`) -/
def hasSubList (pat : List Char) : List Char → Bool
  | [] => startsWithList pat []
  | c :: cs => startsWithList pat (c :: cs) || hasSubList pat cs

/-- Models `String.prototype.includes`. -/
def containsSub (s pat : String) : Bool := hasSubList pat.toList s.toList

/-- Models `String.prototype.startsWith`. -/
def jsStartsWith (s pat : String) : Bool := startsWithList pat.toList s.toList

/-- ASCII lowercasing of one character (the fragment of JS `toLowerCase`
exercised by the source's patterns and slugs). -/
def charLower (c : Char) : Char :=
  if 'A' ≤ c ∧ c ≤ 'Z' then Char.ofNat (c.toNat + 32) else c

/-- Models `String.prototype.toLowerCase` (ASCII fragment). -/
def strLower (s : String) : String := String.mk (s.toList.map charLower)

/-- The decimal digit character for `n % 10`-sized values. -/
def digitChar : ℕ → Char
  | 0 => '0'
  | 1 => '1'
  | 2 => '2'
  | 3 => '3'
  | 4 => '4'
  | 5 => '5'
  | 6 => '6'
  | 7 => '7'
  | 8 => '8'
  | _ => '9'

/-- Decimal digits, most significant first (`fuel`-bounded structural
recursion; `n` itself always suffices as fuel since `n / 10 < n`). -/
def natDigitsAux : ℕ → ℕ → List Char
  | 0, _ => []
  | fuel + 1, n =>
    if n < 10 then [digitChar n]
    else natDigitsAux fuel (n / 10) ++ [digitChar (n % 10)]

/-- Decimal digits of a natural number, most significant first. -/
def natDigits (n : ℕ) : List Char := natDigitsAux (n + 1) n

/-- Decimal string of a natural number. -/
def natToString (n : ℕ) : String := String.mk (natDigits n)

/-- Decimal string of an integer. -/
def intToString (i : ℤ) : String :=
  if i < 0 then String.mk ('-' :: natDigits i.natAbs) else natToString i.natAbs

/-- Models JS `ToString` on a finite number.  Integers print exactly as JS
does; non-integers with a finite decimal expansion print as `int.frac`;
other rationals (unreachable from source data, which are binary doubles)
fall back to a fraction rendering.  No output ever carries leading or
trailing whitespace, which is the only fact the proofs rely on. -/
def numToString (q : ℚ) : String :=
  if q.den = 1 then intToString q.num
  else
    match (List.range 40).find? (fun k => (q * (10 : ℚ) ^ (k + 1)).den = 1) with
    | some k =>
        let e := k + 1
        let scaled : ℤ := (q * (10 : ℚ) ^ e).num
        let digits := natDigits scaled.natAbs
        let padded := List.replicate (e + 1 - digits.length) '0' ++ digits
        let intPart := padded.take (padded.length - e)
        let fracPart := padded.drop (padded.length - e)
        String.mk ((if q < 0 then ['-'] else []) ++ intPart ++ '.' :: fracPart)
    | none => String.mk ((intToString q.num).toList ++ '/' :: natDigits q.den)

mutual

/-- Models JS `ToString` (`String(value)` / template-literal rendering). -/
def jsToString : JSON → String
  | .null => "null"
  | .bool true => "true"
  | .bool false => "false"
  | .num q => numToString q
  | .str s => s
  | .arr xs => String.intercalate "," (jsToStringList xs)
  | .obj _ => "[object Object]"

/-- `Array.prototype.join(",")` renders `null`/`undefined` elements as `""`. -/
def jsToStringList : List JSON → List String
  | [] => []
  | .null :: rest => "" :: jsToStringList rest
  | x :: rest => jsToString x :: jsToStringList rest

end

mutual

/-- Structural equality on JSON values.  The scraper's `seenObjects` set is
keyed by object identity; in this tree model identity is approximated
structurally (structurally equal duplicates are deduplicated again by the
later string-key check, so the final output is unaffected). -/
def jsonBeq : JSON → JSON → Bool
  | .null, .null => true
  | .bool a, .bool b => a = b
  | .num a, .num b => a = b
  | .str a, .str b => a = b
  | .arr a, .arr b => jsonBeqList a b
  | .obj a, .obj b => jsonBeqFields a b
  | _, _ => false

/-- Structural equality on JSON arrays. -/
def jsonBeqList : List JSON → List JSON → Bool
  | [], [] => true
  | a :: as', b :: bs' => jsonBeq a b && jsonBeqList as' bs'
  | _, _ => false

/-- Structural equality on field lists. -/
def jsonBeqFields : List (String × JSON) → List (String × JSON) → Bool
  | [], [] => true
  | (ka, va) :: as', (kb, vb) :: bs' => ka = kb && jsonBeq va vb && jsonBeqFields as' bs'
  | _, _ => false

end

/-- JS truthiness of a value (model has no NaN-valued `num`). -/
def jsTruthy : JSON → Bool
  | .null => false
  | .bool b => b
  | .num q => q ≠ 0
  | .str s => s ≠ ""
  | .arr _ => true
  | .obj _ => true

/-- `a || b`. -/
def jsOr (a b : JSON) : JSON := if jsTruthy a then a else b

/-- First binding of `key` in an object's field list (JS own-property lookup). -/
def lookupField : List (String × JSON) → String → Option JSON
  | [], _ => none
  | (k, v) :: rest, key => if k = key then some v else lookupField rest key

/-- Raw property access `obj[key]` (`none` models `undefined`). -/
def getProp : JSON → String → Option JSON
  | .obj fields, key => lookupField fields key
  | _, _ => none

/-- Property access defaulting to `null` (for truthiness / `||` chains,
where `undefined` and `null` behave identically). -/
def getPropD (v : JSON) (key : String) : JSON := (getProp v key).getD .null

/-- Property is present and truthy. -/
def truthyProp (v : JSON) (key : String) : Bool := jsTruthy (getPropD v key)

/-- Numeric value of a digit list (most significant first). -/
def digitsToNat (l : List Char) : ℕ := l.foldl (fun acc c => acc * 10 + (c.toNat - 48)) 0

/-- Is `c` an ASCII digit (`\d` in the source's regexes)? -/
def isDigitChar (c : Char) : Bool := '0' ≤ c ∧ c ≤ '9'

/-- `Number.parseFloat` restricted to strings of digits and periods (the
only shapes `toNumber` feeds it): longest prefix `digits [. digits]`, with
at least one digit; otherwise NaN (`none`). -/
def parseFloatDigits (s : String) : Option ℚ :=
  let cs := s.toList
  let intPart := cs.takeWhile isDigitChar
  let rest := cs.dropWhile isDigitChar
  let fracPart :=
    match rest with
    | '.' :: r => r.takeWhile isDigitChar
    | _ => []
  if intPart.isEmpty ∧ fracPart.isEmpty then none
  else some ((digitsToNat intPart : ℚ) + (digitsToNat fracPart : ℚ) / (10 : ℚ) ^ fracPart.length)

/-- Source `toNumber`: finite numbers as-is; otherwise stringify, trim,
strip every character that is not a digit or a period, and parse; empty or
unparsable input gives `none` (JS `null`). -/
def toNumber (value : JSON) : Option ℚ :=
  match value with
  | .null => none
  | .num q => some q
  | v =>
    let str := jsTrim (jsToString v)
    if str = "" then none
    else
      let cleaned := String.mk (str.toList.filter (fun c => isDigitChar c || c = '.'))
      if cleaned = "" then none
      else parseFloatDigits cleaned

/-- Source `compactObject`'s per-entry filter: keep a value iff it is not
null, not a non-finite number (the model's numbers are all finite), not a
blank string, not an empty array, and not an empty object. -/
def keepVal : JSON → Bool
  | .null => false
  | .num _ => true
  | .str s => jsTrim s ≠ ""
  | .arr [] => false
  | .arr (_ :: _) => true
  | .obj [] => false
  | .obj (_ :: _) => true
  | .bool _ => true

/-- Source `compactObject`: strip null/blank/empty entries from an object. -/
def compactObject : JSON → JSON
  | .obj fields => .obj (fields.filter (fun e => keepVal e.2))
  | v => v

/-- Is the value JS `null`? -/
def isNullJ : JSON → Bool
  | .null => true
  | _ => false

/-- Source `pickFirst`: first key present with a non-null, non-undefined
value.  Arrays and scalars have none of the looked-up own properties. -/
def pickFirstAux (fields : List (String × JSON)) : List String → Option JSON
  | [] => none
  | k :: ks =>
    match lookupField fields k with
    | some v => if isNullJ v then pickFirstAux fields ks else some v
    | none => pickFirstAux fields ks

/-- Source `pickFirst`. -/
def pickFirst : JSON → List String → Option JSON
  | .obj fields, keys => pickFirstAux fields keys
  | _, _ => none

/-- `PRODUCT_KEYS.name`. -/
def PRODUCT_KEYS_name : List String :=
  ["name", "product_name", "title", "productName", "display_name", "displayName", "item_name"]

/-- `PRODUCT_KEYS.price`. -/
def PRODUCT_KEYS_price : List String :=
  ["price", "selling_price", "offer_price", "discounted_price", "final_price", "sp", "sale_price", "unit_price"]

/-- `PRODUCT_KEYS.originalPrice`. -/
def PRODUCT_KEYS_originalPrice : List String :=
  ["mrp", "original_price", "list_price", "mrp_price"]

/-- `PRODUCT_KEYS.discount`. -/
def PRODUCT_KEYS_discount : List String :=
  ["discount", "discount_text", "discount_percentage", "discountPercent", "offer_text"]

/-- `PRODUCT_KEYS.image`. -/
def PRODUCT_KEYS_image : List String :=
  ["image", "image_url", "imageUrl", "thumbnail", "img", "picture", "product_image"]

/-- `PRODUCT_KEYS.availability`. -/
def PRODUCT_KEYS_availability : List String :=
  ["in_stock", "available", "availability", "stock"]

/-- `PRODUCT_KEYS.delivery`. -/
def PRODUCT_KEYS_delivery : List String :=
  ["eta", "delivery_time", "deliveryTime"]

/-- `PRODUCT_KEYS.url`. -/
def PRODUCT_KEYS_url : List String :=
  ["product_url", "productUrl", "url", "slug"]

/-- `PRODUCT_KEYS.id`. -/
def PRODUCT_KEYS_id : List String :=
  ["product_id", "productId", "id", "sku", "sku_id", "item_id", "variant_id"]

/-- `PRODUCT_KEYS.skuId`. -/
def PRODUCT_KEYS_skuId : List String :=
  ["sku_id", "skuId", "variant_id", "variantId", "item_id", "itemId"]

/-- `PRODUCT_KEYS.brand`. -/
def PRODUCT_KEYS_brand : List String :=
  ["brand", "brand_name", "brandName", "brand_title", "manufacturer", "company"]

/-- `PRODUCT_KEYS.quantity`. -/
def PRODUCT_KEYS_quantity : List String :=
  ["quantity", "qty", "pack_size", "packSize", "net_quantity", "netQuantity", "weight", "volume", "size"]

/-- `PRODUCT_KEYS.unit`. -/
def PRODUCT_KEYS_unit : List String :=
  ["unit", "uom", "unitOfMeasure", "unit_of_measure", "measurement_unit"]

/-- `PRODUCT_KEYS.rating`. -/
def PRODUCT_KEYS_rating : List String :=
  ["rating", "avg_rating", "average_rating", "product_rating", "productRating"]

/-- `PRODUCT_KEYS.ratingsCount`. -/
def PRODUCT_KEYS_ratingsCount : List String :=
  ["rating_count", "ratings_count", "reviews_count", "review_count", "ratingCount", "ratingsCount"]

/-- `PRODUCT_KEYS.inventory`. -/
def PRODUCT_KEYS_inventory : List String :=
  ["inventory", "inventory_count", "available_quantity", "availableQuantity", "stock_count", "stockCount"]

/-- `typeof v === 'object'` for non-null values (objects and arrays). -/
def objLike : JSON → Bool
  | .obj _ => true
  | .arr _ => true
  | _ => false

/-- A non-array object (`item && typeof item === 'object' && !Array.isArray(item)`). -/
def isPlainObj : JSON → Bool
  | .obj _ => true
  | _ => false

/-- Source `extractImage`: direct image key, one nested unwrap, then the
`images`/`image_urls`/`imageUrls` array fallback.  Strings are returned
verbatim (no trim). -/
def extractImage (obj : JSON) : Option String :=
  let direct := pickFirst obj PRODUCT_KEYS_image
  let fromDirect : Option String :=
    match direct with
    | some (.str s) => some s
    | some v =>
      if objLike v then
        match pickFirst v ["url", "src", "image", "imageUrl"] with
        | some (.str s) => some s
        | _ => none
      else none
    | none => none
  match fromDirect with
  | some s => some s
  | none =>
    let images := jsOr (getPropD obj "images") (jsOr (getPropD obj "image_urls") (getPropD obj "imageUrls"))
    match images with
    | .arr (first :: _) =>
      match first with
      | .str s => some s
      | v =>
        if objLike v then
          match pickFirst v ["url", "src", "image", "imageUrl"] with
          | some (.str s) => some s
          | _ => none
        else none
    | _ => none

/-- Source `extractProductId`: finite numbers kept; anything else is
stringified and trimmed, empty giving null. -/
def extractProductId (obj : JSON) : Option JSON :=
  match pickFirst obj PRODUCT_KEYS_id with
  | none => none
  | some (.num q) => some (.num q)
  | some v =>
    let s := jsTrim (jsToString v)
    if s = "" then none else some (.str s)

/-- Source `extractPrice`: price alias list, one nested unwrap for object
values, then numeric coercion. -/
def extractPrice (obj : JSON) : Option ℚ :=
  let value := pickFirst obj PRODUCT_KEYS_price
  let value' : Option JSON :=
    match value with
    | some v =>
      if objLike v then pickFirst v ["selling_price", "offer_price", "price", "final_price", "mrp", "list_price"]
      else some v
    | none => none
  match value' with
  | some v => toNumber v
  | none => none

/-- Source `extractOriginalPrice`. -/
def extractOriginalPrice (obj : JSON) : Option ℚ :=
  let value := pickFirst obj PRODUCT_KEYS_originalPrice
  let value' : Option JSON :=
    match value with
    | some v =>
      if objLike v then pickFirst v ["mrp", "list_price", "original_price"]
      else some v
    | none => none
  match value' with
  | some v => toNumber v
  | none => none

/-- Source `extractName`: strings trimmed, finite numbers stringified, one
nested unwrap through display wrappers (`{text: ...}` etc.). -/
def extractName (obj : JSON) : Option String :=
  match pickFirst obj PRODUCT_KEYS_name with
  | none => none
  | some (.str s) => some (jsTrim s)
  | some (.num q) => some (numToString q)
  | some v =>
    if objLike v then
      match pickFirst v ["text", "name", "title", "display_name", "displayName"] with
      | none => none
      | some (.str s) => if jsTrim s = "" then none else some (jsTrim s)
      | some (.num q) => some (numToString q)
      | some _ => none
    else none

/-- Source `extractAvailability`: booleans map directly; strings match
case-insensitively with the substring `"out"` checked before `"in"`. -/
def extractAvailability (obj : JSON) : Option String :=
  match pickFirst obj PRODUCT_KEYS_availability with
  | some (.bool true) => some "In Stock"
  | some (.bool false) => some "Out of Stock"
  | some (.str s) =>
    let lowered := strLower s
    if containsSub lowered "out" then some "Out of Stock"
    else if containsSub lowered "in" then some "In Stock"
    else none
  | _ => none

/-- Source `extractDelivery`. -/
def extractDelivery (obj : JSON) : Option String :=
  match pickFirst obj PRODUCT_KEYS_delivery with
  | none => none
  | some (.str s) => some (jsTrim s)
  | some v => some (jsTrim (jsToString v))

/-- Source `extractDiscount`: strings trimmed, numbers suffixed with `%`,
objects not unwrapped. -/
def extractDiscount (obj : JSON) : Option String :=
  match pickFirst obj PRODUCT_KEYS_discount with
  | none => none
  | some (.str s) => some (jsTrim s)
  | some (.num q) => some (numToString q ++ "%")
  | some _ => none

/-- Source `extractBrand`: trimmed string, one nested unwrap, otherwise a
stringification fallback. -/
def extractBrand (obj : JSON) : Option String :=
  match pickFirst obj PRODUCT_KEYS_brand with
  | none => none
  | some (.str s) => if jsTrim s = "" then none else some (jsTrim s)
  | some v =>
    if objLike v then
      match pickFirst v ["name", "title", "text", "display_name", "displayName"] with
      | some (.str s) => if jsTrim s = "" then none else some (jsTrim s)
      | _ =>
        let t := jsTrim (jsToString v)
        if t = "" then none else some t
    else
      let t := jsTrim (jsToString v)
      if t = "" then none else some t

/-- The recursion inside source `extractQuantity`: a nested object value is
unwrapped through `['value','text','quantity','qty','amount']` and
re-processed (`extractQuantity({quantity: nested})`). -/
def quantityFromValue : JSON → Option JSON
  | .num q => some (.num q)
  | .str s =>
    let t := jsTrim s
    if t = "" then none
    else
      match toNumber (.str t) with
      | some q => some (.num q)
      | none => some (.str t)
  | .obj fs =>
    (match h : pickFirstAux fs ["value", "text", "quantity", "qty", "amount"] with
     | some v => quantityFromValue v
     | none => none)
  | _ => none
termination_by v => sizeOf v
decreasing_by
  simp_wf
  have hlk : ∀ (l : List (String × JSON)) (k : String) (v : JSON),
      lookupField l k = some v → sizeOf v < sizeOf l := by
    intro l
    induction l with
    | nil => intro k v hv; simp [lookupField] at hv
    | cons e rest ih =>
      intro k v hv
      obtain ⟨ek, ev⟩ := e
      by_cases hk : ek = k
      · simp [lookupField, hk] at hv
        subst hv
        simp
        omega
      · simp [lookupField, hk] at hv
        have := ih k v hv
        simp
        omega
  have hpf : ∀ (keys : List String) (l : List (String × JSON)) (v : JSON),
      pickFirstAux l keys = some v → sizeOf v < sizeOf l := by
    intro keys
    induction keys with
    | nil => intro l v hv; simp [pickFirstAux] at hv
    | cons k ks ih =>
      intro l v hv
      unfold pickFirstAux at hv
      cases hl : lookupField l k with
      | none => rw [hl] at hv; exact ih l v hv
      | some w =>
        rw [hl] at hv
        cases hnw : isNullJ w with
        | true => simp [hnw] at hv; exact ih l v hv
        | false => simp [hnw] at hv; cases hv; exact hlk l k v hl
  have := hpf ["value", "text", "quantity", "qty", "amount"] fs v h
  omega

/-- Source `extractQuantity`. -/
def extractQuantity (obj : JSON) : Option JSON :=
  match pickFirst obj PRODUCT_KEYS_quantity with
  | some v => quantityFromValue v
  | none => none

/-- Source `extractUnit`. -/
def extractUnit (obj : JSON) : Option String :=
  match pickFirst obj PRODUCT_KEYS_unit with
  | none => none
  | some (.str s) => if jsTrim s = "" then none else some (jsTrim s)
  | some v =>
    if objLike v then
      match pickFirst v ["text", "name", "title", "unit"] with
      | some (.str s) => if jsTrim s = "" then none else some (jsTrim s)
      | _ =>
        let t := jsTrim (jsToString v)
        if t = "" then none else some t
    else
      let t := jsTrim (jsToString v)
      if t = "" then none else some t

/-- Source `extractRating`. -/
def extractRating (obj : JSON) : Option ℚ :=
  match pickFirst obj PRODUCT_KEYS_rating with
  | some v => toNumber v
  | none => none

/-- JS `Math.round`: round half toward positive infinity. -/
def jsRound (q : ℚ) : ℤ := ⌊q + 1 / 2⌋

/-- Source `extractRatingsCount`. -/
def extractRatingsCount (obj : JSON) : Option ℤ :=
  match pickFirst obj PRODUCT_KEYS_ratingsCount with
  | some v =>
    match toNumber v with
    | some q => some (jsRound q)
    | none => none
  | none => none

/-- Source `extractSkuId`. -/
def extractSkuId (obj : JSON) : Option JSON :=
  match pickFirst obj PRODUCT_KEYS_skuId with
  | none => none
  | some (.num q) => some (.num q)
  | some v =>
    let s := jsTrim (jsToString v)
    if s = "" then none else some (.str s)

/-- Source `extractInventory`. -/
def extractInventory (obj : JSON) : Option ℤ :=
  match pickFirst obj PRODUCT_KEYS_inventory with
  | some v =>
    match toNumber v with
    | some q => some (jsRound q)
    | none => none
  | none => none

/-- JS `||` on an optional string result (empty string is falsy). -/
def jsOrStr (a b : Option String) : Option String :=
  match a with
  | some s => if s = "" then b else some s
  | none => b

/-- Truthiness of an optional string. -/
def strTruthy : Option String → Bool
  | some s => s ≠ ""
  | none => false

/-- Truthiness of an optional JSON value. -/
def jTruthy (o : Option JSON) : Bool := jsTruthy (o.getD .null)

/-- The extraction base shared by `normalizeProduct` and `isLikelyProduct`
(both compute `raw.product && typeof raw.product === 'object' ? raw.product
: raw` — an inner `product` sub-object is preferred when present). -/
def productBase (raw : JSON) : JSON :=
  match getProp raw "product" with
  | some v => if objLike v then v else raw
  | none => raw

/-- Slug characters: `[a-z0-9]` after lowercasing. -/
def isSlugChar (c : Char) : Bool := ('a' ≤ c && c ≤ 'z') || ('0' ≤ c && c ≤ '9')

/-- `replace(/[^a-z0-9]+/g, '-')`, fuel-bounded (the list length always
suffices as fuel, each step consuming at least one character). -/
def collapseNonAlnumAux : ℕ → List Char → List Char
  | 0, _ => []
  | _, [] => []
  | fuel + 1, c :: rest =>
    if isSlugChar c then c :: collapseNonAlnumAux fuel rest
    else '-' :: collapseNonAlnumAux fuel (rest.dropWhile (fun d => !isSlugChar d))

/-- `replace(/[^a-z0-9]+/g, '-')`: each maximal run of non-slug characters
becomes a single hyphen. -/
def collapseNonAlnum (l : List Char) : List Char := collapseNonAlnumAux (l.length + 1) l

/-- `replace(/^-|-$/g, '')`: one leading hyphen removed. -/
def dropLeadHyphen : List Char → List Char
  | '-' :: r => r
  | l => l

/-- `replace(/^-|-$/g, '')`: one leading and one trailing hyphen removed. -/
def dropEdgeHyphens (l : List Char) : List Char :=
  (dropLeadHyphen ((dropLeadHyphen l).reverse)).reverse

/-- The slug built by `normalizeProduct` for a synthesized product URL. -/
def slugify (name : String) : String :=
  String.mk (dropEdgeHyphens (collapseNonAlnum (strLower name).toList))

/-- `replace(/^\//, '')`: one leading slash removed. -/
def stripLeadSlash (s : String) : String :=
  match s.toList with
  | '/' :: r => String.mk r
  | _ => s

/-- Rendering of `${productId}` in template literals. -/
def idToString (o : Option JSON) : String := jsToString (o.getD .null)

/-- The `productUrl` computation of source `normalizeProduct`: an absolute
raw URL verbatim; a relative one resolved against the site's path template
(inserting the id when the path is not already id-scoped); otherwise a
slug-plus-id synthesis when both id and name exist. -/
def computeProductUrl (productUrlRaw : JSON) (productId : Option JSON)
    (productName : Option String) : Option String :=
  let synth : Option String :=
    if jTruthy productId ∧ strTruthy productName then
      some ("https://blinkit.com/prn/" ++ slugify ((productName).getD "") ++ "/prid/" ++ idToString productId)
    else none
  match productUrlRaw with
  | .str s =>
    if jsTrim s ≠ "" then
      let trimmed := jsTrim s
      if jsStartsWith trimmed "http" then some trimmed
      else
        let path := stripLeadSlash trimmed
        if jsStartsWith path "prn/" || containsSub path "/prn/" then
          some ("https://blinkit.com/" ++ path)
        else if jTruthy productId then
          some ("https://blinkit.com/prn/" ++ path ++ "/prid/" ++ idToString productId)
        else some ("https://blinkit.com/" ++ path)
    else synth
  | _ => synth

/-- The sixteen locals computed by source `normalizeProduct` before the
record is assembled (`||` for name and raw URL, `??` for the rest, each
tried on the inner base first and the outer object second). -/
structure NormFields where
  productName : Option String
  price : Option ℚ
  originalPrice : Option ℚ
  discount : Option String
  image : Option String
  availability : Option String
  delivery : Option String
  productUrl : Option String
  productId : Option JSON
  skuId : Option JSON
  brand : Option String
  quantity : Option JSON
  unit : Option String
  rating : Option ℚ
  ratingsCount : Option ℤ
  inventory : Option ℤ

/-- Field extraction of source `normalizeProduct`. -/
def normFields (raw : JSON) : NormFields :=
  let base := productBase raw
  let productName := jsOrStr (extractName base) (extractName raw)
  let productId := extractProductId base <|> extractProductId raw
  let productUrlRaw :=
    jsOr ((pickFirst base PRODUCT_KEYS_url).getD .null)
      (jsOr ((pickFirst raw PRODUCT_KEYS_url).getD .null) .null)
  { productName := productName
  , price := extractPrice base <|> extractPrice raw
  , originalPrice := extractOriginalPrice base <|> extractOriginalPrice raw
  , discount := extractDiscount base <|> extractDiscount raw
  , image := extractImage base <|> extractImage raw
  , availability := extractAvailability base <|> extractAvailability raw
  , delivery := extractDelivery base <|> extractDelivery raw
  , productUrl := computeProductUrl productUrlRaw productId productName
  , productId := productId
  , skuId := extractSkuId base <|> extractSkuId raw
  , brand := extractBrand base <|> extractBrand raw
  , quantity := extractQuantity base <|> extractQuantity raw
  , unit := extractUnit base <|> extractUnit raw
  , rating := extractRating base <|> extractRating raw
  , ratingsCount := extractRatingsCount base <|> extractRatingsCount raw
  , inventory := extractInventory base <|> extractInventory raw
  }

/-- Optional string as a JS object-literal value (`none` is `null`). -/
def optStr : Option String → JSON
  | some s => .str s
  | none => .null

/-- Optional number as a JS object-literal value. -/
def optNum : Option ℚ → JSON
  | some q => .num q
  | none => .null

/-- Optional integer as a JS object-literal value. -/
def optInt : Option ℤ → JSON
  | some i => .num (i : ℚ)
  | none => .null

/-- Optional JSON as a JS object-literal value. -/
def optJ (o : Option JSON) : JSON := o.getD .null

/-- The object literal returned by source `normalizeProduct` (before
`compactObject`), in source field order. -/
def recordEntries (f : NormFields) : List (String × JSON) :=
  [ ("product_name", optStr f.productName)
  , ("price", optNum f.price)
  , ("original_price", optNum f.originalPrice)
  , ("discount_percentage", optStr f.discount)
  , ("product_image", optStr f.image)
  , ("availability", optStr (jsOrStr f.availability (some "Unknown")))
  , ("delivery_time", optStr f.delivery)
  , ("product_url", optStr f.productUrl)
  , ("product_id", optJ f.productId)
  , ("sku_id", optJ f.skuId)
  , ("brand", optStr f.brand)
  , ("quantity", optJ f.quantity)
  , ("unit", optStr f.unit)
  , ("rating", optNum f.rating)
  , ("ratings_count", optInt f.ratingsCount)
  , ("inventory", optInt f.inventory)
  ]

/-- Source `normalizeProduct`. -/
def normalizeProduct (raw : JSON) : JSON :=
  compactObject (.obj (recordEntries (normFields raw)))

/-- Source `nonProductPatterns`: names matching these (case-insensitively)
are category/ad widgets, not products. -/
def nonProductPatterns : List String :=
  [ "ads_vertical_banner", "ad_banner", "Vegetables & Fruits", "Dairy & Breakfast"
  , "Munchies", "Cold Drinks", "Instant & Frozen", "Tea, Coffee"
  , "Bakery & Biscuits", "Sweet Tooth", "Atta, Rice & Dal", "Dry Fruits, Masala"
  , "Sauces & Spreads", "Chicken, Meat & Fish", "Paan Corner", "Organic & Premium"
  , "Baby Care", "Pharma & Wellness", "Personal Care", "Home & Office"
  , "Pet Care", "Cleaning Essentials", "Home Furnishing & Decor", "Beauty & Cosmetics"
  , "Magazines", "Kitchen & Dining", "Fashion & Accessories"
  ]

/-- `obj?.name?.text` (optional-chained property access). -/
def nameTextProp (obj : JSON) : JSON :=
  match getProp obj "name" with
  | some v => getPropD v "text"
  | none => .null

/-- Source `isLikelyProduct`: a candidate needs a real (non-category,
non-placeholder) name and a price signal. -/
def isLikelyProduct (obj : JSON) : Bool :=
  if ¬ objLike obj then false
  else
    match jsOr (optStr (extractName (productBase obj)))
      (jsOr (optStr (extractName obj))
        (jsOr (nameTextProp obj) (jsOr (getPropD obj "name") .null))) with
    | .str s =>
      if s = "" then false
      else if jsTrim s = "" then false
      else if s = "[object Object]" then false
      else if nonProductPatterns.any (fun pat => containsSub (strLower s) (strLower pat)) then false
      else
        ((extractPrice (productBase obj) <|> extractPrice obj).isSome
          || (extractOriginalPrice (productBase obj) <|> extractOriginalPrice obj).isSome)
    | _ => false

/-- State of one `extractProductsFromPayloads` run: the (structurally
modelled) identity set and the accepted raw candidates, in push order. -/
structure ExtState where
  seen : List JSON
  rawProducts : List JSON

/-- The `widget_type` filter inside source `pushProduct`.  A truthy
non-string `widget_type` would make the JS `includes` call throw; it is
modelled as rejecting the candidate. -/
def widgetRejected (obj : JSON) : Bool :=
  match getProp obj "widget_type" with
  | some w =>
    if jsTruthy w then
      match w with
      | .str s => !(s = "product_card_snippet_type_2" || s = "product_card" || containsSub s "product")
      | _ => true
    else false
  | none => false

/-- Source `pushProduct`. -/
def pushProduct (st : ExtState) (obj : JSON) : ExtState :=
  if ¬ objLike obj then st
  else if st.seen.any (fun s => jsonBeq s obj) then st
  else if widgetRejected obj then st
  else if ¬ isLikelyProduct obj then st
  else { seen := obj :: st.seen, rawProducts := st.rawProducts ++ [obj] }

/-- Source `collectFromMap`: push every element (array) or value (object). -/
def collectFromMap (st : ExtState) (maybeMap : JSON) : ExtState :=
  match maybeMap with
  | .arr xs => xs.foldl pushProduct st
  | .obj fs => (fs.map Prod.snd).foldl pushProduct st
  | _ => st

/-- `if (node.entities && node.entities.products) collectFromMap(...)`. -/
def pushEntities (st : ExtState) (node : JSON) : ExtState :=
  if jsTruthy (getPropD node "entities")
      ∧ jsTruthy (getPropD (getPropD node "entities") "products")
  then collectFromMap st (getPropD (getPropD node "entities") "products") else st

/-- `if (node.products) collectFromMap(node.products)`. -/
def pushProductsKey (st : ExtState) (node : JSON) : ExtState :=
  if jsTruthy (getPropD node "products")
  then collectFromMap st (getPropD node "products") else st

/-- `if (node.data && node.data.products) collectFromMap(...)`. -/
def pushDataProducts (st : ExtState) (node : JSON) : ExtState :=
  if jsTruthy (getPropD node "data")
      ∧ jsTruthy (getPropD (getPropD node "data") "products")
  then collectFromMap st (getPropD (getPropD node "data") "products") else st

/-- `if (node.product_grid && node.product_grid.products) collectFromMap(...)`. -/
def pushGridProducts (st : ExtState) (node : JSON) : ExtState :=
  if jsTruthy (getPropD node "product_grid")
      ∧ jsTruthy (getPropD (getPropD node "product_grid") "products")
  then collectFromMap st (getPropD (getPropD node "product_grid") "products") else st

/-- `if (node.widgets && Array.isArray(node.widgets)) forEach(pushProduct)`. -/
def pushWidgets (st : ExtState) (node : JSON) : ExtState :=
  match getProp node "widgets" with
  | some (.arr xs) => xs.foldl pushProduct st
  | _ => st

/-- `if (node.widget && typeof node.widget === 'object') pushProduct(node.widget)`. -/
def pushWidget (st : ExtState) (node : JSON) : ExtState :=
  match getProp node "widget" with
  | some w => if objLike w then pushProduct st w else st
  | none => st

/-- `if (node.items && Array.isArray(node.items)) forEach(pushProduct)`. -/
def pushItems (st : ExtState) (node : JSON) : ExtState :=
  match getProp node "items" with
  | some (.arr xs) => xs.foldl pushProduct st
  | _ => st

/-- The domain-specific container handling at the top of each object visit
in source `traverse`, in source order. -/
def containerPushes (st : ExtState) (node : JSON) : ExtState :=
  pushItems
    (pushWidget
      (pushWidgets
        (pushGridProducts
          (pushDataProducts (pushProductsKey (pushEntities st node) node) node) node) node)
      node)
    node

/-- Source `traverse` inside `extractProductsFromPayloads`, with the depth
counter replaced by the remaining budget `fuel = 9 - depth`: the source
guard `depth > 8` is exactly `fuel = 0`, and each child visit at
`depth + 1` is a visit at `fuel - 1`.  The walk pushes uniform object
arrays and recognized containers, then recurses into every child. -/
def traverseF : ℕ → JSON → ExtState → ExtState
  | 0, _, st => st
  | fuel + 1, node, st =>
    if ¬ objLike node then st
    else
      match node with
      | .arr xs =>
        let st1 :=
          match xs with
          | [] => st
          | _ :: _ => if xs.all isPlainObj then xs.foldl pushProduct st else st
        xs.foldl (fun s c => traverseF fuel c s) st1
      | .obj fs =>
        (fs.map Prod.snd).foldl (fun s c => traverseF fuel c s) (containerPushes st (.obj fs))
      | _ => st

/-- Source `traverse` in its original `(node, depth)` signature. -/
def traverse (node : JSON) (depth : ℕ) (st : ExtState) : ExtState :=
  traverseF (9 - depth) node st

/-- Is the property present with value exactly JS `null`? (the strict
`=== null` tests of the final filter in `extractProductsFromPayloads`). -/
def isNullProp (n : JSON) (key : String) : Bool :=
  match getProp n key with
  | some .null => true
  | _ => false

/-- The dedup key template of `extractProductsFromPayloads`
(backtick-rendered, `?? ''` for all but the name). -/
def payloadKey (n : JSON) : String :=
  let comp : Option JSON → String := fun o =>
    match o with
    | some .null => ""
    | some v => jsToString v
    | none => ""
  (match getProp n "product_name" with
   | some v => jsToString v
   | none => "undefined") ++ "|" ++
  comp (getProp n "price") ++ "|" ++
  comp (getProp n "original_price") ++ "|" ++
  comp (getProp n "product_image") ++ "|" ++
  comp (getProp n "product_url")

/-- The final normalize-and-dedupe loop of `extractProductsFromPayloads`. -/
def normalizeLoop : List JSON → List String → List JSON
  | [], _ => []
  | raw :: rest, seenKeys =>
    if ¬ truthyProp (normalizeProduct raw) "product_name" then normalizeLoop rest seenKeys
    else if isNullProp (normalizeProduct raw) "price"
        ∧ isNullProp (normalizeProduct raw) "original_price" then
      normalizeLoop rest seenKeys
    else if payloadKey (normalizeProduct raw) ∈ seenKeys then normalizeLoop rest seenKeys
    else normalizeProduct raw :: normalizeLoop rest (payloadKey (normalizeProduct raw) :: seenKeys)

/-- Source `extractProductsFromPayloads`: traverse every payload, then
normalize and dedupe the accumulated raw candidates. -/
def extractProductsFromPayloads (payloads : List JSON) : List JSON :=
  let st := payloads.foldl (fun st p => if objLike p then traverse p 0 st else st) ⟨[], []⟩
  normalizeLoop st.rawProducts []

/-- Source `makeProductKey`: the cross-source DedupKey string
`name|price|mrp|image|url` (whole-key trimmed; empty key is null). -/
def makeProductKey (product : JSON) : Option String :=
  if ¬ jsTruthy product then none
  else
    let name := jsOr (getPropD product "product_name") (jsOr (getPropD product "name") (.str ""))
    let render : String → String := fun k =>
      match getProp product k with
      | some .null => ""
      | none => ""
      | some v => jsToString v
    let key := jsTrim (jsToString name ++ "|" ++ render "price" ++ "|" ++ render "original_price"
      ++ "|" ++ render "product_image" ++ "|" ++ render "product_url")
    if key = "" then none else some key

/-- The run-level constants mixed into every emitted record by
`pushResults` (echoed keyword, request URL, capture timestamp). -/
structure RunConfig where
  searchQuery : String
  requestUrl : String
  timestamp : String

/-- The three enrichment fields of `pushResults`. -/
def runExtras (cfg : RunConfig) : List (String × JSON) :=
  [ ("search_query", .str cfg.searchQuery)
  , ("url", .str cfg.requestUrl)
  , ("scrapedAt", .str cfg.timestamp)
  ]

/-- JS object spread `{...p, extra...}`: existing keys overridden in place,
new keys appended; a non-object spreads to nothing. -/
def spreadWith (p : JSON) (extra : List (String × JSON)) : JSON :=
  let fs :=
    match p with
    | .obj fs => fs
    | _ => []
  .obj ((fs.map (fun e =>
      match lookupField extra e.1 with
      | some v => (e.1, v)
      | none => e))
    ++ extra.filter (fun e => (lookupField fs e.1).isNone))

/-- The per-record enrichment of `pushResults`:
`compactObject({...p, search_query, url, scrapedAt})`. -/
def enrich (cfg : RunConfig) (p : JSON) : JSON :=
  compactObject (spreadWith p (runExtras cfg))

/-- The aggregator's shared mutable state: `totalScraped`,
`seenProductKeys`, and the dataset of emitted records. -/
structure RunState where
  total : ℕ
  seenKeys : List String
  emitted : List JSON

/-- State at the start of a run. -/
def initState : RunState := ⟨0, [], []⟩

/-- The stateful dedup filter inside `pushResults`: every candidate's key
is tested against and inserted into the seen set, in order (keys of
candidates later sliced off by the target cap stay consumed). -/
def dedupFold : List JSON → List String → List JSON × List String
  | [], seen => ([], seen)
  | p :: rest, seen =>
    match makeProductKey p with
    | none => dedupFold rest seen
    | some k =>
      if k ∈ seen then dedupFold rest seen
      else
        let (d, s) := dedupFold rest (k :: seen)
        (p :: d, s)

/-- `Array.prototype.slice(0, n)` element count for a positive bound. -/
def sliceCount (r : ℚ) : ℕ := (⌊r⌋).toNat

/-- Source `pushResults` (state-passing form).  Returns the `done` flag —
`RESULTS_WANTED > 0 ? totalScraped >= RESULTS_WANTED : false` — and the
updated run state.  `RW` is the effective target (`0` = unlimited). -/
def pushResults (cfg : RunConfig) (RW : ℚ) (st : RunState) (products : List JSON) :
    Bool × RunState :=
  match products with
  | [] => (false, st)
  | _ :: _ =>
    let dd := dedupFold products st.seenKeys
    let st' : RunState := { st with seenKeys := dd.2 }
    match dd.1 with
    | [] => (false, st')
    | _ :: _ =>
      let remaining : ℚ := if 0 < RW then RW - st.total else (dd.1.length : ℚ)
      if remaining ≤ 0 then (decide (0 < RW), st')
      else
        let limited := if 0 < RW then dd.1.take (sliceCount remaining) else dd.1
        let enriched := (limited.map (enrich cfg)).filter (fun p => truthyProp p "product_name")
        match enriched with
        | [] => (false, st')
        | _ :: _ =>
          let newTotal := st.total + enriched.length
          (decide (0 < RW) && decide ((RW : ℚ) ≤ (newTotal : ℚ)),
            { total := newTotal, seenKeys := dd.2, emitted := st.emitted ++ enriched })

/-- The priority waterfall of the request handler: source batches are
offered to `pushResults` in stage order, and the run returns as soon as a
push reports `done`. -/
def runBatches (cfg : RunConfig) (RW : ℚ) : List (List JSON) → RunState → RunState
  | [], st => st
  | b :: bs, st =>
    let r := pushResults cfg RW st b
    if r.1 then r.2 else runBatches cfg RW bs r.2

/-- A parsed URL, as far as the pagination prober inspects it: the part
before the query string, plus the ordered query parameters
(`new URL(...)` / `URLSearchParams` are modelled structurally). -/
structure URLModel where
  front : String
  params : List (String × String)

/-- `searchParams.get`: value of the first occurrence, else null. -/
def lookupParam : List (String × String) → String → Option String
  | [], _ => none
  | (k, v) :: rest, key => if k = key then some v else lookupParam rest key

/-- `searchParams.set`: overwrite the first occurrence in place (dropping
later duplicates), or append. -/
def setParamList : List (String × String) → String → String → List (String × String)
  | [], k, v => [(k, v)]
  | (k', v') :: rest, k, v =>
    if k' = k then (k, v) :: rest.filter (fun e => !(e.1 == k))
    else (k', v') :: setParamList rest k v

/-- `searchParams.set` on the URL model. -/
def setParam (u : URLModel) (k v : String) : URLModel :=
  { u with params := setParamList u.params k v }

/-- `Number.parseInt(s, 10)`: optional sign then a digit prefix, after
leading whitespace; no digits is NaN. -/
def parseIntDec (s : String) : Option ℤ :=
  let cs := s.toList.dropWhile isWS
  let sign : ℤ :=
    match cs with
    | '-' :: _ => -1
    | _ => 1
  let cs' :=
    match cs with
    | '-' :: r => r
    | '+' :: r => r
    | _ => cs
  let digits := cs'.takeWhile isDigitChar
  match digits with
  | [] => none
  | _ :: _ => some (sign * digitsToNat digits)

/-- `detectStep` inside source `fetchNext`: the first present of
`limit`/`size`/`count` parsed as a positive integer, else 24. -/
def detectStep (u : URLModel) : ℤ :=
  let limitLike :=
    (lookupParam u.params "limit" <|> lookupParam u.params "size" <|> lookupParam u.params "count")
  match parseIntDec (limitLike.getD "") with
  | some p => if 0 < p then p else 24
  | none => 24

/-- `bumpParam` inside source `fetchNext`: add `delta` to the current
integer value of the parameter (an unparsable current value counts as
zero-like: the result is just `delta`). -/
def bumpParam (u : URLModel) (k : String) (delta : ℤ) : URLModel :=
  let base :=
    match lookupParam u.params k with
    | some t => if t = "" then "0" else t
    | none => "0"
  let next : ℤ :=
    match parseIntDec base with
    | some c => c + delta
    | none => delta
  setParam u k (intToString next)

/-- Source `fetchNext`: increment the first pagination parameter present,
in the fixed preference order `page, offset, from, start, skip` (`page` by
one, the rest by the detected step); none present means no probing. -/
def fetchNext (u : URLModel) : Option URLModel :=
  if (lookupParam u.params "page").isSome then some (bumpParam u "page" 1)
  else if (lookupParam u.params "offset").isSome then some (bumpParam u "offset" (detectStep u))
  else if (lookupParam u.params "from").isSome then some (bumpParam u "from" (detectStep u))
  else if (lookupParam u.params "start").isSome then some (bumpParam u "start" (detectStep u))
  else if (lookupParam u.params "skip").isSome then some (bumpParam u "skip" (detectStep u))
  else none

/-- JS `Number()` on a trimmed string body: a full-string decimal literal
(hex/octal/binary literals, which cannot reach `results_wanted` through
JSON input, are not modelled).  `none` is NaN or ±Infinity — anything not
a finite number. -/
def parseDecimalLiteral (cs : List Char) : Option ℚ :=
  let sign : ℚ :=
    match cs with
    | '-' :: _ => -1
    | _ => 1
  let cs1 :=
    match cs with
    | '-' :: r => r
    | '+' :: r => r
    | _ => cs
  if cs1 = "Infinity".toList then none
  else
    let intD := cs1.takeWhile isDigitChar
    let rest1 := cs1.dropWhile isDigitChar
    let fracD :=
      match rest1 with
      | '.' :: r => r.takeWhile isDigitChar
      | _ => []
    let rest2 :=
      match rest1 with
      | '.' :: r => r.dropWhile isDigitChar
      | _ => rest1
    if intD.isEmpty ∧ fracD.isEmpty then none
    else
      let mantissa : ℚ := sign * ((digitsToNat intD : ℚ) + (digitsToNat fracD : ℚ) / (10 : ℚ) ^ fracD.length)
      match rest2 with
      | [] => some mantissa
      | e :: r =>
        if e = 'e' ∨ e = 'E' then
          let esign : ℤ :=
            match r with
            | '-' :: _ => -1
            | _ => 1
          let r1 :=
            match r with
            | '-' :: rr => rr
            | '+' :: rr => rr
            | _ => r
          let expD := r1.takeWhile isDigitChar
          match expD, r1.dropWhile isDigitChar with
          | _ :: _, [] => some (mantissa * (10 : ℚ) ^ (esign * (digitsToNat expD : ℤ)))
          | _, _ => none
        else none

/-- JS `Number()` of a string: empty after trim is 0. -/
def jsStringToNumber (s : String) : Option ℚ :=
  let t := jsTrim s
  if t = "" then some 0 else parseDecimalLiteral t.toList

/-- JS unary plus (`+value`): `none` models a non-finite result
(NaN/±Infinity). -/
def jsPlus : JSON → Option ℚ
  | .null => some 0
  | .bool true => some 1
  | .bool false => some 0
  | .num q => some q
  | .str s => jsStringToNumber s
  | .arr xs => jsStringToNumber (jsToString (.arr xs))
  | .obj _ => none

/-- The `RESULTS_WANTED` coercion of the source:
`Number.isFinite(+raw) && +raw > 0 ? +raw : 0` (0 means unlimited). -/
def effectiveTarget (raw : JSON) : ℚ :=
  match jsPlus raw with
  | some q => if 0 < q then q else 0
  | none => 0

/-- A node of an arbitrary object graph (for the termination claims):
unlike the tree type `JSON`, edges are heap references, so shared and
cyclic structure is expressible. -/
inductive HNode where
  | leaf : HNode
  | harr (elems : List ℕ) : HNode
  | hobj (vals : List ℕ) : HNode

/-- Dereference a heap node id (dangling ids read as scalars). -/
def getHNode (h : List HNode) (i : ℕ) : HNode := h.getD i .leaf

/-- State of the `findProductArrays` walk over a graph: the identity-keyed
visited set and the candidate list. -/
structure GraphScanState where
  seen : List ℕ
  cands : List ℕ

/-- The `walk` recursion of source `findProductArrays`, over an arbitrary
object graph, with the candidate-array test (`every(...)` plus the mean
score threshold) abstracted as the oracle `accept` — scoring never
recurses, so termination does not depend on it.  `fuel` reifies the JS
call stack: `none` means the recursion would have descended further. -/
def walkG (h : List HNode) (accept : ℕ → Bool) :
    ℕ → ℕ → ℕ → GraphScanState → Option GraphScanState
  | 0, _, _, _ => none
  | fuel + 1, i, depth, st =>
    match getHNode h i with
    | .leaf => some st
    | .harr elems =>
      if i ∈ st.seen ∨ 7 < depth then some st
      else
        let st1 : GraphScanState :=
          { seen := i :: st.seen
          , cands := if elems ≠ [] ∧ accept i then st.cands ++ [i] else st.cands }
        elems.foldl (fun acc j => acc.bind (fun s => walkG h accept fuel j (depth + 1) s)) (some st1)
    | .hobj vals =>
      if i ∈ st.seen ∨ 7 < depth then some st
      else
        vals.foldl (fun acc j => acc.bind (fun s => walkG h accept fuel j (depth + 1) s))
          (some { st with seen := i :: st.seen })

/-- Source `findProductArrays`' traversal on an object graph: the visited
set and depth guard, entered with depth 0 and stack budget 9 (one frame
per depth 0..8, depth 9 being cut off by `depth > 7` at 8). -/
def findProductArraysG (h : List HNode) (accept : ℕ → Bool) (root : ℕ) :
    Option GraphScanState :=
  walkG h accept 9 root 0 ⟨[], []⟩

/-- The `traverse` recursion of source `extractProductsFromPayloads` over
an arbitrary object graph: no visited set, only the `depth > 8` guard.
The non-recursive candidate pushes (`pushProduct`, `collectFromMap`, the
container special cases) are abstracted as the oracle `push`. -/
def traverseG (h : List HNode) (push : ℕ → List ℕ → List ℕ) :
    ℕ → ℕ → ℕ → List ℕ → Option (List ℕ)
  | 0, _, _, _ => none
  | fuel + 1, i, depth, st =>
    match getHNode h i with
    | .leaf => some st
    | .harr elems =>
      if 8 < depth then some st
      else
        elems.foldl (fun acc j => acc.bind (fun s => traverseG h push fuel j (depth + 1) s))
          (some (push i st))
    | .hobj vals =>
      if 8 < depth then some st
      else
        vals.foldl (fun acc j => acc.bind (fun s => traverseG h push fuel j (depth + 1) s))
          (some (push i st))

/-- The graph `traverse` as called on a payload: depth 0, stack budget 10
(one frame per depth 0..9, depth 10 being cut off by `depth > 8` at 9). -/
def traversePayloadG (h : List HNode) (push : ℕ → List ℕ → List ℕ) (root : ℕ) :
    Option (List ℕ) :=
  traverseG h push 10 root 0 []

/-- The string left after `toNumber`'s stripping step:
`String(value).trim().replace(/[^\d.]/g, '')`. -/
def stripNonNumeric (s : String) : String :=
  String.mk ((jsTrim s).toList.filter (fun c => isDigitChar c || c = '.'))

/-- The DedupKey data of a record: the five fields
`(product_name, price, original_price, product_image, product_url)`. -/
def dedupTuple (n : JSON) : Option JSON × Option JSON × Option JSON × Option JSON × Option JSON :=
  (getProp n "product_name", getProp n "price", getProp n "original_price",
   getProp n "product_image", getProp n "product_url")

/-- An object all of whose field values survive `compactObject` (every
record produced by `normalizeProduct` is of this shape). -/
def isCompactObj : JSON → Bool
  | .obj fs => fs.all (fun e => keepVal e.2)
  | _ => false

/-- The spec's category-tile example: a name-like field and an identifier
but no price signal. -/
def snackCandidate : JSON := .obj [("title", .str "Category: Snacks"), ("id", .num 55)]

/-- A candidate carrying a camel-case SKU, a name and a price — the
normalized record keeps `sku_id` but has no `product_id`. -/
def skuCandidate : JSON := .obj [("skuId", .str "S1"), ("name", .str "X"), ("price", .num 5)]

/-- Shape of a trimmed optional string field. -/
def strShape (o : Option String) : Prop := ∀ s, o = some s → jsTrim s = s

/-- Shape of a trimmed, non-empty optional string field. -/
def strShapeNE (o : Option String) : Prop := ∀ s, o = some s → jsTrim s = s ∧ s ≠ ""

/-- Shape of an extracted identifier: a finite number or a trimmed
non-empty string. -/
def idShape (o : Option JSON) : Prop :=
  ∀ v, o = some v → (∃ q, v = .num q) ∨ (∃ s, v = .str s ∧ jsTrim s = s ∧ s ≠ "")

/-- Shape of an extracted quantity: a finite number or a trimmed non-empty
non-numeric string. -/
def qtyShape (o : Option JSON) : Prop :=
  ∀ v, o = some v →
    (∃ q, v = .num q) ∨ (∃ t, v = .str t ∧ jsTrim t = t ∧ t ≠ "" ∧ toNumber (.str t) = none)

/-- Shape of coerced availability: one of the two stock constants. -/
def availShape (o : Option String) : Prop :=
  ∀ s, o = some s → s = "In Stock" ∨ s = "Out of Stock"

/-- Shape of a computed product URL: trimmed and `http`-prefixed. -/
def urlShape (o : Option String) : Prop :=
  ∀ u, o = some u → jsTrim u = u ∧ jsStartsWith u "http" = true

/-- The invariants satisfied by every `normalizeProduct` field vector:
trimmed strings, constant availability, number-or-trimmed-string ids and
quantities, `http`-prefixed URLs, and URL absence only without an id/name
pair to synthesize one from. -/
def normShape (f : NormFields) : Prop :=
  strShape f.productName ∧ strShape f.discount ∧ strShape f.delivery
  ∧ availShape f.availability ∧ strShapeNE f.brand ∧ strShapeNE f.unit
  ∧ idShape f.productId ∧ idShape f.skuId ∧ qtyShape f.quantity
  ∧ urlShape f.productUrl
  ∧ (f.productUrl = none → (jTruthy f.productId && strTruthy f.productName) = false)

/-- Compaction-equivalence of two record entries: equal, or same key with
both values compacted away. -/
def entEq (a b : String × JSON) : Prop :=
  a = b ∨ (keepVal a.2 = false ∧ keepVal b.2 = false ∧ a.1 = b.1)

/-- Empty-string normalization of an optional string (the effect of one
extra normalization round on a trimmed string field). -/
def strRenorm (b : Option String) : Option String :=
  match b with
  | some s => if s = "" then none else some s
  | none => none

/-- Blank-trimming normalization of the optional image string. -/
def imgRenorm (b : Option String) : Option String :=
  match b with
  | some s => if jsTrim s = "" then none else some s
  | none => none

/-! ## General helper lemmas -/

/-- A `foldl` preserves any invariant its step function preserves. -/
theorem foldl_preserve {α β : Type} {f : α → β → α} {P : α → Prop}
    (hf : ∀ a b, P a → P (f a b)) : ∀ (l : List β) (a : α), P a → P (l.foldl f a) := by
  intro l
  induction l with
  | nil => intro a ha; simpa using ha
  | cons x xs ih => intro a ha; simpa using ih (f a x) (hf a x ha)

/-- The head surviving a `dropWhile` fails the predicate. -/
theorem head?_dropWhile_false (p : Char → Bool) :
    ∀ (l : List Char) (c : Char), (l.dropWhile p).head? = some c → p c = false := by
  intro l
  induction l with
  | nil => intro c hc; simp [List.dropWhile] at hc
  | cons a as ih =>
    intro c hc
    cases hpa : p a with
    | true => rw [List.dropWhile_cons_of_pos hpa] at hc; exact ih c hc
    | false =>
      rw [List.dropWhile_cons_of_neg (by simp [hpa])] at hc
      simp at hc
      rw [← hc]
      exact hpa

/-- `dropWhile` is the identity when the head already fails the predicate. -/
theorem dropWhile_eq_self_of_head (p : Char → Bool) (l : List Char)
    (h : ∀ c, l.head? = some c → p c = false) : l.dropWhile p = l := by
  cases l with
  | nil => simp [List.dropWhile]
  | cons a as =>
    have := h a (by simp)
    rw [List.dropWhile_cons_of_neg (by simp [this])]

/-- `dropWhile` removes a prefix, so a nonempty result keeps the last
element. -/
theorem getLast?_dropWhile (p : Char → Bool) :
    ∀ l : List Char, l.dropWhile p = [] ∨ (l.dropWhile p).getLast? = l.getLast? := by
  intro l
  induction l with
  | nil => left; simp [List.dropWhile]
  | cons a as ih =>
    cases hpa : p a with
    | false => right; rw [List.dropWhile_cons_of_neg (by simp [hpa])]
    | true =>
      rw [List.dropWhile_cons_of_pos hpa]
      cases hdw : as.dropWhile p with
      | nil => left; rfl
      | cons b bs =>
        right
        rcases ih with h | h
        · rw [h] at hdw; cases hdw
        · rw [hdw] at h
          rw [h]
          cases has : as with
          | nil => rw [has] at hdw; simp [List.dropWhile] at hdw
          | cons x xs => rw [List.getLast?_cons_cons]

/-- `trimList` is the identity on a list with no whitespace anywhere. -/
theorem trimList_eq_self {l : List Char} (h : ∀ c ∈ l, isWS c = false) : trimList l = l := by
  unfold trimList
  rw [dropWhile_eq_self_of_head isWS l (fun c hc => h c (by cases l <;> simp_all))]
  rw [dropWhile_eq_self_of_head isWS l.reverse
    (fun c hc => h c (by have := List.mem_of_mem_head? hc; simp at this; exact this))]
  exact List.reverse_reverse l

/-- Trimming is idempotent. -/
theorem trimList_idem (l : List Char) : trimList (trimList l) = trimList l := by
  unfold trimList
  set A := l.dropWhile isWS with hA
  set B := A.reverse.dropWhile isWS with hB
  -- the trimmed list is B.reverse; both of its ends fail `isWS`
  have hBhead : ∀ c, B.head? = some c → isWS c = false := fun c hc =>
    head?_dropWhile_false isWS A.reverse c (hB ▸ hc)
  have hBlast : ∀ c, B.getLast? = some c → isWS c = false := by
    intro c hc
    rcases getLast?_dropWhile isWS A.reverse with h | h
    · rw [hB] at hc; rw [h] at hc; simp at hc
    · rw [hB] at hc
      rw [h] at hc
      rw [List.getLast?_reverse] at hc
      exact head?_dropWhile_false isWS l c (hA ▸ hc)
  have h1 : B.reverse.dropWhile isWS = B.reverse := by
    apply dropWhile_eq_self_of_head
    intro c hc
    rw [List.head?_reverse] at hc
    exact hBlast c hc
  rw [h1]
  have h2 : B.reverse.reverse.dropWhile isWS = B.reverse.reverse := by
    apply dropWhile_eq_self_of_head
    intro c hc
    rw [List.reverse_reverse, ] at hc
    exact hBhead c hc
  rw [h2, List.reverse_reverse]

/-- `jsTrim` is idempotent. -/
theorem jsTrim_idem (s : String) : jsTrim (jsTrim s) = jsTrim s := by
  unfold jsTrim
  rw [show (String.mk (trimList s.toList)).toList = trimList s.toList from rfl]
  rw [trimList_idem]

/-- `jsTrim` fixes any whitespace-free string. -/
theorem jsTrim_of_no_ws (s : String) (h : ∀ c ∈ s.toList, isWS c = false) : jsTrim s = s := by
  unfold jsTrim
  rw [trimList_eq_self h]
  rfl

/-- A whitespace character is neither a digit nor a period. -/
theorem ws_not_numeric (ch : Char) (h : isWS ch = true) : (isDigitChar ch || ch = '.') = false := by
  simp only [isWS, decide_eq_true_eq] at h
  rcases h with h | h | h | h | h | h <;> subst h <;> decide

/-! ## C6: numeric coercion -/

/-- C6 — `toNumber` accepts native finite numbers as-is, strips every
non-digit/non-period character from (stringified, trimmed) strings before
parsing, and returns absent for empty or unparsable input:
`"₹1,234.50" ↦ 1234.50`, `"abc" ↦ absent`, `42 ↦ 42`, `"" ↦ absent`. -/
theorem toNumber_coercion_spec :
    (∀ q : ℚ, toNumber (.num q) = some q)
    ∧ (∀ s : String, toNumber (.str s) = toNumber (.str (stripNonNumeric s)))
    ∧ toNumber (.str "₹1,234.50") = some (2469 / 2)
    ∧ toNumber (.str "abc") = none
    ∧ toNumber (.num 42) = some 42
    ∧ toNumber (.str "") = none := by
  refine ⟨fun q => rfl, ?_, by with_unfolding_all rfl, by decide, rfl, by decide⟩
  intro s
  have hchars : ∀ c ∈ (stripNonNumeric s).toList, isWS c = false := by
    intro c hc
    unfold stripNonNumeric at hc
    rw [show (String.mk ((jsTrim s).toList.filter (fun c => isDigitChar c || c = '.'))).toList
        = (jsTrim s).toList.filter (fun c => isDigitChar c || c = '.') from rfl] at hc
    have hp := List.of_mem_filter hc
    cases hw : isWS c with
    | false => rfl
    | true => rw [ws_not_numeric c hw] at hp; exact absurd hp (by simp)
  show toNumber (.str s) = toNumber (.str (stripNonNumeric s))
  unfold toNumber
  simp only [jsToString]
  rw [jsTrim_of_no_ws (stripNonNumeric s) hchars]
  unfold stripNonNumeric
  by_cases h0 : jsTrim s = ""
  · have : (jsTrim s).toList = [] := by rw [h0]; rfl
    rw [this, h0]
    rfl
  · rw [if_neg h0]
    by_cases h1 : (jsTrim s).toList.filter (fun c => isDigitChar c || c = '.') = []
    · rw [h1]
      simp
    · have hmkne : String.mk ((jsTrim s).toList.filter (fun c => isDigitChar c || c = '.')) ≠ "" :=
        fun hEq => h1 (congrArg String.toList hEq)
      rw [if_neg hmkne]
      have htl : (String.mk ((jsTrim s).toList.filter (fun c => isDigitChar c || c = '.'))).toList
          = (jsTrim s).toList.filter (fun c => isDigitChar c || c = '.') := rfl
      rw [htl, List.filter_filter]
      simp only [Bool.and_self]
      rw [if_neg hmkne, if_neg hmkne]

/-! ## Record lookup machinery -/

/-- A key absent from the key list looks up to nothing. -/
theorem lookupField_none_of_not_key :
    ∀ (l : List (String × JSON)) (k : String), k ∉ l.map Prod.fst → lookupField l k = none := by
  intro l
  induction l with
  | nil => intro k _; rfl
  | cons e rest ih =>
    intro k hk
    obtain ⟨ek, ev⟩ := e
    rw [List.map_cons, List.mem_cons] at hk
    push_neg at hk
    rw [lookupField, if_neg (fun hEq => hk.1 hEq.symm)]
    exact ih k hk.2

/-- Looking up in a filtered field list, when keys are distinct: the
binding survives iff its value passes the filter. -/
theorem lookupField_filter (P : JSON → Bool) :
    ∀ (l : List (String × JSON)) (k : String), (l.map Prod.fst).Nodup →
      lookupField (l.filter (fun e => P e.2)) k =
        (match lookupField l k with
         | some v => if P v then some v else none
         | none => none) := by
  intro l
  induction l with
  | nil => intro k _; rfl
  | cons e rest ih =>
    intro k hnd
    obtain ⟨ek, ev⟩ := e
    simp only [List.map_cons, List.nodup_cons] at hnd
    by_cases hk : ek = k
    · subst hk
      cases hP : P ev with
      | true =>
        rw [show ((ek, ev) :: rest).filter (fun e => P e.2) =
            (ek, ev) :: rest.filter (fun e => P e.2) from by simp [List.filter, hP]]
        simp [lookupField, hP]
      | false =>
        rw [show ((ek, ev) :: rest).filter (fun e => P e.2) =
            rest.filter (fun e => P e.2) from by simp [List.filter, hP]]
        have hnone : lookupField (rest.filter (fun e => P e.2)) ek = none := by
          apply lookupField_none_of_not_key
          intro hmem
          apply hnd.1
          simp only [List.mem_map] at hmem ⊢
          obtain ⟨x, hx, hxk⟩ := hmem
          exact ⟨x, List.mem_of_mem_filter hx, hxk⟩
        rw [hnone]
        simp [lookupField, hP]
    · have hstep : lookupField ((ek, ev) :: rest) k = lookupField rest k := by
        rw [lookupField, if_neg hk]
      rw [hstep]
      cases hP : P ev with
      | true =>
        rw [show ((ek, ev) :: rest).filter (fun e => P e.2) =
            (ek, ev) :: rest.filter (fun e => P e.2) from by simp [List.filter, hP]]
        rw [lookupField, if_neg hk]
        exact ih k hnd.2
      | false =>
        rw [show ((ek, ev) :: rest).filter (fun e => P e.2) =
            rest.filter (fun e => P e.2) from by simp [List.filter, hP]]
        exact ih k hnd.2

/-- Property access on a compacted object with distinct keys. -/
theorem getProp_compact_obj (l : List (String × JSON)) (k : String)
    (h : (l.map Prod.fst).Nodup) :
    getProp (compactObject (.obj l)) k =
      (match lookupField l k with
       | some v => if keepVal v then some v else none
       | none => none) := by
  show lookupField (l.filter (fun e => keepVal e.2)) k = _
  exact lookupField_filter keepVal l k h

/-- The sixteen record keys are distinct. -/
theorem recordEntries_keys_nodup (f : NormFields) :
    ((recordEntries f).map Prod.fst).Nodup := by
  show (["product_name", "price", "original_price", "discount_percentage", "product_image",
    "availability", "delivery_time", "product_url", "product_id", "sku_id", "brand",
    "quantity", "unit", "rating", "ratings_count", "inventory"] : List String).Nodup
  decide

/-- Lookup in a filtered record, pushed through to the literal entries. -/
theorem lookupRecord (f : NormFields) (k : String) :
    lookupField ((recordEntries f).filter (fun e => keepVal e.2)) k =
      (match lookupField (recordEntries f) k with
       | some v => if keepVal v then some v else none
       | none => none) :=
  lookupField_filter keepVal (recordEntries f) k (recordEntries_keys_nodup f)

/-- Any key outside the record's sixteen reads as absent. -/
theorem getRecord_absent (f : NormFields) (k : String)
    (hk : lookupField (recordEntries f) k = none) :
    getProp (compactObject (.obj (recordEntries f))) k = none := by
  rw [getProp_compact_obj _ _ (recordEntries_keys_nodup f), hk]

/-- `product_name` in the compacted record. -/
theorem getRecord_product_name (f : NormFields) :
    getProp (compactObject (.obj (recordEntries f))) "product_name" =
      if keepVal (optStr f.productName) then some (optStr f.productName) else none := by
  rw [getProp_compact_obj _ _ (recordEntries_keys_nodup f)]
  rfl

/-- `price` in the compacted record. -/
theorem getRecord_price (f : NormFields) :
    getProp (compactObject (.obj (recordEntries f))) "price" =
      if keepVal (optNum f.price) then some (optNum f.price) else none := by
  rw [getProp_compact_obj _ _ (recordEntries_keys_nodup f)]
  rfl

/-- `original_price` in the compacted record. -/
theorem getRecord_original_price (f : NormFields) :
    getProp (compactObject (.obj (recordEntries f))) "original_price" =
      if keepVal (optNum f.originalPrice) then some (optNum f.originalPrice) else none := by
  rw [getProp_compact_obj _ _ (recordEntries_keys_nodup f)]
  rfl

/-- `discount_percentage` in the compacted record. -/
theorem getRecord_discount (f : NormFields) :
    getProp (compactObject (.obj (recordEntries f))) "discount_percentage" =
      if keepVal (optStr f.discount) then some (optStr f.discount) else none := by
  rw [getProp_compact_obj _ _ (recordEntries_keys_nodup f)]
  rfl

/-- `product_image` in the compacted record. -/
theorem getRecord_image (f : NormFields) :
    getProp (compactObject (.obj (recordEntries f))) "product_image" =
      if keepVal (optStr f.image) then some (optStr f.image) else none := by
  rw [getProp_compact_obj _ _ (recordEntries_keys_nodup f)]
  rfl

/-- `availability` in the compacted record. -/
theorem getRecord_availability (f : NormFields) :
    getProp (compactObject (.obj (recordEntries f))) "availability" =
      if keepVal (optStr (jsOrStr f.availability (some "Unknown")))
      then some (optStr (jsOrStr f.availability (some "Unknown"))) else none := by
  rw [getProp_compact_obj _ _ (recordEntries_keys_nodup f)]
  rfl

/-- `delivery_time` in the compacted record. -/
theorem getRecord_delivery (f : NormFields) :
    getProp (compactObject (.obj (recordEntries f))) "delivery_time" =
      if keepVal (optStr f.delivery) then some (optStr f.delivery) else none := by
  rw [getProp_compact_obj _ _ (recordEntries_keys_nodup f)]
  rfl

/-- `product_url` in the compacted record. -/
theorem getRecord_product_url (f : NormFields) :
    getProp (compactObject (.obj (recordEntries f))) "product_url" =
      if keepVal (optStr f.productUrl) then some (optStr f.productUrl) else none := by
  rw [getProp_compact_obj _ _ (recordEntries_keys_nodup f)]
  rfl

/-- `product_id` in the compacted record. -/
theorem getRecord_product_id (f : NormFields) :
    getProp (compactObject (.obj (recordEntries f))) "product_id" =
      if keepVal (optJ f.productId) then some (optJ f.productId) else none := by
  rw [getProp_compact_obj _ _ (recordEntries_keys_nodup f)]
  rfl

/-- `sku_id` in the compacted record. -/
theorem getRecord_sku_id (f : NormFields) :
    getProp (compactObject (.obj (recordEntries f))) "sku_id" =
      if keepVal (optJ f.skuId) then some (optJ f.skuId) else none := by
  rw [getProp_compact_obj _ _ (recordEntries_keys_nodup f)]
  rfl

/-- `brand` in the compacted record. -/
theorem getRecord_brand (f : NormFields) :
    getProp (compactObject (.obj (recordEntries f))) "brand" =
      if keepVal (optStr f.brand) then some (optStr f.brand) else none := by
  rw [getProp_compact_obj _ _ (recordEntries_keys_nodup f)]
  rfl

/-- `quantity` in the compacted record. -/
theorem getRecord_quantity (f : NormFields) :
    getProp (compactObject (.obj (recordEntries f))) "quantity" =
      if keepVal (optJ f.quantity) then some (optJ f.quantity) else none := by
  rw [getProp_compact_obj _ _ (recordEntries_keys_nodup f)]
  rfl

/-- `unit` in the compacted record. -/
theorem getRecord_unit (f : NormFields) :
    getProp (compactObject (.obj (recordEntries f))) "unit" =
      if keepVal (optStr f.unit) then some (optStr f.unit) else none := by
  rw [getProp_compact_obj _ _ (recordEntries_keys_nodup f)]
  rfl

/-- `rating` in the compacted record. -/
theorem getRecord_rating (f : NormFields) :
    getProp (compactObject (.obj (recordEntries f))) "rating" =
      if keepVal (optNum f.rating) then some (optNum f.rating) else none := by
  rw [getProp_compact_obj _ _ (recordEntries_keys_nodup f)]
  rfl

/-- `ratings_count` in the compacted record. -/
theorem getRecord_ratings_count (f : NormFields) :
    getProp (compactObject (.obj (recordEntries f))) "ratings_count" =
      if keepVal (optInt f.ratingsCount) then some (optInt f.ratingsCount) else none := by
  rw [getProp_compact_obj _ _ (recordEntries_keys_nodup f)]
  rfl

/-- `inventory` in the compacted record. -/
theorem getRecord_inventory (f : NormFields) :
    getProp (compactObject (.obj (recordEntries f))) "inventory" =
      if keepVal (optInt f.inventory) then some (optInt f.inventory) else none := by
  rw [getProp_compact_obj _ _ (recordEntries_keys_nodup f)]
  rfl

/-! ## C7: availability coercion -/

/-- C7 — availability coercion maps `true ↦ In Stock`, `false ↦ Out of
Stock`; strings match case-insensitively with `"out"` checked before
`"in"`; any other or missing value is absent from the canonicalizer and
turns into `Unknown` only when `normalizeProduct` assembles the record. -/
theorem availability_mapping_spec :
    (∀ obj, pickFirst obj PRODUCT_KEYS_availability = some (.bool true) →
      extractAvailability obj = some "In Stock")
    ∧ (∀ obj, pickFirst obj PRODUCT_KEYS_availability = some (.bool false) →
      extractAvailability obj = some "Out of Stock")
    ∧ (∀ obj s, pickFirst obj PRODUCT_KEYS_availability = some (.str s) →
      extractAvailability obj =
        (if containsSub (strLower s) "out" then some "Out of Stock"
         else if containsSub (strLower s) "in" then some "In Stock"
         else none))
    ∧ (∀ obj, pickFirst obj PRODUCT_KEYS_availability = none → extractAvailability obj = none)
    ∧ extractAvailability (.obj [("availability", .str "Out of Stock")]) = some "Out of Stock"
    ∧ extractAvailability (.obj [("availability", .str "In Stock")]) = some "In Stock"
    ∧ (∀ raw, extractAvailability (productBase raw) = none → extractAvailability raw = none →
      getProp (normalizeProduct raw) "availability" = some (.str "Unknown")) := by
  refine ⟨?_, ?_, ?_, ?_, rfl, rfl, ?_⟩
  · intro obj h; unfold extractAvailability; rw [h]
  · intro obj h; unfold extractAvailability; rw [h]
  · intro obj s h; unfold extractAvailability; rw [h]
  · intro obj h; unfold extractAvailability; rw [h]
  · intro raw h1 h2
    show getProp (compactObject (.obj (recordEntries (normFields raw)))) "availability" = _
    rw [getRecord_availability]
    have hav : (normFields raw).availability = none := by
      show (extractAvailability (productBase raw) <|> extractAvailability raw) = none
      rw [h1, h2]
      rfl
    rw [hav]
    rfl

/-- Witness for C7 at concrete inputs. -/
theorem availability_mapping_spec_witness :
    extractAvailability (.obj [("in_stock", .bool true)]) = some "In Stock"
    ∧ extractAvailability (.obj [("available", .bool false)]) = some "Out of Stock"
    ∧ extractAvailability (.obj [("stock", .str "Sold OUT")]) = some "Out of Stock"
    ∧ extractAvailability (.obj [("note", .str "x")]) = none
    ∧ getProp (normalizeProduct (.obj [("name", .str "X")])) "availability"
      = some (.str "Unknown") := by
  obtain ⟨h1, h2, h3, h4, _, _, h7⟩ := availability_mapping_spec
  refine ⟨h1 _ rfl, h2 _ rfl, ?_, h4 _ rfl, h7 (.obj [("name", .str "X")]) rfl rfl⟩
  rw [h3 (.obj [("stock", .str "Sold OUT")]) "Sold OUT" rfl]
  rfl

/-! ## C8: pagination prober -/

/-- C8 — `fetchNext` increments the first pagination parameter present in
the fixed preference order `page, offset, from, start, skip` (returning
immediately when none is present); the step for offset-like parameters
comes from the first present `limit`/`size`/`count` parameter when it
parses to a positive integer and is 24 otherwise; the base URL
`...?q=milk&offset=0` with no step parameter probes to `offset=24`. -/
theorem fetchNext_pagination_spec :
    (∀ u : URLModel, lookupParam u.params "page" = none →
      lookupParam u.params "offset" = none → lookupParam u.params "from" = none →
      lookupParam u.params "start" = none → lookupParam u.params "skip" = none →
      fetchNext u = none)
    ∧ (∀ u : URLModel, (lookupParam u.params "page").isSome = true →
      fetchNext u = some (bumpParam u "page" 1))
    ∧ (∀ u : URLModel, lookupParam u.params "page" = none →
      (lookupParam u.params "offset").isSome = true →
      fetchNext u = some (bumpParam u "offset" (detectStep u)))
    ∧ (∀ u : URLModel, lookupParam u.params "limit" = none →
      lookupParam u.params "size" = none → lookupParam u.params "count" = none →
      detectStep u = 24)
    ∧ (∀ (u : URLModel) (s : String) (n : ℤ),
      (lookupParam u.params "limit" <|> lookupParam u.params "size"
        <|> lookupParam u.params "count") = some s →
      parseIntDec s = some n → 0 < n → detectStep u = n)
    ∧ fetchNext ⟨"https://blinkit.com/v1/search", [("q", "milk"), ("offset", "0")]⟩ =
      some ⟨"https://blinkit.com/v1/search", [("q", "milk"), ("offset", "24")]⟩ := by
  refine ⟨?_, ?_, ?_, ?_, ?_, by with_unfolding_all rfl⟩
  · intro u h1 h2 h3 h4 h5
    simp [fetchNext, h1, h2, h3, h4, h5]
  · intro u h
    simp [fetchNext, h]
  · intro u h1 h2
    simp [fetchNext, h1, h2]
  · intro u h1 h2 h3
    simp [detectStep, h1, h2, h3]
    rfl
  · intro u s n hs hp hn
    unfold detectStep
    rw [hs]
    show (match parseIntDec s with
      | some p => if 0 < p then p else 24
      | none => (24 : ℤ)) = n
    rw [hp]
    exact if_pos hn

/-- Witness for C8 at concrete inputs. -/
theorem fetchNext_pagination_spec_witness :
    fetchNext ⟨"u", [("q", "milk")]⟩ = none
    ∧ fetchNext ⟨"u", [("page", "2"), ("offset", "0")]⟩ =
      some (bumpParam ⟨"u", [("page", "2"), ("offset", "0")]⟩ "page" 1)
    ∧ fetchNext ⟨"u", [("offset", "0")]⟩ =
      some (bumpParam ⟨"u", [("offset", "0")]⟩ "offset"
        (detectStep ⟨"u", [("offset", "0")]⟩))
    ∧ detectStep ⟨"u", [("offset", "0")]⟩ = 24
    ∧ detectStep ⟨"u", [("offset", "0"), ("limit", "50")]⟩ = 50 := by
  obtain ⟨h1, h2, h3, h4, h5, _⟩ := fetchNext_pagination_spec
  exact ⟨h1 _ rfl rfl rfl rfl rfl, h2 _ rfl, h3 _ rfl rfl, h4 _ rfl rfl rfl,
    h5 _ "50" 50 rfl (by with_unfolding_all rfl) (by norm_num)⟩

/-! ## C10: results_wanted coercion -/

/-- `pushResults` never reports `done` when the target is 0. -/
theorem pushResults_zero_not_done (cfg : RunConfig) (st : RunState) (b : List JSON) :
    (pushResults cfg 0 st b).1 = false := by
  unfold pushResults
  cases b with
  | nil => rfl
  | cons p rest =>
    simp only [if_neg (lt_irrefl (0 : ℚ)), decide_eq_false (lt_irrefl (0 : ℚ)), Bool.false_and]
    split <;> first
      | rfl
      | (split <;> first
          | rfl
          | (split <;> rfl))

/-- With target 0 the waterfall never stops early: it folds `pushResults`
over every batch. -/
theorem runBatches_zero_eq_foldl (cfg : RunConfig) :
    ∀ (batches : List (List JSON)) (st : RunState),
      runBatches cfg 0 batches st =
        batches.foldl (fun s b => (pushResults cfg 0 s b).2) st := by
  intro batches
  induction batches with
  | nil => intro st; rfl
  | cons b bs ih =>
    intro st
    rw [show runBatches cfg 0 (b :: bs) st =
        (if (pushResults cfg 0 st b).1 then (pushResults cfg 0 st b).2
         else runBatches cfg 0 bs (pushResults cfg 0 st b).2) from rfl]
    rw [pushResults_zero_not_done]
    simp only [List.foldl_cons, if_false]
    exact ih _

/-- C10 — any `results_wanted` whose JS numeric coercion is not a finite
number strictly greater than zero (NaN, ±Infinity, zero, negatives,
non-numeric strings, objects) yields effective target 0, and a target of 0
runs as unlimited (no stage ever stops the waterfall) instead of rejecting
the input. -/
theorem results_wanted_coercion_spec :
    (∀ v : JSON, (jsPlus v = none ∨ ∃ q, jsPlus v = some q ∧ q ≤ 0) →
      effectiveTarget v = 0)
    ∧ (∀ (cfg : RunConfig) (batches : List (List JSON)) (st : RunState),
      runBatches cfg 0 batches st =
        batches.foldl (fun s b => (pushResults cfg 0 s b).2) st) := by
  constructor
  · intro v hv
    unfold effectiveTarget
    rcases hv with h | ⟨q, hq, hle⟩
    · rw [h]
    · rw [hq]
      exact if_neg (not_lt.mpr hle)
  · exact fun cfg batches st => runBatches_zero_eq_foldl cfg batches st

/-- Witness for C10: a NaN-coercing string and a negative number. -/
theorem results_wanted_coercion_spec_witness :
    effectiveTarget (.str "NaN") = 0 ∧ effectiveTarget (.num (-5)) = 0 := by
  have h := results_wanted_coercion_spec
  constructor
  · exact h.1 _ (Or.inl rfl)
  · exact h.1 _ (Or.inr ⟨-5, rfl, by norm_num⟩)

/-! ## C9: depth-bounded, cycle-safe traversal -/

/-- Threading an always-successful step through a `foldl` of binds keeps
the result defined. -/
theorem foldl_bind_isSome {α : Type} {g : ℕ → α → Option α}
    (hg : ∀ j s, (g j s).isSome = true) :
    ∀ (l : List ℕ) (acc : Option α), acc.isSome = true →
      (l.foldl (fun acc j => acc.bind (fun s => g j s)) acc).isSome = true := by
  intro l
  induction l with
  | nil => intro acc ha; exact ha
  | cons j rest ih =>
    intro acc ha
    simp only [List.foldl_cons]
    apply ih
    cases hacc : acc with
    | none => rw [hacc] at ha; cases ha
    | some s =>
      rw [show (some s).bind (fun s => g j s) = g j s from rfl]
      exact hg j s

/-- A stack budget of `9 - depth` always suffices for the
`findProductArrays` walk, whatever the heap looks like. -/
theorem walkG_isSome (h : List HNode) (accept : ℕ → Bool) :
    ∀ (fuel : ℕ) (i depth : ℕ) (st : GraphScanState), 1 ≤ fuel → 9 ≤ fuel + depth →
      (walkG h accept fuel i depth st).isSome = true := by
  intro fuel
  induction fuel with
  | zero => intro i depth st h1 _; exact absurd h1 (by norm_num)
  | succ fuel ih =>
    intro i depth st _ h9
    unfold walkG
    cases hn : getHNode h i with
    | leaf => rfl
    | harr elems =>
      dsimp only
      by_cases hg : i ∈ st.seen ∨ 7 < depth
      · rw [if_pos hg]; rfl
      · rw [if_neg hg]
        push_neg at hg
        have hrec : ∀ j s, (walkG h accept fuel j (depth + 1) s).isSome = true := by
          intro j s
          exact ih j (depth + 1) s (by omega) (by omega)
        exact foldl_bind_isSome hrec elems _ rfl
    | hobj vals =>
      dsimp only
      by_cases hg : i ∈ st.seen ∨ 7 < depth
      · rw [if_pos hg]; rfl
      · rw [if_neg hg]
        push_neg at hg
        have hrec : ∀ j s, (walkG h accept fuel j (depth + 1) s).isSome = true := by
          intro j s
          exact ih j (depth + 1) s (by omega) (by omega)
        exact foldl_bind_isSome hrec vals _ rfl

/-- A stack budget of `10 - depth` always suffices for the payload
`traverse` walk, whatever the heap looks like. -/
theorem traverseG_isSome (h : List HNode) (push : ℕ → List ℕ → List ℕ) :
    ∀ (fuel : ℕ) (i depth : ℕ) (st : List ℕ), 1 ≤ fuel → 10 ≤ fuel + depth →
      (traverseG h push fuel i depth st).isSome = true := by
  intro fuel
  induction fuel with
  | zero => intro i depth st h1 _; exact absurd h1 (by norm_num)
  | succ fuel ih =>
    intro i depth st _ h10
    unfold traverseG
    cases hn : getHNode h i with
    | leaf => rfl
    | harr elems =>
      dsimp only
      by_cases hg : 8 < depth
      · rw [if_pos hg]; rfl
      · rw [if_neg hg]
        have hrec : ∀ j s, (traverseG h push fuel j (depth + 1) s).isSome = true := by
          intro j s
          exact ih j (depth + 1) s (by omega) (by omega)
        exact foldl_bind_isSome hrec elems _ rfl
    | hobj vals =>
      dsimp only
      by_cases hg : 8 < depth
      · rw [if_pos hg]; rfl
      · rw [if_neg hg]
        have hrec : ∀ j s, (traverseG h push fuel j (depth + 1) s).isSome = true := by
          intro j s
          exact ih j (depth + 1) s (by omega) (by omega)
        exact foldl_bind_isSome hrec vals _ rfl

/-- C9 — for every object graph, including cyclic and shared structure,
both scans terminate with a result: the `findProductArrays` walk
(visited set plus `depth > 7` guard) and the payload `traverse`
(`depth > 8` guard alone) never need more stack than their depth bound, a
self-referential heap being handled like any other. -/
theorem tree_scan_terminates :
    (∀ (h : List HNode) (accept : ℕ → Bool) (root : ℕ),
      (findProductArraysG h accept root).isSome = true)
    ∧ (∀ (h : List HNode) (push : ℕ → List ℕ → List ℕ) (root : ℕ),
      (traversePayloadG h push root).isSome = true)
    ∧ (findProductArraysG [HNode.harr [0]] (fun _ => true) 0).isSome = true
    ∧ (traversePayloadG [HNode.hobj [0]] (fun i s => i :: s) 0).isSome = true := by
  refine ⟨?_, ?_, ?_, ?_⟩
  · intro h accept root
    exact walkG_isSome h accept 9 root 0 ⟨[], []⟩ (by norm_num) (by norm_num)
  · intro h push root
    exact traverseG_isSome h push 10 root 0 [] (by norm_num) (by norm_num)
  · exact walkG_isSome _ _ 9 0 0 _ (by norm_num) (by norm_num)
  · exact traverseG_isSome _ _ 10 0 0 _ (by norm_num) (by norm_num)

/-! ## Shape facts about rendered numbers and names -/

/-- Digit characters are never whitespace, never empty-string material. -/
theorem digitChar_not_ws (m : ℕ) : isWS (digitChar m) = false := by
  unfold digitChar
  split <;> decide

/-- Every character produced by `natDigitsAux` is a digit character. -/
theorem natDigitsAux_chars :
    ∀ (fuel n : ℕ) (c : Char), c ∈ natDigitsAux fuel n → ∃ m, c = digitChar m := by
  intro fuel
  induction fuel with
  | zero => intro n c hc; simp [natDigitsAux] at hc
  | succ fuel ih =>
    intro n c hc
    unfold natDigitsAux at hc
    by_cases hlt : n < 10
    · rw [if_pos hlt] at hc
      simp at hc
      exact ⟨n, hc⟩
    · rw [if_neg hlt] at hc
      rw [List.mem_append] at hc
      rcases hc with hc | hc
      · exact ih (n / 10) c hc
      · simp at hc
        exact ⟨n % 10, hc⟩

/-- `natDigits` is never empty. -/
theorem natDigits_ne_nil (n : ℕ) : natDigits n ≠ [] := by
  unfold natDigits natDigitsAux
  split <;> simp

/-- No whitespace in a printed natural number. -/
theorem natDigits_no_ws (n : ℕ) (c : Char) (hc : c ∈ natDigits n) : isWS c = false := by
  obtain ⟨m, rfl⟩ := natDigitsAux_chars (n + 1) n c hc
  exact digitChar_not_ws m

/-- No whitespace in a printed integer. -/
theorem intToString_no_ws (i : ℤ) (c : Char) (hc : c ∈ (intToString i).toList) :
    isWS c = false := by
  unfold intToString at hc
  by_cases hneg : i < 0
  · rw [if_pos hneg] at hc
    rw [show (String.mk ('-' :: natDigits i.natAbs)).toList = '-' :: natDigits i.natAbs from rfl,
      List.mem_cons] at hc
    rcases hc with hc | hc
    · rw [hc]; decide
    · exact natDigits_no_ws _ c hc
  · rw [if_neg hneg] at hc
    exact natDigits_no_ws _ c hc

/-- A printed integer is never the empty string. -/
theorem intToString_ne_empty (i : ℤ) : intToString i ≠ "" := by
  unfold intToString
  intro hEq
  by_cases hneg : i < 0
  · rw [if_pos hneg] at hEq
    exact absurd (congrArg String.toList hEq) (by simp)
  · rw [if_neg hneg] at hEq
    exact natDigits_ne_nil _ (congrArg String.toList hEq)

/-- No whitespace anywhere in a JS-rendered number. -/
theorem numToString_no_ws (q : ℚ) (c : Char) (hc : c ∈ (numToString q).toList) :
    isWS c = false := by
  unfold numToString at hc
  by_cases hden : q.den = 1
  · rw [if_pos hden] at hc
    exact intToString_no_ws _ c hc
  · rw [if_neg hden] at hc
    cases hfind : (List.range 40).find? (fun k => (q * (10 : ℚ) ^ (k + 1)).den = 1) with
    | some k =>
      rw [hfind] at hc
      simp only [] at hc
      rw [show ∀ l : List Char, (String.mk l).toList = l from fun _ => rfl] at hc
      rw [List.mem_append] at hc
      rcases hc with hc | hc
      · rcases List.mem_append.mp hc with hc | hc
        · by_cases hq : q < 0
          · rw [if_pos hq] at hc; simp at hc; rw [hc]; decide
          · rw [if_neg hq] at hc; simp at hc
        · have hpad : c ∈ List.replicate (k + 1 + 1 - (natDigits (q * (10:ℚ) ^ (k+1)).num.natAbs).length) '0'
              ++ natDigits (q * (10:ℚ) ^ (k+1)).num.natAbs := List.mem_of_mem_take hc
          rcases List.mem_append.mp hpad with hp | hp
          · rw [List.eq_of_mem_replicate hp]; decide
          · exact natDigits_no_ws _ c hp
      · rw [List.mem_cons] at hc
        rcases hc with hc | hc
        · rw [hc]; decide
        · have hpad : c ∈ List.replicate (k + 1 + 1 - (natDigits (q * (10:ℚ) ^ (k+1)).num.natAbs).length) '0'
              ++ natDigits (q * (10:ℚ) ^ (k+1)).num.natAbs := List.mem_of_mem_drop hc
          rcases List.mem_append.mp hpad with hp | hp
          · rw [List.eq_of_mem_replicate hp]; decide
          · exact natDigits_no_ws _ c hp
    | none =>
      rw [hfind] at hc
      rw [show ∀ l : List Char, (String.mk l).toList = l from fun _ => rfl] at hc
      rcases List.mem_append.mp hc with hc | hc
      · exact intToString_no_ws _ c hc
      · rw [List.mem_cons] at hc
        rcases hc with hc | hc
        · rw [hc]; decide
        · exact natDigits_no_ws _ c hc

/-- A JS-rendered number is never the empty string. -/
theorem numToString_ne_empty (q : ℚ) : numToString q ≠ "" := by
  unfold numToString
  by_cases hden : q.den = 1
  · rw [if_pos hden]; exact intToString_ne_empty _
  · rw [if_neg hden]
    cases hfind : (List.range 40).find? (fun k => (q * (10 : ℚ) ^ (k + 1)).den = 1) with
    | some k =>
      intro hEq
      have := congrArg String.toList hEq
      rw [show ∀ l : List Char, (String.mk l).toList = l from fun _ => rfl] at this
      simp at this
    | none =>
      intro hEq
      have := congrArg String.toList hEq
      rw [show ∀ l : List Char, (String.mk l).toList = l from fun _ => rfl] at this
      rcases List.append_eq_nil.mp this with ⟨_, h2⟩
      exact absurd h2 (by simp)

/-- `jsTrim` fixes a JS-rendered number. -/
theorem jsTrim_numToString (q : ℚ) : jsTrim (numToString q) = numToString q :=
  jsTrim_of_no_ws _ (numToString_no_ws q)

/-- `jsTrim` fixes a rendered discount label `"<n>%"`. -/
theorem jsTrim_numToString_percent (q : ℚ) :
    jsTrim (numToString q ++ "%") = numToString q ++ "%" := by
  apply jsTrim_of_no_ws
  intro c hc
  rw [show (numToString q ++ "%").toList = (numToString q).toList ++ ['%'] from by
    simp [String.toList]] at hc
  rcases List.mem_append.mp hc with hc | hc
  · exact numToString_no_ws q c hc
  · simp at hc; rw [hc]; decide

/-- Every string `extractName` returns is already trimmed. -/
theorem extractName_trimmed (o : JSON) (s : String) (h : extractName o = some s) :
    jsTrim s = s := by
  unfold extractName at h
  split at h
  · cases h
  · rw [Option.some.injEq] at h; rw [← h]; exact jsTrim_idem _
  · rw [Option.some.injEq] at h; rw [← h]; exact jsTrim_numToString _
  · split at h
    · split at h
      · cases h
      · split at h
        · cases h
        · rw [Option.some.injEq] at h; rw [← h]; exact jsTrim_idem _
      · rw [Option.some.injEq] at h; rw [← h]; exact jsTrim_numToString _
      · cases h
    · cases h

/-! ## C1: pipeline invariant — every pushed candidate is likely -/

/-- `pushProduct` only records candidates that pass `isLikelyProduct`. -/
theorem pushProduct_inv (st : ExtState) (obj : JSON)
    (h : ∀ r ∈ st.rawProducts, isLikelyProduct r = true) :
    ∀ r ∈ (pushProduct st obj).rawProducts, isLikelyProduct r = true := by
  unfold pushProduct
  split
  · exact h
  · split
    · exact h
    · split
      · exact h
      · split
        · exact h
        · rename_i hlik
          intro r hr
          rw [show ({ seen := obj :: st.seen, rawProducts := st.rawProducts ++ [obj] }
              : ExtState).rawProducts = st.rawProducts ++ [obj] from rfl] at hr
          rcases List.mem_append.mp hr with hr | hr
          · exact h r hr
          · simp at hr
            rw [hr]
            exact Decidable.not_not.mp hlik

/-- `collectFromMap` preserves the likelihood invariant. -/
theorem collectFromMap_inv (st : ExtState) (m : JSON)
    (h : ∀ r ∈ st.rawProducts, isLikelyProduct r = true) :
    ∀ r ∈ (collectFromMap st m).rawProducts, isLikelyProduct r = true := by
  unfold collectFromMap
  split
  · exact foldl_preserve (fun a b hb => pushProduct_inv a b hb) _ _ h
  · exact foldl_preserve (fun a b hb => pushProduct_inv a b hb) _ _ h
  · exact h

/-- `pushEntities` preserves the invariant. -/
theorem pushEntities_inv (st : ExtState) (node : JSON)
    (h : ∀ r ∈ st.rawProducts, isLikelyProduct r = true) :
    ∀ r ∈ (pushEntities st node).rawProducts, isLikelyProduct r = true := by
  unfold pushEntities
  split
  · exact collectFromMap_inv _ _ h
  · exact h

/-- `pushProductsKey` preserves the invariant. -/
theorem pushProductsKey_inv (st : ExtState) (node : JSON)
    (h : ∀ r ∈ st.rawProducts, isLikelyProduct r = true) :
    ∀ r ∈ (pushProductsKey st node).rawProducts, isLikelyProduct r = true := by
  unfold pushProductsKey
  split
  · exact collectFromMap_inv _ _ h
  · exact h

/-- `pushDataProducts` preserves the invariant. -/
theorem pushDataProducts_inv (st : ExtState) (node : JSON)
    (h : ∀ r ∈ st.rawProducts, isLikelyProduct r = true) :
    ∀ r ∈ (pushDataProducts st node).rawProducts, isLikelyProduct r = true := by
  unfold pushDataProducts
  split
  · exact collectFromMap_inv _ _ h
  · exact h

/-- `pushGridProducts` preserves the invariant. -/
theorem pushGridProducts_inv (st : ExtState) (node : JSON)
    (h : ∀ r ∈ st.rawProducts, isLikelyProduct r = true) :
    ∀ r ∈ (pushGridProducts st node).rawProducts, isLikelyProduct r = true := by
  unfold pushGridProducts
  split
  · exact collectFromMap_inv _ _ h
  · exact h

/-- `pushWidgets` preserves the invariant. -/
theorem pushWidgets_inv (st : ExtState) (node : JSON)
    (h : ∀ r ∈ st.rawProducts, isLikelyProduct r = true) :
    ∀ r ∈ (pushWidgets st node).rawProducts, isLikelyProduct r = true := by
  unfold pushWidgets
  split
  · exact foldl_preserve (fun a b hb => pushProduct_inv a b hb) _ _ h
  · exact h

/-- `pushWidget` preserves the invariant. -/
theorem pushWidget_inv (st : ExtState) (node : JSON)
    (h : ∀ r ∈ st.rawProducts, isLikelyProduct r = true) :
    ∀ r ∈ (pushWidget st node).rawProducts, isLikelyProduct r = true := by
  unfold pushWidget
  split
  · split
    · exact pushProduct_inv _ _ h
    · exact h
  · exact h

/-- `pushItems` preserves the invariant. -/
theorem pushItems_inv (st : ExtState) (node : JSON)
    (h : ∀ r ∈ st.rawProducts, isLikelyProduct r = true) :
    ∀ r ∈ (pushItems st node).rawProducts, isLikelyProduct r = true := by
  unfold pushItems
  split
  · exact foldl_preserve (fun a b hb => pushProduct_inv a b hb) _ _ h
  · exact h

/-- The whole container-handling block preserves the invariant. -/
theorem containerPushes_inv (st : ExtState) (node : JSON)
    (h : ∀ r ∈ st.rawProducts, isLikelyProduct r = true) :
    ∀ r ∈ (containerPushes st node).rawProducts, isLikelyProduct r = true :=
  pushItems_inv _ _ (pushWidget_inv _ _ (pushWidgets_inv _ _ (pushGridProducts_inv _ _
    (pushDataProducts_inv _ _ (pushProductsKey_inv _ _ (pushEntities_inv _ _ h))))))

/-- The depth-bounded walk preserves the invariant at every fuel level. -/
theorem traverseF_inv :
    ∀ (fuel : ℕ) (node : JSON) (st : ExtState),
      (∀ r ∈ st.rawProducts, isLikelyProduct r = true) →
      ∀ r ∈ (traverseF fuel node st).rawProducts, isLikelyProduct r = true := by
  intro fuel
  induction fuel with
  | zero => intro node st h; exact h
  | succ fuel ih =>
    intro node st h
    unfold traverseF
    split
    · exact h
    · split
      · -- array node
        apply foldl_preserve (fun a b hb => ih b a hb)
        split
        · exact h
        · split
          · exact foldl_preserve (fun a b hb => pushProduct_inv a b hb) _ _ h
          · exact h
      · -- object node
        apply foldl_preserve (fun a b hb => ih b a hb)
        exact containerPushes_inv _ _ h
      · exact h

/-- Every raw candidate accumulated over the payloads is likely. -/
theorem extract_raw_likely (payloads : List JSON) :
    ∀ r ∈ (payloads.foldl (fun st p => if objLike p then traverse p 0 st else st)
      (⟨[], []⟩ : ExtState)).rawProducts, isLikelyProduct r = true := by
  exact foldl_preserve (P := fun st : ExtState => ∀ r ∈ st.rawProducts, isLikelyProduct r = true)
    (fun a b hb => by
      split
      · exact traverseF_inv _ _ _ hb
      · exact hb)
    payloads _ (fun r hr => absurd hr (List.not_mem_nil r))

/-- Membership in the final loop traces back to a raw candidate. -/
theorem normalizeLoop_mem :
    ∀ (raws : List JSON) (seen : List String) (n : JSON),
      n ∈ normalizeLoop raws seen → ∃ r ∈ raws, n = normalizeProduct r := by
  intro raws
  induction raws with
  | nil => intro seen n hn; exact absurd hn (List.not_mem_nil n)
  | cons r rest ih =>
    intro seen n hn
    unfold normalizeLoop at hn
    split at hn
    · obtain ⟨x, hx, he⟩ := ih _ _ hn
      exact ⟨x, List.mem_cons_of_mem _ hx, he⟩
    · split at hn
      · obtain ⟨x, hx, he⟩ := ih _ _ hn
        exact ⟨x, List.mem_cons_of_mem _ hx, he⟩
      · split at hn
        · obtain ⟨x, hx, he⟩ := ih _ _ hn
          exact ⟨x, List.mem_cons_of_mem _ hx, he⟩
        · rcases List.mem_cons.mp hn with he | hn
          · exact ⟨r, List.mem_cons_self r rest, he⟩
          · obtain ⟨x, hx, he⟩ := ih _ _ hn
            exact ⟨x, List.mem_cons_of_mem _ hx, he⟩

/-- A found, non-null first key resolves `pickFirstAux` immediately. -/
theorem pickFirstAux_cons_found (fs : List (String × JSON)) (k : String) (ks : List String)
    (v : JSON) (hv : lookupField fs k = some v) (hnn : isNullJ v = false) :
    pickFirstAux fs (k :: ks) = some v := by
  unfold pickFirstAux
  rw [hv]
  dsimp only
  rw [hnn]
  rfl

/-- A falsy first operand makes `jsOrStr` take its second operand. -/
theorem jsOrStr_of_falsy (a : Option String) (b : Option String)
    (h : jsTruthy (optStr a) = false) : jsOrStr a b = b := by
  cases a with
  | none => rfl
  | some t =>
    have ht : t = "" := by
      rw [show jsTruthy (optStr (some t)) = decide (t ≠ "") from rfl] at h
      simpa using h
    rw [ht]
    rfl

/-- A truthy `optStr` is a nonempty string of a present option. -/
theorem optStr_truthy (a : Option String) (h : jsTruthy (optStr a) = true) :
    ∃ t, a = some t ∧ t ≠ "" := by
  cases a with
  | none => cases h
  | some t =>
    refine ⟨t, rfl, ?_⟩
    rw [show jsTruthy (optStr (some t)) = decide (t ≠ "") from rfl] at h
    simpa using h

/-- `extractName` on an object whose `name` key holds a string. -/
theorem extractName_from_nameStr (rfs : List (String × JSON)) (s : String)
    (hg : lookupField rfs "name" = some (.str s)) :
    extractName (.obj rfs) = some (jsTrim s) := by
  unfold extractName
  rw [show pickFirst (JSON.obj rfs) PRODUCT_KEYS_name = pickFirstAux rfs PRODUCT_KEYS_name from rfl]
  rw [show PRODUCT_KEYS_name = "name" ::
    ["product_name", "title", "productName", "display_name", "displayName", "item_name"] from rfl]
  rw [pickFirstAux_cons_found rfs "name" _ (.str s) hg rfl]

/-- `extractName` on an object whose `name` key holds a `{text: "..."}`
display wrapper. -/
theorem extractName_from_nameObjText (rfs fs : List (String × JSON)) (s : String)
    (hg : lookupField rfs "name" = some (.obj fs))
    (ht : lookupField fs "text" = some (.str s)) (hs : jsTrim s ≠ "") :
    extractName (.obj rfs) = some (jsTrim s) := by
  unfold extractName
  rw [show pickFirst (JSON.obj rfs) PRODUCT_KEYS_name = pickFirstAux rfs PRODUCT_KEYS_name from rfl]
  rw [show PRODUCT_KEYS_name = "name" ::
    ["product_name", "title", "productName", "display_name", "displayName", "item_name"] from rfl]
  rw [pickFirstAux_cons_found rfs "name" _ (.obj fs) hg rfl]
  dsimp only
  rw [show pickFirst (JSON.obj fs) ["text", "name", "title", "display_name", "displayName"]
    = pickFirstAux fs ["text", "name", "title", "display_name", "displayName"] from rfl]
  rw [pickFirstAux_cons_found fs "text" _ (.str s) ht rfl]
  dsimp only
  rw [if_neg hs]
  rfl

/-- A likely candidate always carries a price signal through the same
base-then-outer extraction `normalizeProduct` performs. -/
theorem likely_price (raw : JSON) (h : isLikelyProduct raw = true) :
    (extractPrice (productBase raw) <|> extractPrice raw).isSome = true
    ∨ (extractOriginalPrice (productBase raw) <|> extractOriginalPrice raw).isSome = true := by
  unfold isLikelyProduct at h
  split at h
  · cases h
  · split at h
    · split at h
      · cases h
      · split at h
        · cases h
        · split at h
          · cases h
          · split at h
            · cases h
            · simp only [Bool.or_eq_true] at h
              exact h
    · cases h

/-- A likely candidate always yields a nonempty, trimmed product name
through the same `||` chain `normalizeProduct` uses. -/
theorem likely_name (raw : JSON) (h : isLikelyProduct raw = true) :
    ∃ s, jsOrStr (extractName (productBase raw)) (extractName raw) = some s
      ∧ s ≠ "" ∧ jsTrim s = s := by
  unfold isLikelyProduct at h
  split at h
  · cases h
  · split at h
    · rename_i s heq
      split at h
      · cases h
      · rename_i hs_ne
        split at h
        · cases h
        · rename_i hs_trim
          clear h
          unfold jsOr at heq
          by_cases h1 : jsTruthy (optStr (extractName (productBase raw))) = true
          · obtain ⟨t, ht, htne⟩ := optStr_truthy _ h1
            refine ⟨t, ?_, htne, extractName_trimmed _ _ ht⟩
            rw [ht]
            unfold jsOrStr
            dsimp only
            rw [if_neg htne]
          · rw [if_neg h1] at heq
            rw [jsOrStr_of_falsy _ _ (by simpa using h1)]
            by_cases h2 : jsTruthy (optStr (extractName raw)) = true
            · obtain ⟨t, ht, htne⟩ := optStr_truthy _ h2
              exact ⟨t, ht, htne, extractName_trimmed _ _ ht⟩
            · exfalso
              rw [if_neg h2] at heq
              by_cases h3 : jsTruthy (nameTextProp raw) = true
              · rw [if_pos h3] at heq
                unfold nameTextProp at heq
                cases hg : getProp raw "name" with
                | none => rw [hg] at heq; cases heq
                | some v =>
                  rw [hg] at heq
                  dsimp only at heq
                  cases v with
                  | obj fs =>
                    cases hlt : lookupField fs "text" with
                    | none =>
                      rw [show getPropD (JSON.obj fs) "text"
                        = (lookupField fs "text").getD .null from rfl, hlt] at heq
                      cases heq
                    | some w =>
                      rw [show getPropD (JSON.obj fs) "text"
                        = (lookupField fs "text").getD .null from rfl, hlt,
                        show (some w).getD JSON.null = w from rfl] at heq
                      subst heq
                      cases raw with
                      | obj rfs =>
                        have hen := extractName_from_nameObjText rfs fs s hg hlt hs_trim
                        rw [show optStr (extractName (JSON.obj rfs))
                          = optStr (some (jsTrim s)) from by rw [hen]] at h2
                        apply h2
                        simp only [optStr, jsTruthy]
                        exact decide_eq_true hs_trim
                      | null => simp [getProp] at hg
                      | bool b => simp [getProp] at hg
                      | num q => simp [getProp] at hg
                      | str t => simp [getProp] at hg
                      | arr xs => simp [getProp] at hg
                  | null =>
                    rw [show getPropD JSON.null "text" = JSON.null from rfl] at heq
                    cases heq
                  | bool b =>
                    rw [show getPropD (JSON.bool b) "text" = JSON.null from rfl] at heq
                    cases heq
                  | num q =>
                    rw [show getPropD (JSON.num q) "text" = JSON.null from rfl] at heq
                    cases heq
                  | str t =>
                    rw [show getPropD (JSON.str t) "text" = JSON.null from rfl] at heq
                    cases heq
                  | arr xs =>
                    rw [show getPropD (JSON.arr xs) "text" = JSON.null from rfl] at heq
                    cases heq
              · rw [if_neg h3] at heq
                by_cases h4 : jsTruthy (getPropD raw "name") = true
                · rw [if_pos h4] at heq
                  cases hg : getProp raw "name" with
                  | none =>
                    rw [show getPropD raw "name" = (getProp raw "name").getD .null from rfl,
                      hg] at heq
                    cases heq
                  | some v =>
                    rw [show getPropD raw "name" = (getProp raw "name").getD .null from rfl,
                      hg, show (some v).getD JSON.null = v from rfl] at heq
                    subst heq
                    cases raw with
                    | obj rfs =>
                      have hen := extractName_from_nameStr rfs s hg
                      rw [show optStr (extractName (JSON.obj rfs))
                        = optStr (some (jsTrim s)) from by rw [hen]] at h2
                      apply h2
                      simp only [optStr, jsTruthy]
                      exact decide_eq_true hs_trim
                    | null => simp [getProp] at hg
                    | bool b => simp [getProp] at hg
                    | num q => simp [getProp] at hg
                    | str t => simp [getProp] at hg
                    | arr xs => simp [getProp] at hg
                · rw [if_neg h4] at heq
                  cases heq
    · cases h

/-- C1 — every record emitted by the payload-extraction pipeline has a
nonempty (trimmed) `product_name` string and at least one of
`price`/`original_price` present as a number; the category-tile candidate
`{title: "Category: Snacks", id: 55}` produces no emitted record. -/
theorem emitted_name_and_price :
    (∀ (payloads : List JSON) (n : JSON), n ∈ extractProductsFromPayloads payloads →
      (∃ s, getProp n "product_name" = some (.str s) ∧ s ≠ "" ∧ jsTrim s = s)
      ∧ ((∃ q, getProp n "price" = some (.num q))
        ∨ (∃ q, getProp n "original_price" = some (.num q))))
    ∧ extractProductsFromPayloads [.arr [snackCandidate]] = [] := by
  constructor
  · intro payloads n hn
    unfold extractProductsFromPayloads at hn
    obtain ⟨r, hr, rfl⟩ := normalizeLoop_mem _ _ _ hn
    have hlik := extract_raw_likely payloads r hr
    constructor
    · obtain ⟨s, hs, hsne, hst⟩ := likely_name r hlik
      refine ⟨s, ?_, hsne, hst⟩
      show getProp (compactObject (.obj (recordEntries (normFields r)))) "product_name" = _
      rw [getRecord_product_name]
      have hpn : (normFields r).productName = some s := hs
      rw [hpn]
      have hkeep : keepVal (optStr (some s)) = true := by
        show decide (jsTrim s ≠ "") = true
        exact decide_eq_true (by rw [hst]; exact hsne)
      rw [if_pos hkeep]
      rfl
    · rcases likely_price r hlik with hp | hp
      · left
        rw [Option.isSome_iff_exists] at hp
        obtain ⟨q, hq⟩ := hp
        refine ⟨q, ?_⟩
        show getProp (compactObject (.obj (recordEntries (normFields r)))) "price" = _
        rw [getRecord_price]
        have hpp : (normFields r).price = some q := hq
        rw [hpp]
        rfl
      · right
        rw [Option.isSome_iff_exists] at hp
        obtain ⟨q, hq⟩ := hp
        refine ⟨q, ?_⟩
        show getProp (compactObject (.obj (recordEntries (normFields r)))) "original_price" = _
        rw [getRecord_original_price]
        have hpp : (normFields r).originalPrice = some q := hq
        rw [hpp]
        rfl
  · rfl

/-- Witness for C1 at a one-candidate payload. -/
theorem emitted_name_and_price_witness :
    (∃ s, getProp (normalizeProduct (.obj [("name", .str "X"), ("price", .num 5)]))
        "product_name" = some (.str s) ∧ s ≠ "" ∧ jsTrim s = s)
    ∧ ((∃ q, getProp (normalizeProduct (.obj [("name", .str "X"), ("price", .num 5)]))
        "price" = some (.num q))
      ∨ (∃ q, getProp (normalizeProduct (.obj [("name", .str "X"), ("price", .num 5)]))
        "original_price" = some (.num q))) := by
  have h := emitted_name_and_price
  exact h.1 [.arr [.obj [("name", .str "X"), ("price", .num 5)]]]
    (normalizeProduct (.obj [("name", .str "X"), ("price", .num 5)]))
    (by rw [show extractProductsFromPayloads [.arr [.obj [("name", .str "X"), ("price", .num 5)]]]
        = [normalizeProduct (.obj [("name", .str "X"), ("price", .num 5)])] from rfl]
        exact List.mem_cons_self _ _)

/-! ## C3: the unlimited-target waterfall does NOT stop early -/

/-- Counterexample to C3: with target 0, the first stage emits one unique
record, yet running the second stage still adds another — the waterfall
does not stop after the first stage that yields a unique record. -/
theorem unlimited_stops_counterexample :
    (pushResults ⟨"milk", "u", "t"⟩ 0 initState
      [.obj [("product_name", .str "A"), ("price", .num 1)]]).2.emitted.length = 1
    ∧ (runBatches ⟨"milk", "u", "t"⟩ 0
      [[.obj [("product_name", .str "A"), ("price", .num 1)]],
       [.obj [("product_name", .str "B"), ("price", .num 2)]]] initState).emitted.length = 2 := by
  constructor
  · with_unfolding_all rfl
  · with_unfolding_all rfl

/-- C3 (amended) — when the target count is 0, `pushResults` never
signals `done` (its result flag is `RESULTS_WANTED > 0 && ...`), so the
waterfall never stops early: every stage runs and each may contribute
further unique records; "unlimited" merges all sources rather than
stopping at the first productive one. -/
theorem unlimited_runs_all_stages :
    (∀ (cfg : RunConfig) (st : RunState) (b : List JSON),
      (pushResults cfg 0 st b).1 = false)
    ∧ (∀ (cfg : RunConfig) (batches : List (List JSON)) (st : RunState),
      runBatches cfg 0 batches st =
        batches.foldl (fun s b => (pushResults cfg 0 s b).2) st) :=
  ⟨fun cfg st b => pushResults_zero_not_done cfg st b,
   fun cfg batches st => runBatches_zero_eq_foldl cfg batches st⟩

/-! ## C4: a finite target caps the run -/

/-- Length bound for a filtered map of a take. -/
theorem filtake_length_le (P : JSON → Bool) (f : JSON → JSON) (n : ℕ) (l : List JSON) :
    (List.filter P (List.map f (List.take n l))).length ≤ n := by
  refine le_trans (List.length_filter_le _ _) ?_
  rw [List.length_map]
  exact List.length_take_le _ _

/-- One `pushResults` step preserves "emitted count equals the running
total and stays within the finite target". -/
theorem pushResults_cap (cfg : RunConfig) (RW : ℚ) (st : RunState) (b : List JSON)
    (hRW : 0 < RW)
    (hJ : st.total = st.emitted.length ∧ (st.total : ℚ) ≤ RW) :
    (pushResults cfg RW st b).2.total = (pushResults cfg RW st b).2.emitted.length
    ∧ ((pushResults cfg RW st b).2.total : ℚ) ≤ RW := by
  unfold pushResults
  cases b with
  | nil => exact hJ
  | cons p rest =>
    dsimp only
    rw [if_pos hRW, if_pos hRW]
    split
    · exact hJ
    · split
      · exact hJ
      · rename_i hrem
        split
        · exact hJ
        · dsimp only
          constructor
          · rw [List.length_append, hJ.1]
          · have hpos : (0 : ℚ) < RW - st.total := not_le.mp hrem
            have hlen := filtake_length_le (fun q => truthyProp q "product_name") (enrich cfg)
              (sliceCount (RW - st.total)) (dedupFold (p :: rest) st.seenKeys).1
            have hslice : ((sliceCount (RW - st.total) : ℕ) : ℚ) ≤ RW - st.total := by
              show ((Int.toNat ⌊RW - (st.total : ℚ)⌋ : ℕ) : ℚ) ≤ RW - st.total
              have h0 : (0 : ℤ) ≤ ⌊RW - (st.total : ℚ)⌋ :=
                Int.floor_nonneg.mpr (le_of_lt hpos)
              have h1 : ((Int.toNat ⌊RW - (st.total : ℚ)⌋ : ℕ) : ℚ)
                  = ((⌊RW - (st.total : ℚ)⌋ : ℤ) : ℚ) := by
                exact_mod_cast congrArg (fun z : ℤ => (z : ℚ)) (Int.toNat_of_nonneg h0)
              rw [h1]
              exact Int.floor_le _
            have hcast := le_trans
              (show (((List.filter (fun q => truthyProp q "product_name")
                (List.map (enrich cfg)
                  (List.take (sliceCount (RW - st.total))
                    (dedupFold (p :: rest) st.seenKeys).1))).length : ℚ)
                ≤ ((sliceCount (RW - st.total) : ℕ) : ℚ)) from by exact_mod_cast hlen)
              hslice
            push_cast
            push_cast at hcast
            linarith [hJ.2]

/-- The whole waterfall preserves the cap. -/
theorem runBatches_cap (cfg : RunConfig) (RW : ℚ) (hRW : 0 < RW) :
    ∀ (batches : List (List JSON)) (st : RunState),
      st.total = st.emitted.length ∧ (st.total : ℚ) ≤ RW →
      (runBatches cfg RW batches st).total = (runBatches cfg RW batches st).emitted.length
      ∧ ((runBatches cfg RW batches st).total : ℚ) ≤ RW := by
  intro batches
  induction batches with
  | nil => intro st hJ; exact hJ
  | cons b bs ih =>
    intro st hJ
    rw [show runBatches cfg RW (b :: bs) st =
      (if (pushResults cfg RW st b).1 then (pushResults cfg RW st b).2
       else runBatches cfg RW bs (pushResults cfg RW st b).2) from rfl]
    split
    · exact pushResults_cap cfg RW st b hRW hJ
    · exact ih _ (pushResults_cap cfg RW st b hRW hJ)

/-- C4 — with a finite target `N > 0` the run never emits more than `N`
records; concretely, `N = 2` against a first stage of five unique valid
candidates emits exactly two records, and the waterfall halts with a state
identical to the one reached without any later stage. -/
theorem finite_target_cap :
    (∀ (cfg : RunConfig) (RW : ℚ) (batches : List (List JSON)), 0 < RW →
      (((runBatches cfg RW batches initState).emitted.length : ℚ) ≤ RW))
    ∧ (runBatches ⟨"milk", "u", "t"⟩ 2
      [[.obj [("product_name", .str "P1"), ("price", .num 1)],
        .obj [("product_name", .str "P2"), ("price", .num 2)],
        .obj [("product_name", .str "P3"), ("price", .num 3)],
        .obj [("product_name", .str "P4"), ("price", .num 4)],
        .obj [("product_name", .str "P5"), ("price", .num 5)]],
       [.obj [("product_name", .str "Q"), ("price", .num 9)]]] initState).emitted.length = 2
    ∧ runBatches ⟨"milk", "u", "t"⟩ 2
      [[.obj [("product_name", .str "P1"), ("price", .num 1)],
        .obj [("product_name", .str "P2"), ("price", .num 2)],
        .obj [("product_name", .str "P3"), ("price", .num 3)],
        .obj [("product_name", .str "P4"), ("price", .num 4)],
        .obj [("product_name", .str "P5"), ("price", .num 5)]],
       [.obj [("product_name", .str "Q"), ("price", .num 9)]]] initState =
      runBatches ⟨"milk", "u", "t"⟩ 2
      [[.obj [("product_name", .str "P1"), ("price", .num 1)],
        .obj [("product_name", .str "P2"), ("price", .num 2)],
        .obj [("product_name", .str "P3"), ("price", .num 3)],
        .obj [("product_name", .str "P4"), ("price", .num 4)],
        .obj [("product_name", .str "P5"), ("price", .num 5)]]] initState := by
  refine ⟨?_, by with_unfolding_all rfl, by with_unfolding_all rfl⟩
  intro cfg RW batches hRW
  have h := runBatches_cap cfg RW hRW batches initState ⟨rfl, by exact_mod_cast le_of_lt hRW⟩
  rw [← h.1]
  exact h.2

/-- Witness for C4's universal cap at a concrete run. -/
theorem finite_target_cap_witness :
    (((runBatches ⟨"milk", "u", "t"⟩ 3
      [[.obj [("product_name", .str "A"), ("price", .num 1)]]] initState).emitted.length : ℚ)
      ≤ 3) := by
  have h := finite_target_cap
  exact h.1 ⟨"milk", "u", "t"⟩ 3 [[.obj [("product_name", .str "A"), ("price", .num 1)]]]
    (by norm_num)

/-! ## C2: dedup-key machinery -/

/-- Lookup in an appended field list when the left part resolves. -/
theorem lookupField_append_some (A B : List (String × JSON)) (k : String) (v : JSON)
    (h : lookupField A k = some v) : lookupField (A ++ B) k = some v := by
  induction A with
  | nil => exact absurd h (by simp [lookupField])
  | cons e rest ih =>
    rw [List.cons_append]
    simp only [lookupField] at h ⊢
    split at h
    · rw [if_pos (by assumption)]; exact h
    · rw [if_neg (by assumption)]; exact ih h

/-- Lookup in an appended field list when the left part misses. -/
theorem lookupField_append_none (A B : List (String × JSON)) (k : String)
    (h : lookupField A k = none) : lookupField (A ++ B) k = lookupField B k := by
  induction A with
  | nil => rfl
  | cons e rest ih =>
    rw [List.cons_append]
    simp only [lookupField] at h ⊢
    split at h
    · exact absurd h (by simp)
    · rw [if_neg (by assumption)]; exact ih h

/-- The spread's override map keeps lookups of keys absent from the extras. -/
theorem lookupField_map_override (extra fs : List (String × JSON)) (k : String)
    (hk : lookupField extra k = none) :
    lookupField (fs.map (fun e =>
      match lookupField extra e.1 with
      | some v => (e.1, v)
      | none => e)) k = lookupField fs k := by
  induction fs with
  | nil => rfl
  | cons e rest ih =>
    obtain ⟨ek, ev⟩ := e
    by_cases hek : ek = k
    · subst hek
      simp only [List.map_cons]
      rw [show (match lookupField extra (ek, ev).1 with
        | some v => ((ek, ev).1, v)
        | none => (ek, ev)) = (ek, ev) from by rw [show (ek, ev).1 = ek from rfl, hk]]
      simp [lookupField]
    · simp only [List.map_cons]
      cases hle : lookupField extra (ek, ev).1 with
      | some w =>
        dsimp only
        simp only [lookupField]
        rw [if_neg hek, if_neg hek]
        exact ih
      | none =>
        dsimp only
        simp only [lookupField]
        rw [if_neg hek, if_neg hek]
        exact ih

/-- Filtering entries away does not change a lookup whose key's entries
all survive the filter. -/
theorem lookupField_filter_all (p : String × JSON → Bool) (L : List (String × JSON)) (k : String)
    (h : ∀ v, (k, v) ∈ L → p (k, v) = true) :
    lookupField (L.filter p) k = lookupField L k := by
  induction L with
  | nil => rfl
  | cons e rest ih =>
    obtain ⟨ek, ev⟩ := e
    by_cases hek : ek = k
    · subst hek
      rw [List.filter_cons, if_pos (h ev (List.mem_cons_self _ _))]
      simp [lookupField]
    · rw [List.filter_cons]
      have ih' := ih (fun v hv => h v (List.mem_cons_of_mem _ hv))
      split
      · simp only [lookupField]
        rw [if_neg hek, if_neg hek]
        exact ih'
      · rw [ih']
        simp only [lookupField]
        rw [if_neg hek]

/-- No entry of `L` has key `k` implies the lookup misses. -/
theorem lookupField_none_of_sub (L : List (String × JSON)) (k : String)
    (h : ∀ v, (k, v) ∉ L) : lookupField L k = none := by
  induction L with
  | nil => rfl
  | cons e rest ih =>
    obtain ⟨ek, ev⟩ := e
    simp only [lookupField]
    by_cases hek : ek = k
    · subst hek
      exact absurd (List.mem_cons_self _ _) (h ev)
    · rw [if_neg hek]
      exact ih (fun v hv => h v (List.mem_cons_of_mem _ hv))

/-- A key distinct from the three run-constant keys misses the extras. -/
theorem lookupField_extra_none (cfg : RunConfig) (k : String)
    (h1 : k ≠ "search_query") (h2 : k ≠ "url") (h3 : k ≠ "scrapedAt") :
    lookupField (runExtras cfg) k = none := by
  unfold runExtras
  simp only [lookupField]
  rw [if_neg (fun h => h1 h.symm), if_neg (fun h => h2 h.symm), if_neg (fun h => h3 h.symm)]

/-- A key distinct from the three run-constant keys misses any filtered
slice of the extras. -/
theorem lookupField_extra_filter_none (cfg : RunConfig) (p : String × JSON → Bool) (k : String)
    (h1 : k ≠ "search_query") (h2 : k ≠ "url") (h3 : k ≠ "scrapedAt") :
    lookupField ((runExtras cfg).filter p) k = none := by
  apply lookupField_none_of_sub
  intro v hv
  have hm := List.mem_of_mem_filter hv
  simp only [runExtras, List.mem_cons, List.not_mem_nil, or_false, Prod.mk.injEq] at hm
  rcases hm with ⟨hk, _⟩ | ⟨hk, _⟩ | ⟨hk, _⟩
  · exact h1 hk
  · exact h2 hk
  · exact h3 hk

/-- Enrichment (`{...p, search_query, url, scrapedAt}` then compaction)
leaves every other property of a compact object unchanged. -/
theorem enrich_getProp (cfg : RunConfig) (p : JSON) (k : String)
    (hp : isCompactObj p = true)
    (h1 : k ≠ "search_query") (h2 : k ≠ "url") (h3 : k ≠ "scrapedAt") :
    getProp (enrich cfg p) k = getProp p k := by
  cases p with
  | obj fs =>
    have hred : enrich cfg (JSON.obj fs) = JSON.obj (((fs.map (fun e : String × JSON =>
        match lookupField (runExtras cfg) e.1 with
        | some v => (e.1, v)
        | none => e))
      ++ (runExtras cfg).filter (fun e : String × JSON => (lookupField fs e.1).isNone)).filter
        (fun e : String × JSON => keepVal e.2)) := rfl
    rw [hred]
    simp only [getProp]
    have hall : ∀ v, (k, v) ∈ (fs.map (fun e : String × JSON =>
        match lookupField (runExtras cfg) e.1 with
        | some v => (e.1, v)
        | none => e))
        ++ (runExtras cfg).filter (fun e : String × JSON => (lookupField fs e.1).isNone) →
        keepVal (k, v).2 = true := by
      intro v hv
      rcases List.mem_append.mp hv with hm | hm
      · obtain ⟨e, he, heq⟩ := List.mem_map.mp hm
        have hkey : e.1 = k := by
          cases hle : lookupField (runExtras cfg) e.1 <;>
            rw [hle] at heq <;>
            exact congrArg Prod.fst heq
        rw [hkey, lookupField_extra_none cfg k h1 h2 h3] at heq
        have hval : e.2 = v := congrArg Prod.snd heq
        have := (List.all_eq_true.mp (by exact hp)) e he
        rw [← hval]
        exact this
      · have hm' := List.mem_of_mem_filter hm
        simp only [runExtras, List.mem_cons, List.not_mem_nil, or_false, Prod.mk.injEq] at hm'
        rcases hm' with ⟨hk, _⟩ | ⟨hk, _⟩ | ⟨hk, _⟩
        · exact absurd hk h1
        · exact absurd hk h2
        · exact absurd hk h3
    rw [lookupField_filter_all _ _ _ hall]
    have hm := lookupField_map_override (runExtras cfg) fs k
      (lookupField_extra_none cfg k h1 h2 h3)
    cases hfs : lookupField fs k with
    | some v =>
      exact lookupField_append_some _ _ _ _ (hm.trans hfs)
    | none =>
      rw [lookupField_append_none _ _ _ (hm.trans hfs)]
      exact lookupField_extra_filter_none cfg _ k h1 h2 h3
  | null => exact absurd hp (by simp [isCompactObj])
  | bool b => exact absurd hp (by simp [isCompactObj])
  | num q => exact absurd hp (by simp [isCompactObj])
  | str s => exact absurd hp (by simp [isCompactObj])
  | arr xs => exact absurd hp (by simp [isCompactObj])

/-- Enrichment preserves the DedupKey data of a compact object. -/
theorem dedupTuple_enrich (cfg : RunConfig) (p : JSON) (hp : isCompactObj p = true) :
    dedupTuple (enrich cfg p) = dedupTuple p := by
  unfold dedupTuple
  rw [enrich_getProp cfg p "product_name" hp (by decide) (by decide) (by decide),
      enrich_getProp cfg p "price" hp (by decide) (by decide) (by decide),
      enrich_getProp cfg p "original_price" hp (by decide) (by decide) (by decide),
      enrich_getProp cfg p "product_image" hp (by decide) (by decide) (by decide),
      enrich_getProp cfg p "product_url" hp (by decide) (by decide) (by decide)]

/-- Enrichment of a compact object is truthy (it is an object). -/
theorem jsTruthy_enrich (cfg : RunConfig) (p : JSON) :
    jsTruthy (enrich cfg p) = true := by
  cases p <;> rfl

/-- Enrichment preserves the dedup key of a compact object. -/
theorem makeProductKey_enrich (cfg : RunConfig) (p : JSON) (hp : isCompactObj p = true) :
    makeProductKey (enrich cfg p) = makeProductKey p := by
  have ht2 : jsTruthy p = true := by
    cases p with
    | obj fs => rfl
    | null => exact absurd hp (by simp [isCompactObj])
    | bool b => exact absurd hp (by simp [isCompactObj])
    | num q => exact absurd hp (by simp [isCompactObj])
    | str s => exact absurd hp (by simp [isCompactObj])
    | arr xs => exact absurd hp (by simp [isCompactObj])
  have e1 := enrich_getProp cfg p "product_name" hp (by decide) (by decide) (by decide)
  have e2 := enrich_getProp cfg p "name" hp (by decide) (by decide) (by decide)
  have e3 := enrich_getProp cfg p "price" hp (by decide) (by decide) (by decide)
  have e4 := enrich_getProp cfg p "original_price" hp (by decide) (by decide) (by decide)
  have e5 := enrich_getProp cfg p "product_image" hp (by decide) (by decide) (by decide)
  have e6 := enrich_getProp cfg p "product_url" hp (by decide) (by decide) (by decide)
  unfold makeProductKey
  rw [if_neg (not_not_intro (jsTruthy_enrich cfg p)), if_neg (not_not_intro ht2)]
  simp only [getPropD]
  rw [e1, e2, e3, e4, e5, e6]

/-- A value with a truthy own property is an object, hence truthy. -/
theorem jsTruthy_of_truthyProp (e : JSON) (k : String) (h : truthyProp e k = true) :
    jsTruthy e = true := by
  cases e with
  | obj fs => rfl
  | null => exact absurd h (by simp [truthyProp, getPropD, getProp, jsTruthy])
  | bool b => exact absurd h (by simp [truthyProp, getPropD, getProp, jsTruthy])
  | num q => exact absurd h (by simp [truthyProp, getPropD, getProp, jsTruthy])
  | str s => exact absurd h (by simp [truthyProp, getPropD, getProp, jsTruthy])
  | arr xs => exact absurd h (by simp [truthyProp, getPropD, getProp, jsTruthy])

/-- For records with a truthy `product_name`, the dedup key is a function
of the DedupKey data. -/
theorem key_determined (a b : JSON)
    (ha : truthyProp a "product_name" = true) (hb : truthyProp b "product_name" = true)
    (ht : dedupTuple a = dedupTuple b) : makeProductKey a = makeProductKey b := by
  have h5 : getProp a "product_name" = getProp b "product_name"
      ∧ getProp a "price" = getProp b "price"
      ∧ getProp a "original_price" = getProp b "original_price"
      ∧ getProp a "product_image" = getProp b "product_image"
      ∧ getProp a "product_url" = getProp b "product_url" := by
    simpa [dedupTuple, Prod.ext_iff] using ht
  obtain ⟨hpn, hpr, hop, him, hur⟩ := h5
  have ha' : jsTruthy (getPropD a "product_name") = true := ha
  have hb' : jsTruthy (getPropD b "product_name") = true := hb
  unfold makeProductKey
  rw [if_neg (not_not_intro (jsTruthy_of_truthyProp a _ ha)),
      if_neg (not_not_intro (jsTruthy_of_truthyProp b _ hb))]
  rw [show jsOr (getPropD a "product_name") (jsOr (getPropD a "name") (.str ""))
      = getPropD a "product_name" from if_pos ha',
    show jsOr (getPropD b "product_name") (jsOr (getPropD b "name") (.str ""))
      = getPropD b "product_name" from if_pos hb']
  simp only [getPropD]
  rw [hpn, hpr, hop, him, hur]

/-- The dedup filter: the seen set only grows; survivors come from the
input; every survivor's key is fresh w.r.t. the incoming seen set and
recorded in the outgoing one; survivors have pairwise-distinct keys. -/
theorem dedupFold_spec : ∀ (ps : List JSON) (seen : List String),
    (∀ k ∈ seen, k ∈ (dedupFold ps seen).2)
    ∧ (∀ p ∈ (dedupFold ps seen).1, p ∈ ps)
    ∧ (∀ p ∈ (dedupFold ps seen).1,
        ∃ k, makeProductKey p = some k ∧ k ∉ seen ∧ k ∈ (dedupFold ps seen).2)
    ∧ (dedupFold ps seen).1.Pairwise (fun p q => makeProductKey p ≠ makeProductKey q) := by
  intro ps
  induction ps with
  | nil =>
    intro seen
    exact ⟨fun k hk => hk, fun p hp => absurd hp (List.not_mem_nil p),
      fun p hp => absurd hp (List.not_mem_nil p), List.Pairwise.nil⟩
  | cons p rest ih =>
    intro seen
    cases hk : makeProductKey p with
    | none =>
      have hred : dedupFold (p :: rest) seen = dedupFold rest seen := by
        simp only [dedupFold, hk]
      rw [hred]
      obtain ⟨i1, i2, i3, i4⟩ := ih seen
      exact ⟨i1, fun q hq => List.mem_cons_of_mem p (i2 q hq), i3, i4⟩
    | some k =>
      by_cases hmem : k ∈ seen
      · have hred : dedupFold (p :: rest) seen = dedupFold rest seen := by
          simp only [dedupFold, hk]
          rw [if_pos hmem]
        rw [hred]
        obtain ⟨i1, i2, i3, i4⟩ := ih seen
        exact ⟨i1, fun q hq => List.mem_cons_of_mem p (i2 q hq), i3, i4⟩
      · have hred : dedupFold (p :: rest) seen =
            (p :: (dedupFold rest (k :: seen)).1, (dedupFold rest (k :: seen)).2) := by
          simp only [dedupFold, hk]
          rw [if_neg hmem]
        rw [hred]
        obtain ⟨i1, i2, i3, i4⟩ := ih (k :: seen)
        refine ⟨?_, ?_, ?_, ?_⟩
        · intro k' hk'
          exact i1 k' (List.mem_cons_of_mem k hk')
        · intro q hq
          rcases List.mem_cons.mp hq with h | h
          · exact h ▸ List.mem_cons_self p rest
          · exact List.mem_cons_of_mem p (i2 q h)
        · intro q hq
          rcases List.mem_cons.mp hq with h | h
          · subst h
            exact ⟨k, hk, hmem, i1 k (List.mem_cons_self k seen)⟩
          · obtain ⟨kq, hkq, hni, hin⟩ := i3 q h
            exact ⟨kq, hkq, fun hc => hni (List.mem_cons_of_mem k hc), hin⟩
        · refine List.Pairwise.cons ?_ i4
          intro q hq hkeq
          obtain ⟨kq, hkq, hni, _⟩ := i3 q hq
          have hkk : k = kq := by
            rw [hk, hkq] at hkeq
            exact Option.some.inj hkeq
          exact hni (hkk ▸ List.mem_cons_self k seen)

/-- The enriched slice of a compact, key-pairwise-distinct candidate list
has pairwise-distinct DedupKey data, and every element is the enrichment
of some candidate with a truthy name. -/
theorem enriched_spec (cfg : RunConfig) (lim : List JSON)
    (hc : ∀ q ∈ lim, isCompactObj q = true)
    (hpw : lim.Pairwise (fun p q => makeProductKey p ≠ makeProductKey q)) :
    ((lim.map (enrich cfg)).filter (fun q => truthyProp q "product_name")).Pairwise
        (fun a b => dedupTuple a ≠ dedupTuple b)
    ∧ ∀ e ∈ (lim.map (enrich cfg)).filter (fun q => truthyProp q "product_name"),
        truthyProp e "product_name" = true ∧ ∃ q ∈ lim, e = enrich cfg q := by
  constructor
  · have h0 : lim.Pairwise (fun p q =>
        truthyProp (enrich cfg p) "product_name" = true →
        truthyProp (enrich cfg q) "product_name" = true →
        dedupTuple (enrich cfg p) ≠ dedupTuple (enrich cfg q)) := by
      refine List.Pairwise.imp_of_mem ?_ hpw
      intro a b ha hb hne hta htb htup
      have hkey := key_determined (enrich cfg a) (enrich cfg b) hta htb htup
      rw [makeProductKey_enrich cfg a (hc a ha), makeProductKey_enrich cfg b (hc b hb)] at hkey
      exact hne hkey
    have h1 : ((lim.map (enrich cfg)).Pairwise (fun a b =>
        truthyProp a "product_name" = true → truthyProp b "product_name" = true →
        dedupTuple a ≠ dedupTuple b)) := h0.map (enrich cfg) (fun a b h => h)
    have h2 := h1.filter (fun q => truthyProp q "product_name")
    refine List.Pairwise.imp_of_mem ?_ h2
    intro a b ha hb h
    exact h (List.mem_filter.mp ha).2 (List.mem_filter.mp hb).2
  · intro e he
    refine ⟨(List.mem_filter.mp he).2, ?_⟩
    obtain ⟨q, hq, hqe⟩ := List.mem_map.mp (List.mem_of_mem_filter he)
    exact ⟨q, hq, hqe.symm⟩

/-- One `pushResults` step preserves "emitted records have pairwise
distinct DedupKey data, truthy names, and keys recorded in the seen set",
provided every incoming candidate is compact. -/
theorem pushResults_dedup (cfg : RunConfig) (RW : ℚ) (st : RunState) (b : List JSON)
    (hb : ∀ p ∈ b, isCompactObj p = true)
    (hInv : st.emitted.Pairwise (fun x y => dedupTuple x ≠ dedupTuple y)
      ∧ ∀ e ∈ st.emitted, truthyProp e "product_name" = true
        ∧ ∃ k, makeProductKey e = some k ∧ k ∈ st.seenKeys) :
    (pushResults cfg RW st b).2.emitted.Pairwise (fun x y => dedupTuple x ≠ dedupTuple y)
    ∧ ∀ e ∈ (pushResults cfg RW st b).2.emitted, truthyProp e "product_name" = true
      ∧ ∃ k, makeProductKey e = some k ∧ k ∈ (pushResults cfg RW st b).2.seenKeys := by
  obtain ⟨hPW, hE⟩ := hInv
  unfold pushResults
  cases b with
  | nil => exact ⟨hPW, hE⟩
  | cons p rest =>
    dsimp only
    obtain ⟨hseen, hsub, hfresh, hpw⟩ := dedupFold_spec (p :: rest) st.seenKeys
    have hTriv : ∀ e ∈ st.emitted, truthyProp e "product_name" = true
        ∧ ∃ k, makeProductKey e = some k ∧ k ∈ (dedupFold (p :: rest) st.seenKeys).2 := by
      intro e he
      obtain ⟨htr, k, hk, hkm⟩ := hE e he
      exact ⟨htr, k, hk, hseen k hkm⟩
    have hMain : ∀ lim : List JSON,
        (∀ q ∈ lim, q ∈ (dedupFold (p :: rest) st.seenKeys).1) →
        lim.Pairwise (fun x y => makeProductKey x ≠ makeProductKey y) →
        ((st.emitted ++ (lim.map (enrich cfg)).filter
            (fun q => truthyProp q "product_name")).Pairwise
          (fun x y => dedupTuple x ≠ dedupTuple y))
        ∧ ∀ e ∈ st.emitted ++ (lim.map (enrich cfg)).filter
            (fun q => truthyProp q "product_name"),
          truthyProp e "product_name" = true
          ∧ ∃ k, makeProductKey e = some k
              ∧ k ∈ (dedupFold (p :: rest) st.seenKeys).2 := by
      intro lim hlimsub hlimpw
      have hlimc : ∀ q ∈ lim, isCompactObj q = true :=
        fun q hq => hb q (hsub q (hlimsub q hq))
      obtain ⟨hepw, hemem⟩ := enriched_spec cfg lim hlimc hlimpw
      have hnewdata : ∀ e ∈ (lim.map (enrich cfg)).filter
          (fun q => truthyProp q "product_name"),
          truthyProp e "product_name" = true
          ∧ ∃ k, makeProductKey e = some k ∧ k ∉ st.seenKeys
              ∧ k ∈ (dedupFold (p :: rest) st.seenKeys).2 := by
        intro e he
        obtain ⟨htr, q, hq, hqe⟩ := hemem e he
        obtain ⟨kq, hkq, hni, hin⟩ := hfresh q (hlimsub q hq)
        refine ⟨htr, kq, ?_, hni, hin⟩
        rw [hqe, makeProductKey_enrich cfg q (hlimc q hq)]
        exact hkq
      constructor
      · rw [List.pairwise_append]
        refine ⟨hPW, hepw, ?_⟩
        intro x hx y hy htup
        obtain ⟨htrx, kx, hkx, hkxmem⟩ := hE x hx
        obtain ⟨htry, ky, hky, hkyni, _⟩ := hnewdata y hy
        have hkey := key_determined x y htrx htry htup
        rw [hkx, hky] at hkey
        exact hkyni (Option.some.inj hkey ▸ hkxmem)
      · intro e he
        rcases List.mem_append.mp he with h | h
        · obtain ⟨htr, ke, hke, hkemem⟩ := hE e h
          exact ⟨htr, ke, hke, hseen ke hkemem⟩
        · obtain ⟨htr, ke, hke, _, hkein⟩ := hnewdata e h
          exact ⟨htr, ke, hke, hkein⟩
    split
    · exact ⟨hPW, hTriv⟩
    · by_cases hRW : 0 < RW
      · rw [if_pos hRW, if_pos hRW]
        split
        · exact ⟨hPW, hTriv⟩
        · split
          · exact ⟨hPW, hTriv⟩
          · exact hMain _ (fun q hq => List.take_subset _ _ hq)
              (List.Pairwise.sublist (List.take_sublist _ _) hpw)
      · rw [if_neg hRW, if_neg hRW]
        split
        · exact ⟨hPW, hTriv⟩
        · split
          · exact ⟨hPW, hTriv⟩
          · exact hMain _ (fun q hq => hq) hpw

/-- The whole waterfall preserves the dedup invariant. -/
theorem runBatches_dedup (cfg : RunConfig) (RW : ℚ) :
    ∀ (batches : List (List JSON)) (st : RunState),
      (∀ b ∈ batches, ∀ p ∈ b, isCompactObj p = true) →
      (st.emitted.Pairwise (fun x y => dedupTuple x ≠ dedupTuple y)
        ∧ ∀ e ∈ st.emitted, truthyProp e "product_name" = true
          ∧ ∃ k, makeProductKey e = some k ∧ k ∈ st.seenKeys) →
      (runBatches cfg RW batches st).emitted.Pairwise
        (fun x y => dedupTuple x ≠ dedupTuple y)
      ∧ ∀ e ∈ (runBatches cfg RW batches st).emitted,
          truthyProp e "product_name" = true
          ∧ ∃ k, makeProductKey e = some k
              ∧ k ∈ (runBatches cfg RW batches st).seenKeys := by
  intro batches
  induction batches with
  | nil => intro st _ hInv; exact hInv
  | cons b bs ih =>
    intro st hc hInv
    rw [show runBatches cfg RW (b :: bs) st =
      (if (pushResults cfg RW st b).1 then (pushResults cfg RW st b).2
       else runBatches cfg RW bs (pushResults cfg RW st b).2) from rfl]
    have hstep := pushResults_dedup cfg RW st b
      (hc b (List.mem_cons_self b bs)) hInv
    split
    · exact hstep
    · exact ih _ (fun b' hb' => hc b' (List.mem_cons_of_mem b hb')) hstep

/-- C2 — over any run whose source batches consist of compact candidate
records (as all normalized products are), the emitted records have
pairwise-distinct DedupKey data `(product_name, price, original_price,
product_image, product_url)`; and when two batches yield the identical
record, only the first occurrence is emitted — the second is dropped by
the global dedup check. -/
theorem dedup_key_uniqueness :
    (∀ (cfg : RunConfig) (RW : ℚ) (batches : List (List JSON)),
      (∀ b ∈ batches, ∀ p ∈ b, isCompactObj p = true) →
      (runBatches cfg RW batches initState).emitted.Pairwise
        (fun x y => dedupTuple x ≠ dedupTuple y))
    ∧ (runBatches ⟨"milk", "u", "t"⟩ 0
        [[.obj [("product_name", .str "A"), ("price", .num 1)]],
         [.obj [("product_name", .str "A"), ("price", .num 1)]]] initState).emitted
      = [enrich ⟨"milk", "u", "t"⟩ (.obj [("product_name", .str "A"), ("price", .num 1)])] := by
  constructor
  · intro cfg RW batches hc
    exact (runBatches_dedup cfg RW batches initState hc
      ⟨List.Pairwise.nil, fun e he => absurd he (List.not_mem_nil e)⟩).1
  · with_unfolding_all rfl

/-- Witness for C2 at a concrete compact batch list. -/
theorem dedup_key_uniqueness_witness :
    (runBatches ⟨"milk", "u", "t"⟩ 0
      [[.obj [("product_name", .str "A"), ("price", .num 1)],
        .obj [("product_name", .str "B"), ("price", .num 2)]]] initState).emitted.Pairwise
      (fun x y => dedupTuple x ≠ dedupTuple y) :=
  dedup_key_uniqueness.1 ⟨"milk", "u", "t"⟩ 0
    [[.obj [("product_name", .str "A"), ("price", .num 1)],
      .obj [("product_name", .str "B"), ("price", .num 2)]]] (by decide)

/-- Compaction always yields a compact object. -/
theorem compactObject_compact (L : List (String × JSON)) :
    isCompactObj (compactObject (.obj L)) = true := by
  simp only [compactObject, isCompactObj]
  rw [List.all_eq_true]
  intro e he
  exact (List.mem_filter.mp he).2

/-- Every normalized record is compact, so C2's batch hypothesis holds
for the batches the scraper actually builds. -/
theorem normalizeProduct_compact (raw : JSON) :
    isCompactObj (normalizeProduct raw) = true := by
  unfold normalizeProduct
  exact compactObject_compact _

/-! ## C5: normalization idempotence machinery -/

/-- A trimmed list keeps a whitespace-free head. -/
theorem trimList_head_not_ws (l : List Char) :
    ∀ c, (trimList l).head? = some c → isWS c = false := by
  intro c hc
  unfold trimList at hc
  rw [List.head?_reverse] at hc
  rcases getLast?_dropWhile isWS (l.dropWhile isWS).reverse with h | h
  · rw [h] at hc
    simp at hc
  · rw [h, List.getLast?_reverse] at hc
    exact head?_dropWhile_false isWS _ c hc

/-- A trimmed list keeps a whitespace-free last element. -/
theorem trimList_getLast_not_ws (l : List Char) :
    ∀ c, (trimList l).getLast? = some c → isWS c = false := by
  intro c hc
  unfold trimList at hc
  rw [List.getLast?_reverse] at hc
  exact head?_dropWhile_false isWS _ c hc

/-- A list whose two ends are whitespace-free is already trimmed. -/
theorem trimList_of_ends (l : List Char)
    (h1 : ∀ c, l.head? = some c → isWS c = false)
    (h2 : ∀ c, l.getLast? = some c → isWS c = false) : trimList l = l := by
  unfold trimList
  rw [dropWhile_eq_self_of_head isWS l h1]
  rw [dropWhile_eq_self_of_head isWS l.reverse
    (fun c hc => h2 c (by rw [← List.head?_reverse]; exact hc))]
  exact List.reverse_reverse l

/-- A string whose two ends are whitespace-free is already trimmed. -/
theorem jsTrim_of_ends (s : String)
    (h1 : ∀ c, s.toList.head? = some c → isWS c = false)
    (h2 : ∀ c, s.toList.getLast? = some c → isWS c = false) : jsTrim s = s := by
  show String.mk (trimList s.toList) = s
  rw [trimList_of_ends s.toList h1 h2]
  rfl

/-- The head of a trimmed string is not whitespace. -/
theorem jsTrim_head_not_ws (s : String) :
    ∀ c, (jsTrim s).toList.head? = some c → isWS c = false :=
  fun c hc => trimList_head_not_ws s.toList c hc

/-- The last character of a trimmed string is not whitespace. -/
theorem jsTrim_getLast_not_ws (s : String) :
    ∀ c, (jsTrim s).toList.getLast? = some c → isWS c = false :=
  fun c hc => trimList_getLast_not_ws s.toList c hc

/-- A fixed point of `jsTrim` has a whitespace-free head. -/
theorem trimmed_head_not_ws (s : String) (h : jsTrim s = s) :
    ∀ c, s.toList.head? = some c → isWS c = false :=
  fun c hc => jsTrim_head_not_ws s c (by rw [h]; exact hc)

/-- A fixed point of `jsTrim` has a whitespace-free last character. -/
theorem trimmed_getLast_not_ws (s : String) (h : jsTrim s = s) :
    ∀ c, s.toList.getLast? = some c → isWS c = false :=
  fun c hc => jsTrim_getLast_not_ws s c (by rw [h]; exact hc)

/-- `head?` of an append with a non-empty left part. -/
theorem head?_append_left (l l' : List Char) (h : l ≠ []) :
    (l ++ l').head? = l.head? := by
  cases l with
  | nil => exact absurd rfl h
  | cons c cs => rfl

/-- `getLast?` of an append with a non-empty right part. -/
theorem getLast?_append_right (l l' : List Char) (h : l' ≠ []) :
    (l ++ l').getLast? = l'.getLast? := by
  rw [List.getLast?_append]
  cases hl : l'.getLast? with
  | some a => rfl
  | none => exact absurd (List.getLast?_eq_none_iff.mp hl) h

/-- The element `getLast?` returns is in the list. -/
theorem mem_of_getLast?_eq (l : List Char) (a : Char) (h : l.getLast? = some a) :
    a ∈ l := by
  induction l with
  | nil => simp at h
  | cons c cs ih =>
    rw [List.getLast?_cons] at h
    cases hcs : cs.getLast? with
    | some b =>
      rw [hcs] at h
      simp only [Option.or_some, Option.some.injEq] at h
      subst h
      exact List.mem_cons_of_mem c (ih hcs)
    | none =>
      rw [hcs] at h
      simp at h
      subst h
      exact List.mem_cons_self c cs

/-- A prefix of `x` is a prefix of `x ++ y`. -/
theorem startsWithList_append (p : List Char) :
    ∀ (x y : List Char), startsWithList p x = true → startsWithList p (x ++ y) = true := by
  induction p with
  | nil => intro x y _; rfl
  | cons a ps ih =>
    intro x y h
    cases x with
    | nil => exact absurd h (by simp [startsWithList])
    | cons c cs =>
      simp only [startsWithList, List.cons_append, Bool.and_eq_true] at h ⊢
      exact ⟨h.1, ih cs y h.2⟩

/-- String-level prefix extension over append. -/
theorem jsStartsWith_append (a b p : String) (h : jsStartsWith a p = true) :
    jsStartsWith (a ++ b) p = true := by
  unfold jsStartsWith at h ⊢
  rw [show (a ++ b).toList = a.toList ++ b.toList from String.data_append a b]
  exact startsWithList_append _ _ _ h

/-- A string with a non-empty prefix is non-empty. -/
theorem ne_empty_of_startsWith (s p : String) (hp : p ≠ "")
    (h : jsStartsWith s p = true) : s ≠ "" := by
  intro hs
  subst hs
  unfold jsStartsWith at h
  cases hpl : p.toList with
  | nil => exact hp (by cases p; simp at hpl; simp [hpl])
  | cons c cs =>
    rw [hpl] at h
    exact absurd h (by simp [startsWithList])

/-- `pickFirstAux` skips a key absent from the field list. -/
theorem pickFirstAux_skip (L : List (String × JSON)) (k : String) (ks : List String)
    (h : lookupField L k = none) : pickFirstAux L (k :: ks) = pickFirstAux L ks := by
  show (match lookupField L k with
    | some v => if isNullJ v then pickFirstAux L ks else some v
    | none => pickFirstAux L ks) = pickFirstAux L ks
  rw [h]

/-- `pickFirstAux` returns the first present non-null value. -/
theorem pickFirstAux_hit (L : List (String × JSON)) (k : String) (ks : List String) (v : JSON)
    (h : lookupField L k = some v) (hnn : isNullJ v = false) :
    pickFirstAux L (k :: ks) = some v := by
  unfold pickFirstAux
  rw [h]
  dsimp only
  rw [if_neg (by simp [hnn])]

/-- Lookup in the compacted record for a key outside the sixteen. -/
theorem lookupFR_absent (f : NormFields) (k : String)
    (h : lookupField (recordEntries f) k = none) :
    lookupField ((recordEntries f).filter (fun e => keepVal e.2)) k = none := by
  rw [lookupRecord, h]

/-- Lookup in the compacted record for a kept field. -/
theorem lookupFR_present (f : NormFields) (k : String) (v : JSON)
    (h : lookupField (recordEntries f) k = some v) (hkeep : keepVal v = true) :
    lookupField ((recordEntries f).filter (fun e => keepVal e.2)) k = some v := by
  rw [lookupRecord, h]
  dsimp only
  rw [if_pos hkeep]

/-- Lookup in the compacted record for a dropped field. -/
theorem lookupFR_dropped (f : NormFields) (k : String) (v : JSON)
    (h : lookupField (recordEntries f) k = some v) (hkeep : keepVal v = false) :
    lookupField ((recordEntries f).filter (fun e => keepVal e.2)) k = none := by
  rw [lookupRecord, h]
  dsimp only
  rw [if_neg (by simp [hkeep])]

/-- An `orElse` resolving to a value got it from one side. -/
theorem orElse_eq_some_cases {α : Type} (a b : Option α) (x : α)
    (h : (a <|> b) = some x) : a = some x ∨ b = some x := by
  cases a with
  | some y => left; exact h
  | none => right; exact h

/-- `a <|> a = a` for options. -/
theorem orElse_self {α : Type} (a : Option α) : (a <|> a) = a := by
  cases a <;> rfl

/-- A `||`-choice resolving to a string got it from one side. -/
theorem jsOrStr_eq_some_cases (a b : Option String) (x : String)
    (h : jsOrStr a b = some x) : a = some x ∨ b = some x := by
  cases a with
  | none => right; exact h
  | some s =>
    simp only [jsOrStr] at h
    split at h
    · right; exact h
    · left; exact h

/-- `jsOrStr a a = a`. -/
theorem jsOrStr_self (a : Option String) : jsOrStr a a = a := by
  cases a with
  | none => rfl
  | some s =>
    simp only [jsOrStr]
    split <;> rfl

/-- `extractDiscount` yields trimmed strings. -/
theorem extractDiscount_trimmed (o : JSON) (s : String)
    (h : extractDiscount o = some s) : jsTrim s = s := by
  unfold extractDiscount at h
  split at h
  · exact absurd h (by simp)
  · cases h
    exact jsTrim_idem _
  · cases h
    exact jsTrim_numToString_percent _
  · exact absurd h (by simp)

/-- `extractDelivery` yields trimmed strings. -/
theorem extractDelivery_trimmed (o : JSON) (s : String)
    (h : extractDelivery o = some s) : jsTrim s = s := by
  unfold extractDelivery at h
  split at h
  · exact absurd h (by simp)
  · cases h
    exact jsTrim_idem _
  · cases h
    exact jsTrim_idem _

/-- `extractAvailability` yields one of the two stock constants. -/
theorem extractAvailability_cases (o : JSON) (s : String)
    (h : extractAvailability o = some s) :
    s = "In Stock" ∨ s = "Out of Stock" := by
  unfold extractAvailability at h
  split at h
  · cases h; left; rfl
  · cases h; right; rfl
  · dsimp only at h
    split at h
    · cases h; right; rfl
    · split at h
      · cases h; left; rfl
      · exact absurd h (by simp)
  · exact absurd h (by simp)

/-- `extractBrand` yields trimmed non-empty strings. -/
theorem extractBrand_shape (o : JSON) (s : String)
    (h : extractBrand o = some s) : jsTrim s = s ∧ s ≠ "" := by
  unfold extractBrand at h
  split at h
  · exact absurd h (by simp)
  · split at h
    · exact absurd h (by simp)
    · cases h
      refine ⟨jsTrim_idem _, ?_⟩
      assumption
  · split at h
    · dsimp only at h
      split at h
      · split at h
        · exact absurd h (by simp)
        · cases h
          refine ⟨jsTrim_idem _, ?_⟩
          assumption
      · split at h
        · exact absurd h (by simp)
        · cases h
          refine ⟨jsTrim_idem _, ?_⟩
          assumption
    · dsimp only at h
      split at h
      · exact absurd h (by simp)
      · cases h
        refine ⟨jsTrim_idem _, ?_⟩
        assumption

/-- `extractUnit` yields trimmed non-empty strings. -/
theorem extractUnit_shape (o : JSON) (s : String)
    (h : extractUnit o = some s) : jsTrim s = s ∧ s ≠ "" := by
  unfold extractUnit at h
  split at h
  · exact absurd h (by simp)
  · split at h
    · exact absurd h (by simp)
    · cases h
      refine ⟨jsTrim_idem _, ?_⟩
      assumption
  · split at h
    · dsimp only at h
      split at h
      · split at h
        · exact absurd h (by simp)
        · cases h
          refine ⟨jsTrim_idem _, ?_⟩
          assumption
      · split at h
        · exact absurd h (by simp)
        · cases h
          refine ⟨jsTrim_idem _, ?_⟩
          assumption
    · dsimp only at h
      split at h
      · exact absurd h (by simp)
      · cases h
        refine ⟨jsTrim_idem _, ?_⟩
        assumption

/-- `extractProductId` yields a number or a trimmed non-empty string. -/
theorem extractProductId_shape (o : JSON) (v : JSON)
    (h : extractProductId o = some v) :
    (∃ q, v = .num q) ∨ (∃ s, v = .str s ∧ jsTrim s = s ∧ s ≠ "") := by
  unfold extractProductId at h
  split at h
  · exact absurd h (by simp)
  · cases h
    exact Or.inl ⟨_, rfl⟩
  · dsimp only at h
    split at h
    · exact absurd h (by simp)
    · cases h
      exact Or.inr ⟨_, rfl, jsTrim_idem _, by assumption⟩

/-- `extractSkuId` yields a number or a trimmed non-empty string. -/
theorem extractSkuId_shape (o : JSON) (v : JSON)
    (h : extractSkuId o = some v) :
    (∃ q, v = .num q) ∨ (∃ s, v = .str s ∧ jsTrim s = s ∧ s ≠ "") := by
  unfold extractSkuId at h
  split at h
  · exact absurd h (by simp)
  · cases h
    exact Or.inl ⟨_, rfl⟩
  · dsimp only at h
    split at h
    · exact absurd h (by simp)
    · cases h
      exact Or.inr ⟨_, rfl, jsTrim_idem _, by assumption⟩

/-- A successful field lookup returns a structurally smaller value. -/
theorem lookupField_sizeOf (l : List (String × JSON)) (k : String) (v : JSON)
    (h : lookupField l k = some v) : sizeOf v < sizeOf l := by
  induction l with
  | nil => simp [lookupField] at h
  | cons e rest ih =>
    obtain ⟨ek, ev⟩ := e
    by_cases hk : ek = k
    · simp [lookupField, hk] at h
      subst h
      simp
      omega
    · simp [lookupField, hk] at h
      have := ih h
      simp
      omega

/-- A successful `pickFirstAux` returns a structurally smaller value. -/
theorem pickFirstAux_sizeOf (keys : List String) :
    ∀ (l : List (String × JSON)) (v : JSON),
      pickFirstAux l keys = some v → sizeOf v < sizeOf l := by
  induction keys with
  | nil => intro l v hv; simp [pickFirstAux] at hv
  | cons k ks ih =>
    intro l v hv
    unfold pickFirstAux at hv
    cases hl : lookupField l k with
    | none => rw [hl] at hv; exact ih l v hv
    | some w =>
      rw [hl] at hv
      cases hnw : isNullJ w with
      | true => simp [hnw] at hv; exact ih l v hv
      | false =>
        simp [hnw] at hv
        cases hv
        exact lookupField_sizeOf l k v hl

/-- Fuel-indexed shape of the quantity unwrapping recursion. -/
theorem quantityFromValue_shape_aux :
    ∀ (n : ℕ) (v : JSON), sizeOf v ≤ n → ∀ w, quantityFromValue v = some w →
      (∃ q, w = .num q)
      ∨ (∃ t, w = .str t ∧ jsTrim t = t ∧ t ≠ "" ∧ toNumber (.str t) = none) := by
  intro n
  induction n with
  | zero =>
    intro v hv
    exact absurd hv (by cases v <;> simp)
  | succ n ih =>
    intro v hv w hw
    cases v with
    | num q =>
      unfold quantityFromValue at hw
      cases hw
      exact Or.inl ⟨_, rfl⟩
    | str s =>
      unfold quantityFromValue at hw
      dsimp only at hw
      split at hw
      · exact absurd hw (by simp)
      · split at hw
        · cases hw
          exact Or.inl ⟨_, rfl⟩
        · cases hw
          exact Or.inr ⟨jsTrim s, rfl, jsTrim_idem _, by assumption, by assumption⟩
    | obj fs =>
      unfold quantityFromValue at hw
      cases hp : pickFirstAux fs ["value", "text", "quantity", "qty", "amount"] with
      | none => rw [hp] at hw; exact absurd hw (by simp)
      | some u =>
        rw [hp] at hw
        have hsz := pickFirstAux_sizeOf _ fs u hp
        refine ih u ?_ w hw
        have hfs : sizeOf fs < sizeOf (JSON.obj fs) := by simp
        omega
    | null =>
      unfold quantityFromValue at hw
      exact absurd hw (by simp)
    | bool b =>
      unfold quantityFromValue at hw
      exact absurd hw (by simp)
    | arr xs =>
      unfold quantityFromValue at hw
      exact absurd hw (by simp)

/-- `quantityFromValue` yields a number or a trimmed non-empty
non-numeric string. -/
theorem quantityFromValue_shape (v w : JSON) (hw : quantityFromValue v = some w) :
    (∃ q, w = .num q)
    ∨ (∃ t, w = .str t ∧ jsTrim t = t ∧ t ≠ "" ∧ toNumber (.str t) = none) :=
  quantityFromValue_shape_aux (sizeOf v) v (le_refl _) w hw

/-- `extractQuantity` yields a number or a trimmed non-empty non-numeric
string. -/
theorem extractQuantity_shape (o : JSON) (w : JSON)
    (h : extractQuantity o = some w) :
    (∃ q, w = .num q)
    ∨ (∃ t, w = .str t ∧ jsTrim t = t ∧ t ≠ "" ∧ toNumber (.str t) = none) := by
  unfold extractQuantity at h
  split at h
  · exact quantityFromValue_shape _ _ h
  · exact absurd h (by simp)

/-- A slug character is not whitespace. -/
theorem isSlugChar_not_ws (c : Char) (h : isSlugChar c = true) : isWS c = false := by
  cases hws : isWS c with
  | false => rfl
  | true =>
    simp only [isWS, decide_eq_true_eq] at hws
    rcases hws with h1 | h1 | h1 | h1 | h1 | h1 <;>
      (subst h1; exact absurd h (by decide))

/-- Every character the slug collapse emits is a slug character or a
hyphen, hence not whitespace. -/
theorem collapseNonAlnumAux_not_ws :
    ∀ (fuel : ℕ) (l : List Char) (c : Char),
      c ∈ collapseNonAlnumAux fuel l → isWS c = false := by
  intro fuel
  induction fuel with
  | zero => intro l c hc; simp [collapseNonAlnumAux] at hc
  | succ n ih =>
    intro l c hc
    cases l with
    | nil => simp [collapseNonAlnumAux] at hc
    | cons a rest =>
      unfold collapseNonAlnumAux at hc
      split at hc
      · rcases List.mem_cons.mp hc with h | h
        · subst h
          exact isSlugChar_not_ws _ (by assumption)
        · exact ih _ c h
      · rcases List.mem_cons.mp hc with h | h
        · subst h
          rfl
        · exact ih _ c h

/-- Removing a leading hyphen only removes elements. -/
theorem dropLeadHyphen_subset (l : List Char) (c : Char)
    (h : c ∈ dropLeadHyphen l) : c ∈ l := by
  unfold dropLeadHyphen at h
  split at h
  · exact List.mem_cons_of_mem _ h
  · exact h

/-- Slugs contain no whitespace. -/
theorem slugify_no_ws (name : String) (c : Char)
    (hc : c ∈ (slugify name).toList) : isWS c = false := by
  unfold slugify at hc
  rw [show (String.mk (dropEdgeHyphens (collapseNonAlnum (strLower name).toList))).toList
    = dropEdgeHyphens (collapseNonAlnum (strLower name).toList) from rfl] at hc
  unfold dropEdgeHyphens at hc
  rw [List.mem_reverse] at hc
  have h1 := dropLeadHyphen_subset _ c hc
  rw [List.mem_reverse] at h1
  have h2 := dropLeadHyphen_subset _ c h1
  exact collapseNonAlnumAux_not_ws _ _ c h2

/-- A string with an empty character list is the empty string. -/
theorem toList_nil_imp_empty (s : String) (h : s.toList = []) : s = "" := by
  cases s with
  | mk data =>
    simp at h
    rw [h]

/-- The rendered id of a truthy shaped identifier is non-empty with a
whitespace-free last character. -/
theorem idToString_ends (pid : Option JSON) (hp : idShape pid) (ht : jTruthy pid = true) :
    (idToString pid).toList ≠ []
    ∧ ∀ c, (idToString pid).toList.getLast? = some c → isWS c = false := by
  cases pid with
  | none => exact absurd ht (by decide)
  | some v =>
    rcases hp v rfl with ⟨q, hq⟩ | ⟨s, hs, hst, hsne⟩
    · subst hq
      refine ⟨fun hnil => numToString_ne_empty q (toList_nil_imp_empty _ hnil), ?_⟩
      intro c hc
      exact numToString_no_ws q c (mem_of_getLast?_eq _ c hc)
    · subst hs
      refine ⟨fun hnil => hsne (toList_nil_imp_empty _ hnil), ?_⟩
      intro c hc
      exact trimmed_getLast_not_ws s hst c hc

/-- `getLast?` ignores the head when the tail is non-empty. -/
theorem getLast?_cons_of_ne (a : Char) (r : List Char) (h : r ≠ []) :
    (a :: r).getLast? = r.getLast? := by
  rw [List.getLast?_cons]
  cases hl : r.getLast? with
  | some b => rfl
  | none => exact absurd (List.getLast?_eq_none_iff.mp hl) h

/-- Stripping a leading slash keeps the last character. -/
theorem stripLeadSlash_getLast (t : String) (c : Char)
    (h : (stripLeadSlash t).toList.getLast? = some c) : t.toList.getLast? = some c := by
  unfold stripLeadSlash at h
  split at h
  · rename_i r heq
    rw [heq]
    rw [show (String.mk r).toList = r from rfl] at h
    have hr : r ≠ [] := by
      intro h0
      rw [h0] at h
      simp at h
    rw [getLast?_cons_of_ne '/' r hr]
    exact h
  · exact h

/-- A two-part URL whose head part is a non-empty `http` literal and whose
overall last character is not whitespace is trimmed and `http`-prefixed. -/
theorem append2_trim_starts (A B : String)
    (hA : jsStartsWith A "http" = true) (hAne : A.toList ≠ [])
    (hAh : ∀ c, A.toList.head? = some c → isWS c = false)
    (hlast : ∀ c, (A ++ B).toList.getLast? = some c → isWS c = false) :
    jsTrim (A ++ B) = A ++ B ∧ jsStartsWith (A ++ B) "http" = true := by
  refine ⟨jsTrim_of_ends _ ?_ hlast, jsStartsWith_append A B _ hA⟩
  intro c hc
  rw [show (A ++ B).toList = A.toList ++ B.toList from String.data_append A B] at hc
  rw [head?_append_left _ _ hAne] at hc
  exact hAh c hc

/-- A four-part URL with an `http` literal head and a non-empty trailing
id part with whitespace-free end is trimmed and `http`-prefixed. -/
theorem append4_trim_starts (A B C D : String)
    (hA : jsStartsWith A "http" = true) (hAne : A.toList ≠ [])
    (hAh : ∀ c, A.toList.head? = some c → isWS c = false)
    (hD : D.toList ≠ [])
    (hDl : ∀ c, D.toList.getLast? = some c → isWS c = false) :
    jsTrim (A ++ B ++ C ++ D) = A ++ B ++ C ++ D
    ∧ jsStartsWith (A ++ B ++ C ++ D) "http" = true := by
  have hda : ∀ (x y : String), (x ++ y).toList = x.toList ++ y.toList :=
    fun x y => String.data_append x y
  constructor
  · refine jsTrim_of_ends _ ?_ ?_
    · intro c hc
      rw [hda, hda, hda] at hc
      rw [head?_append_left _ _ (fun h0 =>
        hAne (List.append_eq_nil.mp (List.append_eq_nil.mp h0).1).1)] at hc
      rw [head?_append_left _ _ (fun h0 => hAne (List.append_eq_nil.mp h0).1)] at hc
      rw [head?_append_left _ _ hAne] at hc
      exact hAh c hc
    · intro c hc
      rw [hda] at hc
      rw [getLast?_append_right _ _ hD] at hc
      exact hDl c hc
  · exact jsStartsWith_append _ D _ (jsStartsWith_append _ C _ (jsStartsWith_append A B _ hA))

/-- Every URL `computeProductUrl` produces is trimmed and `http`-prefixed. -/
theorem computeProductUrl_shape (rawv : JSON) (pid : Option JSON) (pname : Option String)
    (hp : idShape pid) : urlShape (computeProductUrl rawv pid pname) := by
  intro u hu
  have hda : ∀ (x y : String), (x ++ y).toList = x.toList ++ y.toList :=
    fun x y => String.data_append x y
  have hlit1h : ∀ c, ("https://blinkit.com/" : String).toList.head? = some c → isWS c = false := by
    intro c hc
    rw [show ("https://blinkit.com/" : String).toList.head? = some 'h' from rfl] at hc
    cases hc
    rfl
  have hrel : ∀ t u', jsTrim t = t →
      some ("https://blinkit.com/" ++ stripLeadSlash t) = some u' →
      jsTrim u' = u' ∧ jsStartsWith u' "http" = true := by
    intro t u' htt h'
    cases h'
    apply append2_trim_starts _ _ (by decide) (by decide) hlit1h
    intro c hc
    rw [hda] at hc
    cases hpl : (stripLeadSlash t).toList with
    | nil =>
      rw [hpl, List.append_nil] at hc
      rw [show ("https://blinkit.com/" : String).toList.getLast? = some '/' from rfl] at hc
      cases hc
      rfl
    | cons x xs =>
      rw [getLast?_append_right _ _ (by rw [hpl]; simp)] at hc
      exact trimmed_getLast_not_ws t htt c (stripLeadSlash_getLast t c hc)
  have hsynth : ∀ u', (if jTruthy pid ∧ strTruthy pname then
      some ("https://blinkit.com/prn/" ++ slugify (pname.getD "") ++ "/prid/" ++ idToString pid)
      else none) = some u' → jsTrim u' = u' ∧ jsStartsWith u' "http" = true := by
    intro u' h'
    split at h'
    · cases h'
      rename_i hcond
      have hends := idToString_ends pid hp hcond.1
      refine append4_trim_starts _ _ _ _ (by decide) (by decide) ?_ hends.1 hends.2
      intro c hc
      rw [show ("https://blinkit.com/prn/" : String).toList.head? = some 'h' from rfl] at hc
      cases hc
      rfl
    · exact absurd h' (by simp)
  unfold computeProductUrl at hu
  cases rawv with
  | str s =>
    dsimp only at hu
    by_cases ht : jsTrim s ≠ ""
    · rw [if_pos ht] at hu
      by_cases hh : jsStartsWith (jsTrim s) "http" = true
      · rw [if_pos hh] at hu
        cases hu
        exact ⟨jsTrim_idem _, hh⟩
      · rw [if_neg hh] at hu
        by_cases hprn : (jsStartsWith (stripLeadSlash (jsTrim s)) "prn/"
            || containsSub (stripLeadSlash (jsTrim s)) "/prn/") = true
        · rw [if_pos hprn] at hu
          exact hrel _ _ (jsTrim_idem _) hu
        · rw [if_neg hprn] at hu
          by_cases hid : jTruthy pid = true
          · rw [if_pos hid] at hu
            cases hu
            have hends := idToString_ends pid hp hid
            refine append4_trim_starts _ _ _ _ (by decide) (by decide) ?_ hends.1 hends.2
            intro c hc
            rw [show ("https://blinkit.com/prn/" : String).toList.head? = some 'h' from rfl] at hc
            cases hc
            rfl
          · rw [if_neg hid] at hu
            exact hrel _ _ (jsTrim_idem _) hu
    · rw [if_neg ht] at hu
      exact hsynth u hu
  | null => exact hsynth u hu
  | bool b => exact hsynth u hu
  | num q => exact hsynth u hu
  | arr xs => exact hsynth u hu
  | obj fs => exact hsynth u hu

/-- When `computeProductUrl` yields nothing, there was no id/name pair to
synthesize a URL from. -/
theorem computeProductUrl_none (rawv : JSON) (pid : Option JSON) (pname : Option String)
    (h : computeProductUrl rawv pid pname = none) :
    (jTruthy pid && strTruthy pname) = false := by
  have hsynth : (if jTruthy pid ∧ strTruthy pname then
      some ("https://blinkit.com/prn/" ++ slugify (pname.getD "") ++ "/prid/" ++ idToString pid)
      else none) = none → (jTruthy pid && strTruthy pname) = false := by
    intro h'
    split at h'
    · exact absurd h' (by simp)
    · rename_i hc
      cases hjp : jTruthy pid <;> cases hsn : strTruthy pname <;> simp_all
  unfold computeProductUrl at h
  cases rawv with
  | str s =>
    dsimp only at h
    by_cases ht : jsTrim s ≠ ""
    · rw [if_pos ht] at h
      split at h
      · exact absurd h (by simp)
      · split at h
        · exact absurd h (by simp)
        · split at h
          · exact absurd h (by simp)
          · exact absurd h (by simp)
    · rw [if_neg ht] at h
      exact hsynth h
  | null => exact hsynth h
  | bool b => exact hsynth h
  | num q => exact hsynth h
  | arr xs => exact hsynth h
  | obj fs => exact hsynth h

/-- Every field vector `normalizeProduct` computes satisfies the shape
invariants. -/
theorem normFields_shape (raw : JSON) : normShape (normFields raw) := by
  have hpid : idShape (normFields raw).productId := by
    intro v hv
    have hv' : (extractProductId (productBase raw) <|> extractProductId raw) = some v := hv
    rcases orElse_eq_some_cases _ _ _ hv' with h | h
    · exact extractProductId_shape _ v h
    · exact extractProductId_shape _ v h
  refine ⟨?_, ?_, ?_, ?_, ?_, ?_, hpid, ?_, ?_, ?_, ?_⟩
  · intro s hs
    have hs' : jsOrStr (extractName (productBase raw)) (extractName raw) = some s := hs
    rcases jsOrStr_eq_some_cases _ _ _ hs' with h | h
    · exact extractName_trimmed _ s h
    · exact extractName_trimmed _ s h
  · intro s hs
    have hs' : (extractDiscount (productBase raw) <|> extractDiscount raw) = some s := hs
    rcases orElse_eq_some_cases _ _ _ hs' with h | h
    · exact extractDiscount_trimmed _ s h
    · exact extractDiscount_trimmed _ s h
  · intro s hs
    have hs' : (extractDelivery (productBase raw) <|> extractDelivery raw) = some s := hs
    rcases orElse_eq_some_cases _ _ _ hs' with h | h
    · exact extractDelivery_trimmed _ s h
    · exact extractDelivery_trimmed _ s h
  · intro s hs
    have hs' : (extractAvailability (productBase raw) <|> extractAvailability raw) = some s := hs
    rcases orElse_eq_some_cases _ _ _ hs' with h | h
    · exact extractAvailability_cases _ s h
    · exact extractAvailability_cases _ s h
  · intro s hs
    have hs' : (extractBrand (productBase raw) <|> extractBrand raw) = some s := hs
    rcases orElse_eq_some_cases _ _ _ hs' with h | h
    · exact extractBrand_shape _ s h
    · exact extractBrand_shape _ s h
  · intro s hs
    have hs' : (extractUnit (productBase raw) <|> extractUnit raw) = some s := hs
    rcases orElse_eq_some_cases _ _ _ hs' with h | h
    · exact extractUnit_shape _ s h
    · exact extractUnit_shape _ s h
  · intro v hv
    have hv' : (extractSkuId (productBase raw) <|> extractSkuId raw) = some v := hv
    rcases orElse_eq_some_cases _ _ _ hv' with h | h
    · exact extractSkuId_shape _ v h
    · exact extractSkuId_shape _ v h
  · intro v hv
    have hv' : (extractQuantity (productBase raw) <|> extractQuantity raw) = some v := hv
    rcases orElse_eq_some_cases _ _ _ hv' with h | h
    · exact extractQuantity_shape _ v h
    · exact extractQuantity_shape _ v h
  · exact computeProductUrl_shape _ _ _ hpid
  · intro h
    exact computeProductUrl_none _ _ _ h

/-- `pickFirstAux` misses when every key misses. -/
theorem pickFR_none_of_all (L : List (String × JSON)) (ks : List String)
    (h : ∀ k ∈ ks, lookupField L k = none) :
    pickFirstAux L ks = none := by
  induction ks with
  | nil => rfl
  | cons k ks ih =>
    rw [pickFirstAux_skip _ _ _ (h k (List.mem_cons_self _ _))]
    exact ih (fun k' hk' => h k' (List.mem_cons_of_mem _ hk'))

/-- The normalized record has no `product` sub-object, so it is its own
extraction base. -/
theorem productBase_FR (f : NormFields) :
    productBase (.obj ((recordEntries f).filter (fun e => keepVal e.2)))
      = .obj ((recordEntries f).filter (fun e => keepVal e.2)) := by
  have h := lookupFR_absent f "product" rfl
  unfold productBase
  rw [show getProp (JSON.obj ((recordEntries f).filter (fun e => keepVal e.2))) "product"
      = lookupField ((recordEntries f).filter (fun e => keepVal e.2)) "product" from rfl, h]

/-- `Math.round` is the identity on integers. -/
theorem jsRound_int (i : ℤ) : jsRound ((i : ℚ)) = i := by
  unfold jsRound
  rw [Int.floor_int_add]
  norm_num

/-- Re-extraction of `price` from a normalized record. -/
theorem extractPrice_FR (f : NormFields) :
    extractPrice (.obj ((recordEntries f).filter (fun e => keepVal e.2))) = f.price := by
  unfold extractPrice
  have hpick : pickFirst (.obj ((recordEntries f).filter (fun e => keepVal e.2)))
      PRODUCT_KEYS_price
      = match f.price with
        | some q => some (.num q)
        | none => none := by
    show pickFirstAux ((recordEntries f).filter (fun e => keepVal e.2)) PRODUCT_KEYS_price = _
    rw [show PRODUCT_KEYS_price = "price" :: ["selling_price", "offer_price",
      "discounted_price", "final_price", "sp", "sale_price", "unit_price"] from rfl]
    cases hq : f.price with
    | some q =>
      have h1 : lookupField (recordEntries f) "price" = some (optNum f.price) := rfl
      rw [hq] at h1
      exact pickFirstAux_hit _ _ _ _ (lookupFR_present f "price" (.num q) h1 rfl) rfl
    | none =>
      have h1 : lookupField (recordEntries f) "price" = some (optNum f.price) := rfl
      rw [hq] at h1
      rw [pickFirstAux_skip _ _ _ (lookupFR_dropped f "price" .null h1 rfl)]
      refine pickFR_none_of_all _ _ ?_
      intro k hk
      simp only [List.mem_cons, List.not_mem_nil, or_false] at hk
      rcases hk with rfl | rfl | rfl | rfl | rfl | rfl | rfl <;> exact lookupFR_absent f _ rfl
  rw [hpick]
  cases hq : f.price with
  | some q => rfl
  | none => rfl

/-- Re-extraction of `original_price` from a normalized record. -/
theorem extractOriginalPrice_FR (f : NormFields) :
    extractOriginalPrice (.obj ((recordEntries f).filter (fun e => keepVal e.2)))
      = f.originalPrice := by
  unfold extractOriginalPrice
  have hpick : pickFirst (.obj ((recordEntries f).filter (fun e => keepVal e.2)))
      PRODUCT_KEYS_originalPrice
      = match f.originalPrice with
        | some q => some (.num q)
        | none => none := by
    show pickFirstAux ((recordEntries f).filter (fun e => keepVal e.2))
      PRODUCT_KEYS_originalPrice = _
    rw [show PRODUCT_KEYS_originalPrice
      = "mrp" :: "original_price" :: ["list_price", "mrp_price"] from rfl]
    rw [pickFirstAux_skip _ _ _ (lookupFR_absent f "mrp" rfl)]
    cases hq : f.originalPrice with
    | some q =>
      have h1 : lookupField (recordEntries f) "original_price"
        = some (optNum f.originalPrice) := rfl
      rw [hq] at h1
      exact pickFirstAux_hit _ _ _ _ (lookupFR_present f "original_price" (.num q) h1 rfl) rfl
    | none =>
      have h1 : lookupField (recordEntries f) "original_price"
        = some (optNum f.originalPrice) := rfl
      rw [hq] at h1
      rw [pickFirstAux_skip _ _ _ (lookupFR_dropped f "original_price" .null h1 rfl)]
      refine pickFR_none_of_all _ _ ?_
      intro k hk
      simp only [List.mem_cons, List.not_mem_nil, or_false] at hk
      rcases hk with rfl | rfl <;> exact lookupFR_absent f _ rfl
  rw [hpick]
  cases hq : f.originalPrice with
  | some q => rfl
  | none => rfl

/-- Re-extraction of `rating` from a normalized record. -/
theorem extractRating_FR (f : NormFields) :
    extractRating (.obj ((recordEntries f).filter (fun e => keepVal e.2))) = f.rating := by
  unfold extractRating
  have hpick : pickFirst (.obj ((recordEntries f).filter (fun e => keepVal e.2)))
      PRODUCT_KEYS_rating
      = match f.rating with
        | some q => some (.num q)
        | none => none := by
    show pickFirstAux ((recordEntries f).filter (fun e => keepVal e.2)) PRODUCT_KEYS_rating = _
    rw [show PRODUCT_KEYS_rating = "rating" :: ["avg_rating", "average_rating",
      "product_rating", "productRating"] from rfl]
    cases hq : f.rating with
    | some q =>
      have h1 : lookupField (recordEntries f) "rating" = some (optNum f.rating) := rfl
      rw [hq] at h1
      exact pickFirstAux_hit _ _ _ _ (lookupFR_present f "rating" (.num q) h1 rfl) rfl
    | none =>
      have h1 : lookupField (recordEntries f) "rating" = some (optNum f.rating) := rfl
      rw [hq] at h1
      rw [pickFirstAux_skip _ _ _ (lookupFR_dropped f "rating" .null h1 rfl)]
      refine pickFR_none_of_all _ _ ?_
      intro k hk
      simp only [List.mem_cons, List.not_mem_nil, or_false] at hk
      rcases hk with rfl | rfl | rfl | rfl <;> exact lookupFR_absent f _ rfl
  rw [hpick]
  cases hq : f.rating with
  | some q => rfl
  | none => rfl

/-- Re-extraction of `ratings_count` from a normalized record. -/
theorem extractRatingsCount_FR (f : NormFields) :
    extractRatingsCount (.obj ((recordEntries f).filter (fun e => keepVal e.2)))
      = f.ratingsCount := by
  unfold extractRatingsCount
  have hpick : pickFirst (.obj ((recordEntries f).filter (fun e => keepVal e.2)))
      PRODUCT_KEYS_ratingsCount
      = match f.ratingsCount with
        | some i => some (.num (i : ℚ))
        | none => none := by
    show pickFirstAux ((recordEntries f).filter (fun e => keepVal e.2))
      PRODUCT_KEYS_ratingsCount = _
    rw [show PRODUCT_KEYS_ratingsCount = "rating_count" :: "ratings_count" ::
      ["reviews_count", "review_count", "ratingCount", "ratingsCount"] from rfl]
    rw [pickFirstAux_skip _ _ _ (lookupFR_absent f "rating_count" rfl)]
    cases hq : f.ratingsCount with
    | some i =>
      have h1 : lookupField (recordEntries f) "ratings_count"
        = some (optInt f.ratingsCount) := rfl
      rw [hq] at h1
      exact pickFirstAux_hit _ _ _ _
        (lookupFR_present f "ratings_count" (.num (i : ℚ)) h1 rfl) rfl
    | none =>
      have h1 : lookupField (recordEntries f) "ratings_count"
        = some (optInt f.ratingsCount) := rfl
      rw [hq] at h1
      rw [pickFirstAux_skip _ _ _ (lookupFR_dropped f "ratings_count" .null h1 rfl)]
      refine pickFR_none_of_all _ _ ?_
      intro k hk
      simp only [List.mem_cons, List.not_mem_nil, or_false] at hk
      rcases hk with rfl | rfl | rfl | rfl <;> exact lookupFR_absent f _ rfl
  rw [hpick]
  cases hq : f.ratingsCount with
  | some i =>
    show some (jsRound ((i : ℚ))) = some i
    rw [jsRound_int]
  | none => rfl

/-- Re-extraction of `inventory` from a normalized record. -/
theorem extractInventory_FR (f : NormFields) :
    extractInventory (.obj ((recordEntries f).filter (fun e => keepVal e.2)))
      = f.inventory := by
  unfold extractInventory
  have hpick : pickFirst (.obj ((recordEntries f).filter (fun e => keepVal e.2)))
      PRODUCT_KEYS_inventory
      = match f.inventory with
        | some i => some (.num (i : ℚ))
        | none => none := by
    show pickFirstAux ((recordEntries f).filter (fun e => keepVal e.2))
      PRODUCT_KEYS_inventory = _
    rw [show PRODUCT_KEYS_inventory = "inventory" :: ["inventory_count", "available_quantity",
      "availableQuantity", "stock_count", "stockCount"] from rfl]
    cases hq : f.inventory with
    | some i =>
      have h1 : lookupField (recordEntries f) "inventory" = some (optInt f.inventory) := rfl
      rw [hq] at h1
      exact pickFirstAux_hit _ _ _ _
        (lookupFR_present f "inventory" (.num (i : ℚ)) h1 rfl) rfl
    | none =>
      have h1 : lookupField (recordEntries f) "inventory" = some (optInt f.inventory) := rfl
      rw [hq] at h1
      rw [pickFirstAux_skip _ _ _ (lookupFR_dropped f "inventory" .null h1 rfl)]
      refine pickFR_none_of_all _ _ ?_
      intro k hk
      simp only [List.mem_cons, List.not_mem_nil, or_false] at hk
      rcases hk with rfl | rfl | rfl | rfl | rfl <;> exact lookupFR_absent f _ rfl
  rw [hpick]
  cases hq : f.inventory with
  | some i =>
    show some (jsRound ((i : ℚ))) = some i
    rw [jsRound_int]
  | none => rfl

/-- Re-extraction of the display name from a normalized record. -/
theorem extractName_FR (f : NormFields) (hsn : strShape f.productName) :
    extractName (.obj ((recordEntries f).filter (fun e => keepVal e.2)))
      = match f.productName with
        | some s => if s = "" then none else some s
        | none => none := by
  unfold extractName
  have hrest : ∀ _h : True, pickFirstAux ((recordEntries f).filter (fun e => keepVal e.2))
      ["title", "productName", "display_name", "displayName", "item_name"] = none := by
    intro _
    refine pickFR_none_of_all _ _ ?_
    intro k hk
    simp only [List.mem_cons, List.not_mem_nil, or_false] at hk
    rcases hk with rfl | rfl | rfl | rfl | rfl <;> exact lookupFR_absent f _ rfl
  have h1 : lookupField (recordEntries f) "product_name" = some (optStr f.productName) := rfl
  rw [show pickFirst (.obj ((recordEntries f).filter (fun e => keepVal e.2))) PRODUCT_KEYS_name
      = pickFirstAux ((recordEntries f).filter (fun e => keepVal e.2))
        ("name" :: "product_name" ::
          ["title", "productName", "display_name", "displayName", "item_name"]) from rfl]
  rw [pickFirstAux_skip _ _ _ (lookupFR_absent f "name" rfl)]
  cases hq : f.productName with
  | some s =>
    rw [hq] at h1
    by_cases hse : s = ""
    · subst hse
      rw [pickFirstAux_skip _ _ _ (lookupFR_dropped f "product_name" (.str "") h1 rfl)]
      rw [hrest trivial]
      rfl
    · have hkeep : keepVal (.str s) = true := by
        simp [keepVal, hsn s hq, hse]
      rw [pickFirstAux_hit _ _ _ _ (lookupFR_present f "product_name" (.str s) h1 hkeep) rfl]
      dsimp only
      rw [hsn s hq, if_neg hse]
  | none =>
    rw [hq] at h1
    rw [pickFirstAux_skip _ _ _ (lookupFR_dropped f "product_name" .null h1 rfl)]
    rw [hrest trivial]

/-- Re-extraction of the discount text from a normalized record. -/
theorem extractDiscount_FR (f : NormFields) (hsd : strShape f.discount) :
    extractDiscount (.obj ((recordEntries f).filter (fun e => keepVal e.2)))
      = match f.discount with
        | some s => if s = "" then none else some s
        | none => none := by
  unfold extractDiscount
  have hrest : ∀ _h : True, pickFirstAux ((recordEntries f).filter (fun e => keepVal e.2))
      ["discountPercent", "offer_text"] = none := by
    intro _
    refine pickFR_none_of_all _ _ ?_
    intro k hk
    simp only [List.mem_cons, List.not_mem_nil, or_false] at hk
    rcases hk with rfl | rfl <;> exact lookupFR_absent f _ rfl
  have h1 : lookupField (recordEntries f) "discount_percentage" = some (optStr f.discount) := rfl
  rw [show pickFirst (.obj ((recordEntries f).filter (fun e => keepVal e.2)))
      PRODUCT_KEYS_discount
      = pickFirstAux ((recordEntries f).filter (fun e => keepVal e.2))
        ("discount" :: "discount_text" :: "discount_percentage" ::
          ["discountPercent", "offer_text"]) from rfl]
  rw [pickFirstAux_skip _ _ _ (lookupFR_absent f "discount" rfl)]
  rw [pickFirstAux_skip _ _ _ (lookupFR_absent f "discount_text" rfl)]
  cases hq : f.discount with
  | some s =>
    rw [hq] at h1
    by_cases hse : s = ""
    · subst hse
      rw [pickFirstAux_skip _ _ _ (lookupFR_dropped f "discount_percentage" (.str "") h1 rfl)]
      rw [hrest trivial]
      rfl
    · have hkeep : keepVal (.str s) = true := by
        simp [keepVal, hsd s hq, hse]
      rw [pickFirstAux_hit _ _ _ _
        (lookupFR_present f "discount_percentage" (.str s) h1 hkeep) rfl]
      dsimp only
      rw [hsd s hq, if_neg hse]
  | none =>
    rw [hq] at h1
    rw [pickFirstAux_skip _ _ _ (lookupFR_dropped f "discount_percentage" .null h1 rfl)]
    rw [hrest trivial]

/-- Re-extraction of the delivery estimate from a normalized record. -/
theorem extractDelivery_FR (f : NormFields) (hsdel : strShape f.delivery) :
    extractDelivery (.obj ((recordEntries f).filter (fun e => keepVal e.2)))
      = match f.delivery with
        | some s => if s = "" then none else some s
        | none => none := by
  unfold extractDelivery
  have h1 : lookupField (recordEntries f) "delivery_time" = some (optStr f.delivery) := rfl
  rw [show pickFirst (.obj ((recordEntries f).filter (fun e => keepVal e.2)))
      PRODUCT_KEYS_delivery
      = pickFirstAux ((recordEntries f).filter (fun e => keepVal e.2))
        ("eta" :: "delivery_time" :: ["deliveryTime"]) from rfl]
  rw [pickFirstAux_skip _ _ _ (lookupFR_absent f "eta" rfl)]
  cases hq : f.delivery with
  | some s =>
    rw [hq] at h1
    by_cases hse : s = ""
    · subst hse
      rw [pickFirstAux_skip _ _ _ (lookupFR_dropped f "delivery_time" (.str "") h1 rfl)]
      rw [pickFirstAux_skip _ _ _ (lookupFR_absent f "deliveryTime" rfl)]
      rfl
    · have hkeep : keepVal (.str s) = true := by
        simp [keepVal, hsdel s hq, hse]
      rw [pickFirstAux_hit _ _ _ _ (lookupFR_present f "delivery_time" (.str s) h1 hkeep) rfl]
      dsimp only
      rw [hsdel s hq, if_neg hse]
  | none =>
    rw [hq] at h1
    rw [pickFirstAux_skip _ _ _ (lookupFR_dropped f "delivery_time" .null h1 rfl)]
    rw [pickFirstAux_skip _ _ _ (lookupFR_absent f "deliveryTime" rfl)]
    rfl

/-- Re-extraction of the brand from a normalized record. -/
theorem extractBrand_FR (f : NormFields) (hsb : strShapeNE f.brand) :
    extractBrand (.obj ((recordEntries f).filter (fun e => keepVal e.2))) = f.brand := by
  unfold extractBrand
  have hrest : ∀ _h : True, pickFirstAux ((recordEntries f).filter (fun e => keepVal e.2))
      ["brand_name", "brandName", "brand_title", "manufacturer", "company"] = none := by
    intro _
    refine pickFR_none_of_all _ _ ?_
    intro k hk
    simp only [List.mem_cons, List.not_mem_nil, or_false] at hk
    rcases hk with rfl | rfl | rfl | rfl | rfl <;> exact lookupFR_absent f _ rfl
  have h1 : lookupField (recordEntries f) "brand" = some (optStr f.brand) := rfl
  rw [show pickFirst (.obj ((recordEntries f).filter (fun e => keepVal e.2)))
      PRODUCT_KEYS_brand
      = pickFirstAux ((recordEntries f).filter (fun e => keepVal e.2))
        ("brand" :: ["brand_name", "brandName", "brand_title", "manufacturer", "company"])
        from rfl]
  cases hq : f.brand with
  | some s =>
    rw [hq] at h1
    have hkeep : keepVal (.str s) = true := by
      simp [keepVal, (hsb s hq).1, (hsb s hq).2]
    rw [pickFirstAux_hit _ _ _ _ (lookupFR_present f "brand" (.str s) h1 hkeep) rfl]
    dsimp only
    rw [(hsb s hq).1, if_neg (hsb s hq).2]
  | none =>
    rw [hq] at h1
    rw [pickFirstAux_skip _ _ _ (lookupFR_dropped f "brand" .null h1 rfl)]
    rw [hrest trivial]

/-- Re-extraction of the unit from a normalized record. -/
theorem extractUnit_FR (f : NormFields) (hsu : strShapeNE f.unit) :
    extractUnit (.obj ((recordEntries f).filter (fun e => keepVal e.2))) = f.unit := by
  unfold extractUnit
  have hrest : ∀ _h : True, pickFirstAux ((recordEntries f).filter (fun e => keepVal e.2))
      ["uom", "unitOfMeasure", "unit_of_measure", "measurement_unit"] = none := by
    intro _
    refine pickFR_none_of_all _ _ ?_
    intro k hk
    simp only [List.mem_cons, List.not_mem_nil, or_false] at hk
    rcases hk with rfl | rfl | rfl | rfl <;> exact lookupFR_absent f _ rfl
  have h1 : lookupField (recordEntries f) "unit" = some (optStr f.unit) := rfl
  rw [show pickFirst (.obj ((recordEntries f).filter (fun e => keepVal e.2)))
      PRODUCT_KEYS_unit
      = pickFirstAux ((recordEntries f).filter (fun e => keepVal e.2))
        ("unit" :: ["uom", "unitOfMeasure", "unit_of_measure", "measurement_unit"])
        from rfl]
  cases hq : f.unit with
  | some s =>
    rw [hq] at h1
    have hkeep : keepVal (.str s) = true := by
      simp [keepVal, (hsu s hq).1, (hsu s hq).2]
    rw [pickFirstAux_hit _ _ _ _ (lookupFR_present f "unit" (.str s) h1 hkeep) rfl]
    dsimp only
    rw [(hsu s hq).1, if_neg (hsu s hq).2]
  | none =>
    rw [hq] at h1
    rw [pickFirstAux_skip _ _ _ (lookupFR_dropped f "unit" .null h1 rfl)]
    rw [hrest trivial]

/-- Re-extraction of availability from a normalized record: the two stock
constants survive, `Unknown` reads back as absent. -/
theorem extractAvailability_FR (f : NormFields) (hsav : availShape f.availability) :
    extractAvailability (.obj ((recordEntries f).filter (fun e => keepVal e.2)))
      = f.availability := by
  unfold extractAvailability
  have h1 : lookupField (recordEntries f) "availability"
    = some (optStr (jsOrStr f.availability (some "Unknown"))) := rfl
  rw [show pickFirst (.obj ((recordEntries f).filter (fun e => keepVal e.2)))
      PRODUCT_KEYS_availability
      = pickFirstAux ((recordEntries f).filter (fun e => keepVal e.2))
        ("in_stock" :: "available" :: "availability" :: ["stock"]) from rfl]
  rw [pickFirstAux_skip _ _ _ (lookupFR_absent f "in_stock" rfl)]
  rw [pickFirstAux_skip _ _ _ (lookupFR_absent f "available" rfl)]
  cases hq : f.availability with
  | some s =>
    rw [hq] at h1
    rcases hsav s hq with rfl | rfl
    · rw [pickFirstAux_hit _ _ _ _
        (lookupFR_present f "availability" (.str "In Stock") h1 rfl) rfl]
      decide
    · rw [pickFirstAux_hit _ _ _ _
        (lookupFR_present f "availability" (.str "Out of Stock") h1 rfl) rfl]
      decide
  | none =>
    rw [hq] at h1
    rw [pickFirstAux_hit _ _ _ _
      (lookupFR_present f "availability" (.str "Unknown") h1 rfl) rfl]
    decide

/-- Re-extraction of the image from a normalized record. -/
theorem extractImage_FR (f : NormFields) :
    extractImage (.obj ((recordEntries f).filter (fun e => keepVal e.2)))
      = match f.image with
        | some s => if jsTrim s = "" then none else some s
        | none => none := by
  unfold extractImage
  have hfall1 : getPropD (.obj ((recordEntries f).filter (fun e => keepVal e.2))) "images"
      = .null := by
    show (getProp (JSON.obj ((recordEntries f).filter (fun e => keepVal e.2))) "images").getD
      .null = .null
    rw [show getProp (JSON.obj ((recordEntries f).filter (fun e => keepVal e.2))) "images"
      = lookupField ((recordEntries f).filter (fun e => keepVal e.2)) "images" from rfl]
    rw [lookupFR_absent f "images" rfl]
    rfl
  have hfall2 : getPropD (.obj ((recordEntries f).filter (fun e => keepVal e.2))) "image_urls"
      = .null := by
    show (getProp (JSON.obj ((recordEntries f).filter (fun e => keepVal e.2)))
      "image_urls").getD .null = .null
    rw [show getProp (JSON.obj ((recordEntries f).filter (fun e => keepVal e.2))) "image_urls"
      = lookupField ((recordEntries f).filter (fun e => keepVal e.2)) "image_urls" from rfl]
    rw [lookupFR_absent f "image_urls" rfl]
    rfl
  have hfall3 : getPropD (.obj ((recordEntries f).filter (fun e => keepVal e.2))) "imageUrls"
      = .null := by
    show (getProp (JSON.obj ((recordEntries f).filter (fun e => keepVal e.2)))
      "imageUrls").getD .null = .null
    rw [show getProp (JSON.obj ((recordEntries f).filter (fun e => keepVal e.2))) "imageUrls"
      = lookupField ((recordEntries f).filter (fun e => keepVal e.2)) "imageUrls" from rfl]
    rw [lookupFR_absent f "imageUrls" rfl]
    rfl
  have hskips : ∀ _h : True, pickFirstAux ((recordEntries f).filter (fun e => keepVal e.2))
      ("image" :: "image_url" :: "imageUrl" :: "thumbnail" :: "img" :: "picture"
        :: ["product_image"])
      = pickFirstAux ((recordEntries f).filter (fun e => keepVal e.2)) ["product_image"] := by
    intro _
    rw [pickFirstAux_skip _ _ _ (lookupFR_absent f "image" rfl)]
    rw [pickFirstAux_skip _ _ _ (lookupFR_absent f "image_url" rfl)]
    rw [pickFirstAux_skip _ _ _ (lookupFR_absent f "imageUrl" rfl)]
    rw [pickFirstAux_skip _ _ _ (lookupFR_absent f "thumbnail" rfl)]
    rw [pickFirstAux_skip _ _ _ (lookupFR_absent f "img" rfl)]
    rw [pickFirstAux_skip _ _ _ (lookupFR_absent f "picture" rfl)]
  have h1 : lookupField (recordEntries f) "product_image" = some (optStr f.image) := rfl
  rw [show pickFirst (.obj ((recordEntries f).filter (fun e => keepVal e.2)))
      PRODUCT_KEYS_image
      = pickFirstAux ((recordEntries f).filter (fun e => keepVal e.2))
        ("image" :: "image_url" :: "imageUrl" :: "thumbnail" :: "img" :: "picture"
          :: ["product_image"]) from rfl]
  rw [hskips trivial]
  cases hq : f.image with
  | some s =>
    rw [hq] at h1
    by_cases hts : jsTrim s = ""
    · have hdrop : keepVal (.str s) = false := by
        simp [keepVal, hts]
      rw [pickFirstAux_skip _ _ _ (lookupFR_dropped f "product_image" (.str s) h1 hdrop)]
      rw [show pickFirstAux ((recordEntries f).filter (fun e => keepVal e.2)) [] = none
        from rfl]
      dsimp only
      rw [hfall1, hfall2, hfall3]
      rw [if_pos hts]
      rfl
    · have hkeep : keepVal (.str s) = true := by
        simp [keepVal, hts]
      rw [pickFirstAux_hit _ _ _ _
        (lookupFR_present f "product_image" (.str s) h1 hkeep) rfl]
      dsimp only
      rw [if_neg hts]
  | none =>
    rw [hq] at h1
    rw [pickFirstAux_skip _ _ _ (lookupFR_dropped f "product_image" .null h1 rfl)]
    rw [show pickFirstAux ((recordEntries f).filter (fun e => keepVal e.2)) [] = none
      from rfl]
    dsimp only
    rw [hfall1, hfall2, hfall3]
    rfl

/-- Re-extraction of the SKU id from a normalized record. -/
theorem extractSkuId_FR (f : NormFields) (hssku : idShape f.skuId) :
    extractSkuId (.obj ((recordEntries f).filter (fun e => keepVal e.2))) = f.skuId := by
  unfold extractSkuId
  have hrest : ∀ _h : True, pickFirstAux ((recordEntries f).filter (fun e => keepVal e.2))
      ["skuId", "variant_id", "variantId", "item_id", "itemId"] = none := by
    intro _
    refine pickFR_none_of_all _ _ ?_
    intro k hk
    simp only [List.mem_cons, List.not_mem_nil, or_false] at hk
    rcases hk with rfl | rfl | rfl | rfl | rfl <;> exact lookupFR_absent f _ rfl
  have h1 : lookupField (recordEntries f) "sku_id" = some (optJ f.skuId) := rfl
  rw [show pickFirst (.obj ((recordEntries f).filter (fun e => keepVal e.2)))
      PRODUCT_KEYS_skuId
      = pickFirstAux ((recordEntries f).filter (fun e => keepVal e.2))
        ("sku_id" :: ["skuId", "variant_id", "variantId", "item_id", "itemId"]) from rfl]
  cases hq : f.skuId with
  | some v =>
    rw [hq] at h1
    rcases hssku v hq with ⟨q, rfl⟩ | ⟨s, rfl, hst, hsne⟩
    · rw [pickFirstAux_hit _ _ _ _ (lookupFR_present f "sku_id" (.num q) h1 rfl) rfl]
    · have hkeep : keepVal (.str s) = true := by
        simp [keepVal, hst, hsne]
      rw [pickFirstAux_hit _ _ _ _ (lookupFR_present f "sku_id" (.str s) h1 hkeep) rfl]
      dsimp only
      rw [show jsToString (.str s) = s from rfl, hst]
      rw [if_neg hsne]
  | none =>
    rw [hq] at h1
    rw [pickFirstAux_skip _ _ _ (lookupFR_dropped f "sku_id" .null h1 rfl)]
    rw [hrest trivial]

/-- Re-extraction of the product id from a normalized record: under the
no-sku-promotion side condition the id re-extracts to itself. -/
theorem extractProductId_FR (f : NormFields) (hspid : idShape f.productId)
    (hside : f.skuId = none ∨ f.productId ≠ none) :
    extractProductId (.obj ((recordEntries f).filter (fun e => keepVal e.2)))
      = f.productId := by
  unfold extractProductId
  have h1 : lookupField (recordEntries f) "product_id" = some (optJ f.productId) := rfl
  rw [show pickFirst (.obj ((recordEntries f).filter (fun e => keepVal e.2)))
      PRODUCT_KEYS_id
      = pickFirstAux ((recordEntries f).filter (fun e => keepVal e.2))
        ("product_id" :: "productId" :: "id" :: "sku" :: "sku_id"
          :: ["item_id", "variant_id"]) from rfl]
  cases hq : f.productId with
  | some v =>
    rw [hq] at h1
    rcases hspid v hq with ⟨q, rfl⟩ | ⟨s, rfl, hst, hsne⟩
    · rw [pickFirstAux_hit _ _ _ _ (lookupFR_present f "product_id" (.num q) h1 rfl) rfl]
    · have hkeep : keepVal (.str s) = true := by
        simp [keepVal, hst, hsne]
      rw [pickFirstAux_hit _ _ _ _ (lookupFR_present f "product_id" (.str s) h1 hkeep) rfl]
      dsimp only
      rw [show jsToString (.str s) = s from rfl, hst]
      rw [if_neg hsne]
  | none =>
    rcases hside with hsku0 | hne
    · rw [hq] at h1
      have h2 : lookupField (recordEntries f) "sku_id" = some (optJ f.skuId) := rfl
      rw [hsku0] at h2
      rw [pickFirstAux_skip _ _ _ (lookupFR_dropped f "product_id" .null h1 rfl)]
      rw [pickFirstAux_skip _ _ _ (lookupFR_absent f "productId" rfl)]
      rw [pickFirstAux_skip _ _ _ (lookupFR_absent f "id" rfl)]
      rw [pickFirstAux_skip _ _ _ (lookupFR_absent f "sku" rfl)]
      rw [pickFirstAux_skip _ _ _ (lookupFR_dropped f "sku_id" .null h2 rfl)]
      rw [pickFirstAux_skip _ _ _ (lookupFR_absent f "item_id" rfl)]
      rw [pickFirstAux_skip _ _ _ (lookupFR_absent f "variant_id" rfl)]
      rfl
    · exact absurd hq hne

/-- Re-extraction of the quantity from a normalized record. -/
theorem extractQuantity_FR (f : NormFields) (hsq : qtyShape f.quantity) :
    extractQuantity (.obj ((recordEntries f).filter (fun e => keepVal e.2)))
      = f.quantity := by
  unfold extractQuantity
  have hrest : ∀ _h : True, pickFirstAux ((recordEntries f).filter (fun e => keepVal e.2))
      ["qty", "pack_size", "packSize", "net_quantity", "netQuantity", "weight",
        "volume", "size"] = none := by
    intro _
    refine pickFR_none_of_all _ _ ?_
    intro k hk
    simp only [List.mem_cons, List.not_mem_nil, or_false] at hk
    rcases hk with rfl | rfl | rfl | rfl | rfl | rfl | rfl | rfl <;>
      exact lookupFR_absent f _ rfl
  have h1 : lookupField (recordEntries f) "quantity" = some (optJ f.quantity) := rfl
  rw [show pickFirst (.obj ((recordEntries f).filter (fun e => keepVal e.2)))
      PRODUCT_KEYS_quantity
      = pickFirstAux ((recordEntries f).filter (fun e => keepVal e.2))
        ("quantity" :: ["qty", "pack_size", "packSize", "net_quantity", "netQuantity",
          "weight", "volume", "size"]) from rfl]
  cases hq : f.quantity with
  | some v =>
    rw [hq] at h1
    rcases hsq v hq with ⟨q, rfl⟩ | ⟨t, rfl, htt, htne, htn⟩
    · rw [pickFirstAux_hit _ _ _ _ (lookupFR_present f "quantity" (.num q) h1 rfl) rfl]
      unfold quantityFromValue
      rfl
    · have hkeep : keepVal (.str t) = true := by
        simp [keepVal, htt, htne]
      rw [pickFirstAux_hit _ _ _ _ (lookupFR_present f "quantity" (.str t) h1 hkeep) rfl]
      unfold quantityFromValue
      dsimp only
      rw [htt]
      rw [if_neg htne, htn]
  | none =>
    rw [hq] at h1
    rw [pickFirstAux_skip _ _ _ (lookupFR_dropped f "quantity" .null h1 rfl)]
    rw [hrest trivial]

/-- The raw URL lookup on a normalized record. -/
theorem pickUrl_FR (f : NormFields) (hsurl : urlShape f.productUrl) :
    pickFirst (.obj ((recordEntries f).filter (fun e => keepVal e.2))) PRODUCT_KEYS_url
      = match f.productUrl with
        | some u => some (.str u)
        | none => none := by
  have hrest : ∀ _h : True, pickFirstAux ((recordEntries f).filter (fun e => keepVal e.2))
      ["productUrl", "url", "slug"] = none := by
    intro _
    refine pickFR_none_of_all _ _ ?_
    intro k hk
    simp only [List.mem_cons, List.not_mem_nil, or_false] at hk
    rcases hk with rfl | rfl | rfl <;> exact lookupFR_absent f _ rfl
  have h1 : lookupField (recordEntries f) "product_url" = some (optStr f.productUrl) := rfl
  rw [show pickFirst (.obj ((recordEntries f).filter (fun e => keepVal e.2)))
      PRODUCT_KEYS_url
      = pickFirstAux ((recordEntries f).filter (fun e => keepVal e.2))
        ("product_url" :: ["productUrl", "url", "slug"]) from rfl]
  cases hq : f.productUrl with
  | some u =>
    rw [hq] at h1
    have hune : u ≠ "" :=
      ne_empty_of_startsWith u "http" (by decide) (hsurl u hq).2
    have hkeep : keepVal (.str u) = true := by
      simp [keepVal, (hsurl u hq).1, hune]
    rw [pickFirstAux_hit _ _ _ _ (lookupFR_present f "product_url" (.str u) h1 hkeep) rfl]
  | none =>
    rw [hq] at h1
    rw [pickFirstAux_skip _ _ _ (lookupFR_dropped f "product_url" .null h1 rfl)]
    rw [hrest trivial]

/-- Recomputing the product URL on a normalized record returns the stored
URL (or stays absent, the id/name synthesis having already failed). -/
theorem computeUrl_FR (f : NormFields) (hsurl : urlShape f.productUrl)
    (pid : Option JSON) (pname : Option String)
    (hpid : pid = f.productId)
    (hname : strTruthy pname = strTruthy f.productName)
    (hnone : f.productUrl = none → (jTruthy f.productId && strTruthy f.productName) = false) :
    computeProductUrl
      (jsOr ((pickFirst (.obj ((recordEntries f).filter (fun e => keepVal e.2)))
          PRODUCT_KEYS_url).getD .null)
        (jsOr ((pickFirst (.obj ((recordEntries f).filter (fun e => keepVal e.2)))
          PRODUCT_KEYS_url).getD .null) .null))
      pid pname
      = f.productUrl := by
  cases hq : f.productUrl with
  | some u =>
    rw [pickUrl_FR f hsurl, hq]
    have hune : u ≠ "" := ne_empty_of_startsWith u "http" (by decide) (hsurl u hq).2
    have htru : jsTruthy (.str u) = true := by
      simp [jsTruthy, hune]
    have hjs : jsOr ((some (JSON.str u)).getD .null)
        (jsOr ((some (JSON.str u)).getD .null) .null) = .str u := by
      show jsOr (.str u) (jsOr (.str u) .null) = .str u
      unfold jsOr
      rw [if_pos htru]
    rw [hjs]
    unfold computeProductUrl
    dsimp only
    rw [(hsurl u hq).1]
    rw [if_pos (show u ≠ "" from hune)]
    rw [if_pos ((hsurl u hq).2)]
  | none =>
    rw [pickUrl_FR f hsurl, hq]
    rw [show jsOr ((none : Option JSON).getD .null)
      (jsOr ((none : Option JSON).getD .null) .null) = .null from rfl]
    unfold computeProductUrl
    dsimp only
    rw [if_neg ?hc]
    case hc =>
      intro hcond
      have hA : jTruthy f.productId = true := by rw [← hpid]; exact hcond.1
      have hB : strTruthy f.productName = true := by rw [← hname]; exact hcond.2
      have := hnone hq
      rw [hA, hB] at this
      exact absurd this (by simp)

/-- Entry-wise compaction-equivalence gives equal compacted field lists. -/
theorem filter_keep_congr : ∀ (L M : List (String × JSON)), List.Forall₂ entEq L M →
    L.filter (fun e => keepVal e.2) = M.filter (fun e => keepVal e.2) := by
  intro L M h
  induction h with
  | nil => rfl
  | cons hab h ih =>
    rcases hab with rfl | ⟨hka, hkb, _⟩
    · simp only [List.filter_cons]
      rw [ih]
    · rw [List.filter_cons, List.filter_cons, hka, hkb]
      simp only [Bool.false_eq_true, if_false]
      exact ih

/-- Compaction-equivalence of two optional trimmed string entries related
by empty-string normalization. -/
theorem entEq_optStr_trim (k : String) (a b : Option String)
    (htrim : ∀ s, b = some s → jsTrim s = s)
    (h : a = strRenorm b) :
    entEq (k, optStr a) (k, optStr b) := by
  cases b with
  | some s =>
    dsimp only [strRenorm] at h
    by_cases hse : s = ""
    · rw [if_pos hse] at h
      right
      refine ⟨?_, ?_, rfl⟩
      · rw [h]
        rfl
      · show keepVal (optStr (some s)) = false
        subst hse
        rfl
    · rw [if_neg hse] at h
      left
      rw [h]
  | none =>
    dsimp only [strRenorm] at h
    left
    rw [h]

/-- Compaction-equivalence for the image entry (kept verbatim, dropped on
blank-trimming values). -/
theorem entEq_optStr_img (k : String) (a b : Option String)
    (h : a = imgRenorm b) :
    entEq (k, optStr a) (k, optStr b) := by
  cases b with
  | some s =>
    dsimp only [imgRenorm] at h
    by_cases hse : jsTrim s = ""
    · rw [if_pos hse] at h
      right
      refine ⟨?_, ?_, rfl⟩
      · rw [h]
        rfl
      · show keepVal (.str s) = false
        simp [keepVal, hse]
    · rw [if_neg hse] at h
      left
      rw [h]
  | none =>
    dsimp only [imgRenorm] at h
    left
    rw [h]

/-- The truthiness of the re-extracted name equals the original's. -/
theorem strTruthy_renorm (b : Option String) :
    strTruthy (match b with
      | some s => if s = "" then none else some s
      | none => none) = strTruthy b := by
  cases b with
  | some s =>
    dsimp only
    by_cases hse : s = ""
    · rw [if_pos hse]
      subst hse
      rfl
    · rw [if_neg hse]
  | none => rfl

/-- Entry-wise equivalence of two record field vectors. -/
theorem recordEntries_forall2 (g f : NormFields)
    (e1 : entEq ("product_name", optStr g.productName) ("product_name", optStr f.productName))
    (e2 : entEq ("price", optNum g.price) ("price", optNum f.price))
    (e3 : entEq ("original_price", optNum g.originalPrice)
      ("original_price", optNum f.originalPrice))
    (e4 : entEq ("discount_percentage", optStr g.discount)
      ("discount_percentage", optStr f.discount))
    (e5 : entEq ("product_image", optStr g.image) ("product_image", optStr f.image))
    (e6 : entEq ("availability", optStr (jsOrStr g.availability (some "Unknown")))
      ("availability", optStr (jsOrStr f.availability (some "Unknown"))))
    (e7 : entEq ("delivery_time", optStr g.delivery) ("delivery_time", optStr f.delivery))
    (e8 : entEq ("product_url", optStr g.productUrl) ("product_url", optStr f.productUrl))
    (e9 : entEq ("product_id", optJ g.productId) ("product_id", optJ f.productId))
    (e10 : entEq ("sku_id", optJ g.skuId) ("sku_id", optJ f.skuId))
    (e11 : entEq ("brand", optStr g.brand) ("brand", optStr f.brand))
    (e12 : entEq ("quantity", optJ g.quantity) ("quantity", optJ f.quantity))
    (e13 : entEq ("unit", optStr g.unit) ("unit", optStr f.unit))
    (e14 : entEq ("rating", optNum g.rating) ("rating", optNum f.rating))
    (e15 : entEq ("ratings_count", optInt g.ratingsCount)
      ("ratings_count", optInt f.ratingsCount))
    (e16 : entEq ("inventory", optInt g.inventory) ("inventory", optInt f.inventory)) :
    List.Forall₂ entEq (recordEntries g) (recordEntries f) := by
  unfold recordEntries
  exact List.Forall₂.cons e1 (List.Forall₂.cons e2 (List.Forall₂.cons e3
    (List.Forall₂.cons e4 (List.Forall₂.cons e5 (List.Forall₂.cons e6
    (List.Forall₂.cons e7 (List.Forall₂.cons e8 (List.Forall₂.cons e9
    (List.Forall₂.cons e10 (List.Forall₂.cons e11 (List.Forall₂.cons e12
    (List.Forall₂.cons e13 (List.Forall₂.cons e14 (List.Forall₂.cons e15
    (List.Forall₂.cons e16 List.Forall₂.nil)))))))))))))))

/-- Re-normalizing a normalized record reproduces it, provided the record
does not expose `sku_id` without `product_id` (the id-promotion corner). -/
theorem normalizeProduct_FR (f : NormFields) (hs : normShape f)
    (hside : f.skuId = none ∨ f.productId ≠ none) :
    normalizeProduct (.obj ((recordEntries f).filter (fun e => keepVal e.2)))
      = .obj ((recordEntries f).filter (fun e => keepVal e.2)) := by
  obtain ⟨hsn, hsd, hsdel, hsav, hsb, hsu, hspid, hssku, hsq, hsurl, hsurlnone⟩ := hs
  have hbase := productBase_FR f
  have hgname : (normFields (.obj ((recordEntries f).filter
      (fun e => keepVal e.2)))).productName
      = match f.productName with
        | some s => if s = "" then none else some s
        | none => none := by
    show jsOrStr
      (extractName (productBase (.obj ((recordEntries f).filter (fun e => keepVal e.2)))))
      (extractName (.obj ((recordEntries f).filter (fun e => keepVal e.2)))) = _
    rw [hbase, jsOrStr_self, extractName_FR f hsn]
  have hgprice : (normFields (.obj ((recordEntries f).filter
      (fun e => keepVal e.2)))).price = f.price := by
    show (extractPrice (productBase (.obj ((recordEntries f).filter (fun e => keepVal e.2))))
      <|> extractPrice (.obj ((recordEntries f).filter (fun e => keepVal e.2)))) = _
    rw [hbase, orElse_self, extractPrice_FR f]
  have hgorig : (normFields (.obj ((recordEntries f).filter
      (fun e => keepVal e.2)))).originalPrice = f.originalPrice := by
    show (extractOriginalPrice
        (productBase (.obj ((recordEntries f).filter (fun e => keepVal e.2))))
      <|> extractOriginalPrice (.obj ((recordEntries f).filter (fun e => keepVal e.2)))) = _
    rw [hbase, orElse_self, extractOriginalPrice_FR f]
  have hgdisc : (normFields (.obj ((recordEntries f).filter
      (fun e => keepVal e.2)))).discount
      = match f.discount with
        | some s => if s = "" then none else some s
        | none => none := by
    show (extractDiscount (productBase (.obj ((recordEntries f).filter (fun e => keepVal e.2))))
      <|> extractDiscount (.obj ((recordEntries f).filter (fun e => keepVal e.2)))) = _
    rw [hbase, orElse_self, extractDiscount_FR f hsd]
  have hgimg : (normFields (.obj ((recordEntries f).filter
      (fun e => keepVal e.2)))).image
      = match f.image with
        | some s => if jsTrim s = "" then none else some s
        | none => none := by
    show (extractImage (productBase (.obj ((recordEntries f).filter (fun e => keepVal e.2))))
      <|> extractImage (.obj ((recordEntries f).filter (fun e => keepVal e.2)))) = _
    rw [hbase, orElse_self, extractImage_FR f]
  have hgavail : (normFields (.obj ((recordEntries f).filter
      (fun e => keepVal e.2)))).availability = f.availability := by
    show (extractAvailability
        (productBase (.obj ((recordEntries f).filter (fun e => keepVal e.2))))
      <|> extractAvailability (.obj ((recordEntries f).filter (fun e => keepVal e.2)))) = _
    rw [hbase, orElse_self, extractAvailability_FR f hsav]
  have hgdel : (normFields (.obj ((recordEntries f).filter
      (fun e => keepVal e.2)))).delivery
      = match f.delivery with
        | some s => if s = "" then none else some s
        | none => none := by
    show (extractDelivery (productBase (.obj ((recordEntries f).filter (fun e => keepVal e.2))))
      <|> extractDelivery (.obj ((recordEntries f).filter (fun e => keepVal e.2)))) = _
    rw [hbase, orElse_self, extractDelivery_FR f hsdel]
  have hgpid : (normFields (.obj ((recordEntries f).filter
      (fun e => keepVal e.2)))).productId = f.productId := by
    show (extractProductId (productBase (.obj ((recordEntries f).filter (fun e => keepVal e.2))))
      <|> extractProductId (.obj ((recordEntries f).filter (fun e => keepVal e.2)))) = _
    rw [hbase, orElse_self, extractProductId_FR f hspid hside]
  have hgsku : (normFields (.obj ((recordEntries f).filter
      (fun e => keepVal e.2)))).skuId = f.skuId := by
    show (extractSkuId (productBase (.obj ((recordEntries f).filter (fun e => keepVal e.2))))
      <|> extractSkuId (.obj ((recordEntries f).filter (fun e => keepVal e.2)))) = _
    rw [hbase, orElse_self, extractSkuId_FR f hssku]
  have hgbrand : (normFields (.obj ((recordEntries f).filter
      (fun e => keepVal e.2)))).brand = f.brand := by
    show (extractBrand (productBase (.obj ((recordEntries f).filter (fun e => keepVal e.2))))
      <|> extractBrand (.obj ((recordEntries f).filter (fun e => keepVal e.2)))) = _
    rw [hbase, orElse_self, extractBrand_FR f hsb]
  have hgqty : (normFields (.obj ((recordEntries f).filter
      (fun e => keepVal e.2)))).quantity = f.quantity := by
    show (extractQuantity (productBase (.obj ((recordEntries f).filter (fun e => keepVal e.2))))
      <|> extractQuantity (.obj ((recordEntries f).filter (fun e => keepVal e.2)))) = _
    rw [hbase, orElse_self, extractQuantity_FR f hsq]
  have hgunit : (normFields (.obj ((recordEntries f).filter
      (fun e => keepVal e.2)))).unit = f.unit := by
    show (extractUnit (productBase (.obj ((recordEntries f).filter (fun e => keepVal e.2))))
      <|> extractUnit (.obj ((recordEntries f).filter (fun e => keepVal e.2)))) = _
    rw [hbase, orElse_self, extractUnit_FR f hsu]
  have hgrating : (normFields (.obj ((recordEntries f).filter
      (fun e => keepVal e.2)))).rating = f.rating := by
    show (extractRating (productBase (.obj ((recordEntries f).filter (fun e => keepVal e.2))))
      <|> extractRating (.obj ((recordEntries f).filter (fun e => keepVal e.2)))) = _
    rw [hbase, orElse_self, extractRating_FR f]
  have hgrc : (normFields (.obj ((recordEntries f).filter
      (fun e => keepVal e.2)))).ratingsCount = f.ratingsCount := by
    show (extractRatingsCount
        (productBase (.obj ((recordEntries f).filter (fun e => keepVal e.2))))
      <|> extractRatingsCount (.obj ((recordEntries f).filter (fun e => keepVal e.2)))) = _
    rw [hbase, orElse_self, extractRatingsCount_FR f]
  have hginv : (normFields (.obj ((recordEntries f).filter
      (fun e => keepVal e.2)))).inventory = f.inventory := by
    show (extractInventory (productBase (.obj ((recordEntries f).filter (fun e => keepVal e.2))))
      <|> extractInventory (.obj ((recordEntries f).filter (fun e => keepVal e.2)))) = _
    rw [hbase, orElse_self, extractInventory_FR f]
  have hgurl : (normFields (.obj ((recordEntries f).filter
      (fun e => keepVal e.2)))).productUrl = f.productUrl := by
    show computeProductUrl
      (jsOr ((pickFirst (productBase (.obj ((recordEntries f).filter (fun e => keepVal e.2))))
          PRODUCT_KEYS_url).getD .null)
        (jsOr ((pickFirst (.obj ((recordEntries f).filter (fun e => keepVal e.2)))
          PRODUCT_KEYS_url).getD .null) .null))
      (extractProductId (productBase (.obj ((recordEntries f).filter (fun e => keepVal e.2))))
        <|> extractProductId (.obj ((recordEntries f).filter (fun e => keepVal e.2))))
      (jsOrStr
        (extractName (productBase (.obj ((recordEntries f).filter (fun e => keepVal e.2)))))
        (extractName (.obj ((recordEntries f).filter (fun e => keepVal e.2))))) = _
    rw [hbase]
    refine computeUrl_FR f hsurl _ _ ?_ ?_ hsurlnone
    · rw [orElse_self, extractProductId_FR f hspid hside]
    · rw [jsOrStr_self, extractName_FR f hsn, strTruthy_renorm]
  show JSON.obj ((recordEntries (normFields (.obj ((recordEntries f).filter
      (fun e => keepVal e.2))))).filter (fun e => keepVal e.2))
    = .obj ((recordEntries f).filter (fun e => keepVal e.2))
  refine congrArg JSON.obj ?_
  refine filter_keep_congr _ _ ?_
  refine recordEntries_forall2 _ f ?_ ?_ ?_ ?_ ?_ ?_ ?_ ?_ ?_ ?_ ?_ ?_ ?_ ?_ ?_ ?_
  · exact entEq_optStr_trim _ _ _ hsn hgname
  · exact Or.inl (by rw [hgprice])
  · exact Or.inl (by rw [hgorig])
  · exact entEq_optStr_trim _ _ _ hsd hgdisc
  · exact entEq_optStr_img _ _ _ hgimg
  · exact Or.inl (by rw [hgavail])
  · exact entEq_optStr_trim _ _ _ hsdel hgdel
  · exact Or.inl (by rw [hgurl])
  · exact Or.inl (by rw [hgpid])
  · exact Or.inl (by rw [hgsku])
  · exact Or.inl (by rw [hgbrand])
  · exact Or.inl (by rw [hgqty])
  · exact Or.inl (by rw [hgunit])
  · exact Or.inl (by rw [hgrating])
  · exact Or.inl (by rw [hgrc])
  · exact Or.inl (by rw [hginv])

/-! ## C5: the claim -/

/-- Counterexample to C5 as stated: normalizing the already-normalized
record of `{skuId:"S1", name:"X", price:5}` adds a `product_id` (the
`sku_id` field matches the id alias list on re-extraction, which then also
synthesizes a `product_url`), so normalization is not idempotent. -/
theorem normalize_idempotence_counterexample :
    getProp (normalizeProduct skuCandidate) "product_id" = none
    ∧ getProp (normalizeProduct (normalizeProduct skuCandidate)) "product_id"
        = some (.str "S1")
    ∧ normalizeProduct (normalizeProduct skuCandidate) ≠ normalizeProduct skuCandidate := by
  refine ⟨by with_unfolding_all rfl, by with_unfolding_all rfl, ?_⟩
  intro heq
  have h1 : getProp (normalizeProduct skuCandidate) "product_id" = none := by
    with_unfolding_all rfl
  have h2 : getProp (normalizeProduct (normalizeProduct skuCandidate)) "product_id"
      = some (.str "S1") := by
    with_unfolding_all rfl
  rw [heq, h1] at h2
  exact Option.noConfusion h2

/-- C5 (amended) — normalization is idempotent on every record it
produces except for the id-promotion corner: whenever the normalized
record does not carry a `sku_id` without a `product_id`, a second
`normalizeProduct` returns it unchanged. -/
theorem normalize_idempotent_unless_sku_promotion (raw : JSON)
    (hside : getProp (normalizeProduct raw) "sku_id" = none
      ∨ getProp (normalizeProduct raw) "product_id" ≠ none) :
    normalizeProduct (normalizeProduct raw) = normalizeProduct raw := by
  have hs := normFields_shape raw
  have hside' : (normFields raw).skuId = none ∨ (normFields raw).productId ≠ none := by
    rcases hside with h | h
    · left
      cases hq : (normFields raw).skuId with
      | none => rfl
      | some v =>
        exfalso
        have hrec := getRecord_sku_id (normFields raw)
        rw [hq] at hrec
        have hkeep : keepVal (optJ (some v)) = true := by
          rcases hs.2.2.2.2.2.2.2.1 v hq with ⟨q, rfl⟩ | ⟨s, rfl, hst, hsne⟩
          · rfl
          · simp [optJ, keepVal, hst, hsne]
        rw [hkeep] at hrec
        rw [show getProp (normalizeProduct raw) "sku_id"
          = getProp (compactObject (.obj (recordEntries (normFields raw)))) "sku_id"
          from rfl] at h
        rw [hrec] at h
        simp at h
    · right
      intro hq
      apply h
      have hrec := getRecord_product_id (normFields raw)
      rw [hq] at hrec
      rw [show getProp (normalizeProduct raw) "product_id"
        = getProp (compactObject (.obj (recordEntries (normFields raw)))) "product_id"
        from rfl]
      rw [hrec]
      rfl
  exact normalizeProduct_FR (normFields raw) hs hside'

/-- Witness for the amended C5 at a plain candidate with an `id`. -/
theorem normalize_idempotent_unless_sku_promotion_witness :
    normalizeProduct (normalizeProduct
      (.obj [("name", .str "X"), ("price", .num 5), ("id", .str "S1")]))
      = normalizeProduct (.obj [("name", .str "X"), ("price", .num 5), ("id", .str "S1")]) :=
  normalize_idempotent_unless_sku_promotion
    (.obj [("name", .str "X"), ("price", .num 5), ("id", .str "S1")])
    (Or.inr (fun hnone => by
      have h0 : getProp (normalizeProduct
          (.obj [("name", .str "X"), ("price", .num 5), ("id", .str "S1")])) "product_id"
          = some (.str "S1") := by
        with_unfolding_all rfl
      rw [h0] at hnone
      exact Option.noConfusion hnone))
